import Mathlib

/-!
# tensorflow-deploy: the servable configuration and the model service

A shallow embedding of `serving/modelsconfigurer.go`, `serving/utils.go`,
`metadata/sqldb/model.go`, `metadata/metadata.go` and `service/model.go`.

Conventions of the embedding

* `int64` values (versions, row ids) are `Int`; the only arithmetic on them is
  `metadata.NextVersion`, which is embedded with its wrap-around test.
* A Go `map[string]int64` is a list of key/value pairs with distinct keys.  The
  protobuf wire format has no encoding for an empty map, so a label map read back
  from storage is `nil` exactly when it has no entry: `nil` is the empty list.
* Storage and database calls succeed unless the source itself returns an error
  (a missing row, a violated unique index, an existing directory).
-/

namespace TFDeploy

/-! ## app: identifiers -/

/-- The constant `app.StableLabel`. -/
def StableLabel : String := "stable"

/-- The constant `app.PrevStableLabel`. -/
def PrevStableLabel : String := "last_stable"

/-- The struct `app.ServableID`. -/
structure ServableID where
  team : String
  project : String
  name : String
deriving DecidableEq, Repr

/-- The struct `app.ModelID`: a `ServableID` with a version and a label. -/
structure ModelID extends ServableID where
  version : Int
  label : String
deriving DecidableEq, Repr

deriving instance DecidableEq for Except

/-! ## Go maps from labels to versions -/

/-- A `map[string]int64`: key/value pairs with distinct keys. -/
structure LabelMap where
  entries : List (String × Int)
  nodupKeys : (entries.map Prod.fst).Nodup
deriving DecidableEq

namespace LabelMap

/-- The `nil` map, which is also what an empty map is read back as. -/
def empty : LabelMap := ⟨[], List.nodup_nil⟩

/-- The test `labels == nil` on a map read from storage. -/
def isNil (m : LabelMap) : Bool := m.entries.isEmpty

/-- Lookup in a list of pairs, first match. -/
def findIn (k : String) : List (String × Int) → Option Int
  | [] => none
  | p :: rest => if p.1 = k then some p.2 else findIn k rest

/-- The two-valued lookup `v, ok := labels[k]`. -/
def find (m : LabelMap) (k : String) : Option Int := findIn k m.entries

/-- The one-valued lookup `labels[k]`: the zero value when the key is absent. -/
def get (m : LabelMap) (k : String) : Int := (m.find k).getD 0

/-- Assignment in a list of pairs: overwrite the key in place, or add it. -/
def setIn (k : String) (v : Int) : List (String × Int) → List (String × Int)
  | [] => [(k, v)]
  | p :: rest => if p.1 = k then (k, v) :: rest else p :: setIn k v rest

/-- The assignment `labels[k] = v`. -/
def set (m : LabelMap) (k : String) (v : Int) : LabelMap :=
  ⟨setIn k v m.entries, by
    have keys : ∀ l : List (String × Int), (setIn k v l).map Prod.fst =
        if k ∈ l.map Prod.fst then l.map Prod.fst else l.map Prod.fst ++ [k] := by
      intro l
      induction l with
      | nil => simp [setIn]
      | cons p rest ih =>
        by_cases h : p.1 = k
        · simp [setIn, h]
        · have h2 : ¬ k = p.1 := fun e => h e.symm
          simp only [setIn, h, if_false, List.map_cons, List.mem_cons, h2, false_or, ih]
          split <;> simp
    rw [keys]
    split
    · exact m.nodupKeys
    · rename_i hk
      exact List.nodup_append.mpr ⟨m.nodupKeys, List.nodup_singleton k, by
        intro a ha hb
        simp only [List.mem_singleton] at hb
        exact hk (hb ▸ ha)⟩⟩

/-- Keep the pairs that satisfy `p`; the keys stay distinct. -/
def filter (m : LabelMap) (p : String × Int → Bool) : LabelMap :=
  ⟨m.entries.filter p, (m.nodupKeys.sublist ((List.filter_sublist m.entries).map Prod.fst))⟩

end LabelMap

/-! ## serving/utils.go -/

/-- The function `removeVersionLabels`: copy every pair whose value is not `version`. -/
def removeVersionLabels (labels : LabelMap) (version : Int) : LabelMap :=
  labels.filter (fun p => !(p.2 == version))

/-- The function `removeLabel`: copy every pair whose key is not `label`. -/
def removeLabel (labels : LabelMap) (label : String) : LabelMap :=
  labels.filter (fun p => !(p.1 == label))

/-- The function `isLabelStable`: `labels[app.StableLabel] == version`. -/
def isLabelStable (labels : LabelMap) (version : Int) : Bool :=
  labels.get StableLabel == version

/-- The function `versionByLabel`: the two-valued lookup. -/
def versionByLabel (labels : LabelMap) (label : String) : Option Int :=
  labels.find label

/-! ## serving/modelsconfigurer.go -/

/-- Modelled from the spec: the protobuf message `ModelConfig` of the package
`serving/protobuf`, which is not part of the sources.  Its fields are the ones the
spec lists for a blob entry (`name`, `basePath`, `modelPlatform`,
`modelVersionPolicy.specific.versions[]`, `versionLabels{}`); the version policy is
the `specific` one, as in every entry `AddModel` creates. -/
structure ModelConfig where
  name : String
  basePath : String
  modelPlatform : String
  versions : List Int
  versionLabels : LabelMap
deriving DecidableEq

/-- The list `ModelServerConfig.ModelConfigList.Config` of a blob. -/
abbrev ModelServerConfig := List ModelConfig

/-- The interface `ConfigStorage`: the blob stored for a (team, project), if any. -/
abbrev ConfigStorage := String → String → Option ModelServerConfig

/-- The errors `errVersionNotFound`, `errUpdateLabel`, `errRemovingModelHasStableLabel`. -/
inductive ServingError where
  | errVersionNotFound
  | errUpdateLabel
  | errRemovingModelHasStableLabel
deriving DecidableEq, Repr

/-- The struct `ServableConfig` (the mutex has no counterpart in a sequential model). -/
structure ServableConfig where
  storage : ConfigStorage
  defaultLabel : String

namespace ServableConfig

/-- The method `Config`: the stored blob, or the empty initial blob when none is stored. -/
def Config (sc : ServableConfig) (team project : String) : ModelServerConfig :=
  (sc.storage team project).getD []

/-- The method `saveModel`: replace the blob stored for (team, project). -/
def saveModel (sc : ServableConfig) (msc : ModelServerConfig) (team project : String) :
    ServableConfig :=
  { sc with storage := fun t p => if t = team ∧ p = project then some msc else sc.storage t p }

end ServableConfig

/-- The element `AddModel` creates when no entry has the name (lines 124-136). -/
def newModelConfig (id : ModelID) : ModelConfig :=
  { name := id.name
    basePath := "/models/" ++ id.team ++ "/" ++ id.project ++ "/" ++ id.name
    modelPlatform := "tensorflow"
    versions := [1]
    versionLabels := LabelMap.empty.set id.label id.version }

/-- The loop of `AddModel` over the entries, followed by the creation of a new element
when the loop ends without a match.  `id.label` is the label after the default was set. -/
def addModelConfigs (id : ModelID) : List ModelConfig → Except ServingError (List ModelConfig)
  | [] => .ok [newModelConfig id]
  | v :: rest =>
    if v.name = id.name then
      let v1 := { v with versions := v.versions ++ [id.version] }
      if id.label ≠ "" then
        if v.versionLabels.isNil then .error .errVersionNotFound
        else .ok ({ v1 with versionLabels := v.versionLabels.set id.label id.version } :: rest)
      else .ok (v1 :: rest)
    else
      match addModelConfigs id rest with
      | .error e => .error e
      | .ok rest1 => .ok (v :: rest1)

/-- The loop of `UpdateLabel`: the previous version of the label and the new entries. -/
def updateLabelConfigs (id : ModelID) :
    List ModelConfig → Except ServingError (Int × List ModelConfig)
  | [] => .error .errUpdateLabel
  | v :: rest =>
    if v.name = id.name then
      .ok (v.versionLabels.get id.label,
        { v with versionLabels := v.versionLabels.set id.label id.version } :: rest)
    else
      match updateLabelConfigs id rest with
      | .error e => .error e
      | .ok (prev, rest1) => .ok (prev, v :: rest1)

/-- The inner loop of `RemoveModel` over `availableVersions`: the versions kept so far
and the label map of the entry, replaced each time the version is met. -/
def removeModelVersions (labels : LabelMap) (version : Int) (availableVersions : List Int)
    (current : LabelMap) : List Int × LabelMap :=
  availableVersions.foldl
    (fun acc ver =>
      if ver = version then (acc.1, removeVersionLabels labels version)
      else (acc.1 ++ [ver], acc.2))
    ([], current)

/-- The loop of `RemoveModel`: `none` when it ends without saving. -/
def removeModelConfigs (id : ModelID) :
    List ModelConfig → Except ServingError (Option (List ModelConfig))
  | [] => .ok none
  | v :: rest =>
    if v.name = id.name then
      if v.versionLabels.isNil then .error .errVersionNotFound
      else if isLabelStable v.versionLabels id.version then
        .error .errRemovingModelHasStableLabel
      else
        let r := removeModelVersions v.versionLabels id.version v.versions v.versionLabels
        if r.1.length ≠ v.versions.length then
          .ok (some ({ v with versions := r.1, versionLabels := r.2 } :: rest))
        else
          match removeModelConfigs id rest with
          | .error e => .error e
          | .ok none => .ok none
          | .ok (some rest1) => .ok (some (v :: rest1))
    else
      match removeModelConfigs id rest with
      | .error e => .error e
      | .ok none => .ok none
      | .ok (some rest1) => .ok (some (v :: rest1))

/-- The inner loop of `RemoveModelLabel`: every version is kept, and the label map is
replaced each time the version the label points at is met. -/
def removeModelLabelVersions (labels : LabelMap) (label : String) (versionLabel : Int)
    (availableVersions : List Int) (current : LabelMap) : List Int × LabelMap :=
  availableVersions.foldl
    (fun acc ver =>
      if ver = versionLabel then (acc.1 ++ [ver], removeLabel labels label)
      else (acc.1 ++ [ver], acc.2))
    ([], current)

/-- The loop of `RemoveModelLabel`: `none` when no entry has the name. -/
def removeModelLabelConfigs (id : ModelID) :
    List ModelConfig → Except ServingError (Option (List ModelConfig))
  | [] => .ok none
  | v :: rest =>
    if v.name = id.name then
      if v.versionLabels.isNil then .error .errVersionNotFound
      else
        match versionByLabel v.versionLabels id.label with
        | none => .error .errVersionNotFound
        | some versionLabel =>
          if isLabelStable v.versionLabels versionLabel then
            .error .errRemovingModelHasStableLabel
          else
            let r := removeModelLabelVersions v.versionLabels id.label versionLabel
              v.versions v.versionLabels
            .ok (some ({ v with versions := r.1, versionLabels := r.2 } :: rest))
    else
      match removeModelLabelConfigs id rest with
      | .error e => .error e
      | .ok none => .ok none
      | .ok (some rest1) => .ok (some (v :: rest1))

namespace ServableConfig

/-- The method `AddModel`: the returned error, if any, and the configuration after the call. -/
def AddModel (sc : ServableConfig) (id : ModelID) : Except ServingError Unit × ServableConfig :=
  let msc := sc.Config id.team id.project
  let id1 : ModelID := if id.label = "" then { id with label := sc.defaultLabel } else id
  match addModelConfigs id1 msc with
  | .error e => (.error e, sc)
  | .ok msc1 => (.ok (), sc.saveModel msc1 id.team id.project)

/-- The method `UpdateLabel`: the previous version or the error, and the configuration
after the call. -/
def UpdateLabel (sc : ServableConfig) (id : ModelID) : Except ServingError Int × ServableConfig :=
  match updateLabelConfigs id (sc.Config id.team id.project) with
  | .error e => (.error e, sc)
  | .ok (prev, msc1) => (.ok prev, sc.saveModel msc1 id.team id.project)

/-- The method `RemoveModel`. -/
def RemoveModel (sc : ServableConfig) (id : ModelID) : Except ServingError Unit × ServableConfig :=
  match removeModelConfigs id (sc.Config id.team id.project) with
  | .error e => (.error e, sc)
  | .ok none => (.ok (), sc)
  | .ok (some msc1) => (.ok (), sc.saveModel msc1 id.team id.project)

/-- The method `RemoveModelLabel`. -/
def RemoveModelLabel (sc : ServableConfig) (id : ModelID) :
    Except ServingError Unit × ServableConfig :=
  match removeModelLabelConfigs id (sc.Config id.team id.project) with
  | .error e => (.error e, sc)
  | .ok none => (.ok (), sc)
  | .ok (some msc1) => (.ok (), sc.saveModel msc1 id.team id.project)

end ServableConfig

/-! ## metadata/metadata.go -/

/-- The constant `metadata.StartVersion`. -/
def StartVersion : Int := 1

/-- The constants `app.StatusRunning`, `app.StatusReady`, `app.StatusPending`. -/
def StatusRunning : String := "running"

/-- The constant `app.StatusReady`. -/
def StatusReady : String := "ready"

/-- The constant `app.StatusPending`. -/
def StatusPending : String := "pending"

/-- The table `statuses` from status name to numeric id. -/
def statuses : List (String × Nat) :=
  [(StatusRunning, 1), (StatusReady, 2), (StatusPending, 3)]

/-- The errors of the metadata package and of `sqldb`; `constraintFailed` is the
database refusing an insert that violates a unique index, `nilDereference` a method
called on the nil record that `Get` returns for no row. -/
inductive MetadataError where
  | errorInvalidStatus
  | errorInvalidVersion
  | errorUpdateModel
  | errorDeleteModel
  | constraintFailed
  | nilDereference
deriving DecidableEq, Repr

/-- The function `StatusToName`. -/
def StatusToName (id : Nat) : Except MetadataError String :=
  match statuses.find? (fun kv => kv.2 == id) with
  | some kv => .ok kv.1
  | none => .error .errorInvalidStatus

/-- The function `StatusToID`. -/
def StatusToID (name : String) : Except MetadataError Nat :=
  match statuses.find? (fun kv => kv.1 == name) with
  | some kv => .ok kv.2
  | none => .error .errorInvalidStatus

/-- Two's-complement wrap-around of a 64-bit signed sum. -/
def wrapInt64 (x : Int) : Int := (x + 2 ^ 63) % 2 ^ 64 - 2 ^ 63

/-- The function `metadata.NextVersion`: `version + 1`, refused when it wrapped. -/
def NextVersion (version : Int) : Except MetadataError Int :=
  let nextVersion := wrapInt64 (version + 1)
  if nextVersion ≤ version then .error .errorInvalidVersion else .ok nextVersion

/-! ## metadata/sqldb/model.go -/

/-- A row of the table `model` of `cmd/bootstrap/bootstrap.go`; the two timestamp
columns are left out. -/
structure ModelRow where
  id : Int
  team : String
  project : String
  name : String
  version : Int
  label : String
  status : Nat
deriving DecidableEq, Repr

/-- The struct `app.ModelData`, without its timestamps. -/
structure ModelData extends ModelID where
  ID : Int
  status : String
deriving DecidableEq, Repr

/-- The type `app.QueryParameters`, restricted to the columns the callers filter on:
an absent field puts no condition on the column. -/
structure QueryParameters where
  team : Option String := none
  project : Option String := none
  name : Option String := none
  version : Option Int := none
  label : Option String := none
  status : Option String := none
deriving DecidableEq, Repr

/-- The table `model`: its rows in rowid order and the last id that AUTOINCREMENT
handed out. -/
structure ModelTable where
  rows : List ModelRow
  lastID : Int
deriving DecidableEq, Repr

/-- One condition `column = ?` of a WHERE clause. -/
def columnIs {α : Type} [DecidableEq α] (param : Option α) (column : α) : Bool :=
  match param with
  | none => true
  | some x => decide (column = x)

/-- The function `buildSearchQueryAndValues`: the WHERE clause as a predicate on rows;
a status name is converted with `StatusToID`, which may fail. -/
def buildSearchQueryAndValues (params : QueryParameters) :
    Except MetadataError (ModelRow → Bool) :=
  match params.status with
  | none =>
    .ok (fun r => columnIs params.team r.team && columnIs params.project r.project &&
      columnIs params.name r.name && columnIs params.version r.version &&
      columnIs params.label r.label)
  | some st =>
    match StatusToID st with
    | .error e => .error e
    | .ok statusID =>
      .ok (fun r => columnIs params.team r.team && columnIs params.project r.project &&
        columnIs params.name r.name && columnIs params.version r.version &&
        columnIs params.label r.label && decide (r.status = statusID))

/-- The scan of a row into an `app.ModelData`, with the status name looked up. -/
def scanRow (r : ModelRow) : Except MetadataError ModelData :=
  match StatusToName r.status with
  | .error e => .error e
  | .ok st =>
    .ok { team := r.team, project := r.project, name := r.name, version := r.version,
          label := r.label, ID := r.id, status := st }

/-- The unique indexes `idx_model` and `idx_model_label`: whether a row with these
columns may be inserted. -/
def insertAllowed (rows : List ModelRow) (m : ModelData) : Bool :=
  rows.all (fun r =>
    !(r.team == m.team && r.project == m.project && r.name == m.name &&
        r.version == m.version && r.label == m.label) &&
    !(m.label != "" && r.team == m.team && r.project == m.project && r.name == m.name &&
        r.label == m.label))

namespace ModelTable

/-- The method `Get`: one matching row (`LIMIT 1` without ORDER BY, taken here in rowid
order), or `none` for `sql.ErrNoRows`. -/
def Get (t : ModelTable) (params : QueryParameters) : Except MetadataError (Option ModelData) :=
  match buildSearchQueryAndValues params with
  | .error e => .error e
  | .ok cond =>
    match t.rows.find? cond with
    | none => .ok none
    | some r =>
      match scanRow r with
      | .error e => .error e
      | .ok m => .ok (some m)

/-- The statement `INSERT INTO model (...)` with the given status id. -/
def insert (t : ModelTable) (m : ModelData) (status : Nat) : Except MetadataError (Int × ModelTable) :=
  if insertAllowed t.rows m then
    let id := t.lastID + 1
    .ok (id, { rows := t.rows ++ [{ id := id, team := m.team, project := m.project,
                                     name := m.name, version := m.version, label := m.label,
                                     status := status }],
               lastID := id })
  else .error .constraintFailed

/-- The method `Add`. -/
def Add (t : ModelTable) (m : ModelData) : Except MetadataError Int × ModelTable :=
  match StatusToID m.status with
  | .error e => (.error e, t)
  | .ok status =>
    match t.insert m status with
    | .error e => (.error e, t)
    | .ok (id, t1) => (.ok id, t1)

/-- The method `UpdateStatus`: `UPDATE model SET status = ? WHERE id = ? AND status != ?`,
an error when no row was affected. -/
def UpdateStatus (t : ModelTable) (id : Int) (status : String) :
    Except MetadataError Unit × ModelTable :=
  match StatusToID status with
  | .error e => (.error e, t)
  | .ok statusID =>
    let affected := (t.rows.filter (fun r => r.id == id && r.status != statusID)).length
    if affected = 0 then (.error .errorUpdateModel, t)
    else
      (.ok (), { t with rows := t.rows.map (fun r =>
        if r.id == id && r.status != statusID then { r with status := statusID } else r) })

/-- The method `Delete`: `DELETE FROM model WHERE id = ?`, an error when no row was
affected. -/
def Delete (t : ModelTable) (id : Int) : Except MetadataError Unit × ModelTable :=
  let affected := (t.rows.filter (fun r => r.id == id)).length
  if affected = 0 then (.error .errorDeleteModel, t)
  else (.ok (), { t with rows := t.rows.filter (fun r => !(r.id == id)) })

/-- The method `NextVersion` of the table: the highest matching version
(`ORDER BY version DESC LIMIT 1`) plus one, or `StartVersion` when no row matches. -/
def NextVersion (t : ModelTable) (params : QueryParameters) : Except MetadataError Int :=
  match buildSearchQueryAndValues params with
  | .error e => .error e
  | .ok cond =>
    match ((t.rows.filter cond).map (fun r => r.version)).max? with
    | none => .ok StartVersion
    | some version => TFDeploy.NextVersion version

/-- The method `RemoveLabel`: `Get` by label, then `Delete` of the row found. -/
def RemoveLabel (t : ModelTable) (m : ModelData) : Except MetadataError Unit × ModelTable :=
  match t.Get { team := some m.team, project := some m.project, name := some m.name,
                label := some m.label } with
  | .error e => (.error e, t)
  | .ok none => (.error .nilDereference, t)
  | .ok (some currentLabeledModel) => t.Delete currentLabeledModel.ID

/-- The method `ChangeLabel`: in one transaction, delete the row that carries the label
(if any) and insert the new row; every failure rolls back to the table before. -/
def ChangeLabel (t : ModelTable) (m : ModelData) : Except MetadataError Unit × ModelTable :=
  match t.Get { team := some m.team, project := some m.project, name := some m.name,
                label := some m.label } with
  | .error e => (.error e, t)
  | .ok currentLabeledModel =>
    let deleted : Except MetadataError ModelTable :=
      match currentLabeledModel with
      | none => .ok t
      | some cur =>
        if (t.rows.filter (fun r => r.id == cur.ID)).length = 0 then .error .errorUpdateModel
        else .ok { t with rows := t.rows.filter (fun r => !(r.id == cur.ID)) }
    match deleted with
    | .error e => (.error e, t)
    | .ok t1 =>
      match StatusToID m.status with
      | .error e => (.error e, t)
      | .ok status =>
        match t1.insert m status with
        | .error e => (.error e, t)
        | .ok (_, t2) => (.ok (), t2)

/-- The method `List`: the matching rows, `none` for the nil slice returned when there
is none. -/
def List (t : ModelTable) (params : QueryParameters) :
    Except MetadataError (Option (List ModelData)) :=
  match buildSearchQueryAndValues params with
  | .error e => .error e
  | .ok cond =>
    match (t.rows.filter cond).mapM scanRow with
    | .error e => .error e
    | .ok models => if models.isEmpty then .ok none else .ok (some models)

end ModelTable

/-! ## storage/model.go and storage/filesystem/model.go -/

/-- An uploaded archive, reduced to what the save pipeline does with it: whether
`extractArchive` succeeds on it, and whether the extracted directory layout passes
`isDirectoryLayoutValid` against `directoryLayoutRegexp`. -/
structure Archive where
  extracts : Bool
  layoutValid : Bool
deriving DecidableEq, Repr

/-- The errors of the save pipeline. -/
inductive StorageError where
  | extractFailed
  | errInvalidDirectoryLayout
  | errModelAlreadyExists
deriving DecidableEq, Repr

/-- The model tree of the filesystem storage: the version directories
`{base}/{team}/{project}/{name}/{version}` that exist. -/
structure ModelsStorage where
  dirs : List (ServableID × Int)
deriving DecidableEq, Repr

namespace ModelsStorage

/-- Whether the version directory exists. -/
def exists_ (st : ModelsStorage) (id : ServableID) (version : Int) : Bool :=
  st.dirs.contains (id, version)

/-- The method `SaveModel`: stage the archive, extract it, validate the layout, then
`FSStorage.SaveModel`, which refuses an existing destination and otherwise renames the
staging directory to the version directory.  The staging directory is removed on every
failure, so a failed call leaves the model tree as it was. -/
def SaveModel (st : ModelsStorage) (id : ServableID) (version : Int) (archive : Archive) :
    Except StorageError Unit × ModelsStorage :=
  if !archive.extracts then (.error .extractFailed, st)
  else if !archive.layoutValid then (.error .errInvalidDirectoryLayout, st)
  else if st.exists_ id version then (.error .errModelAlreadyExists, st)
  else (.ok (), { dirs := st.dirs ++ [(id, version)] })

/-- The method `RemoveModel`: `os.RemoveAll` of the version directory. -/
def RemoveModel (st : ModelsStorage) (id : ServableID) (version : Int) : ModelsStorage :=
  { dirs := st.dirs.filter (fun d => !(d == (id, version))) }

end ModelsStorage

/-! ## service/model.go -/

/-- The errors a service call returns: its own, or the one of the component that failed. -/
inductive ServiceError where
  | errorModelNotFound
  | errorStableModelNotFound
  | errorPrevStableModelNotFound
  | metadata (e : MetadataError)
  | serving (e : ServingError)
  | storage (e : StorageError)
deriving DecidableEq, Repr

/-- The struct `app.LabelChanged`. -/
structure LabelChanged extends ServableID where
  label : String
  previousVersion : Int
  newVersion : Int
deriving DecidableEq, Repr

/-- The struct `ModelsService`, as the state of its three stores. -/
structure ModelsService where
  metadata : ModelTable
  servingConfig : ServableConfig
  storage : ModelsStorage

namespace ModelsService

/-- The method `SetLabel`. -/
def SetLabel (s : ModelsService) (model : ModelID) :
    Except ServiceError LabelChanged × ModelsService :=
  match s.metadata.Get { team := some model.team, project := some model.project,
                         name := some model.name, version := some model.version } with
  | .error e => (.error (.metadata e), s)
  | .ok none => (.error .errorModelNotFound, s)
  | .ok (some _) =>
    match s.servingConfig.UpdateLabel model with
    | (.error e, sc) => (.error (.serving e), { s with servingConfig := sc })
    | (.ok prevVersion, sc) =>
      let s1 := { s with servingConfig := sc }
      match s1.metadata.ChangeLabel { toModelID := model, ID := 0, status := StatusReady } with
      | (.error e, md) => (.error (.metadata e), { s1 with metadata := md })
      | (.ok _, md) =>
        let s2 := { s1 with metadata := md }
        let changed : LabelChanged :=
          { toServableID := model.toServableID, label := model.label,
            previousVersion := prevVersion, newVersion := model.version }
        if model.label = StableLabel ∧ prevVersion ≠ 0 then
          let lastStableModel : ModelID :=
            { toServableID := model.toServableID, version := prevVersion,
              label := PrevStableLabel }
          match s2.metadata.ChangeLabel
              { toModelID := lastStableModel, ID := 0, status := StatusReady } with
          | (.error e, md2) => (.error (.metadata e), { s2 with metadata := md2 })
          | (.ok _, md2) => (.ok changed, { s2 with metadata := md2 })
        else (.ok changed, s2)

/-- The method `Revert`. -/
def Revert (s : ModelsService) (id : ServableID) :
    Except ServiceError LabelChanged × ModelsService :=
  match s.metadata.Get { team := some id.team, project := some id.project,
                         name := some id.name, label := some StableLabel } with
  | .error e => (.error (.metadata e), s)
  | .ok none => (.error .errorStableModelNotFound, s)
  | .ok (some currentStableMeta) =>
    match s.metadata.Get { team := some id.team, project := some id.project,
                           name := some id.name, label := some PrevStableLabel } with
    | .error e => (.error (.metadata e), s)
    | .ok none => (.error .errorPrevStableModelNotFound, s)
    | .ok (some newStableMeta) =>
      let model : ModelID :=
        { toServableID := id, version := newStableMeta.version, label := StableLabel }
      match s.servingConfig.UpdateLabel model with
      | (.error e, sc) => (.error (.serving e), { s with servingConfig := sc })
      | (.ok _, sc) =>
        let s1 := { s with servingConfig := sc }
        match s1.metadata.Delete newStableMeta.ID with
        | (.error e, md) => (.error (.metadata e), { s1 with metadata := md })
        | (.ok _, md) =>
          let s2 := { s1 with metadata := md }
          match s2.metadata.ChangeLabel { toModelID := model, ID := 0, status := StatusReady } with
          | (.error e, md2) => (.error (.metadata e), { s2 with metadata := md2 })
          | (.ok _, md2) =>
            (.ok { toServableID := id, label := model.label,
                   previousVersion := currentStableMeta.version, newVersion := model.version },
             { s2 with metadata := md2 })

/-- The method `UploadModel`; `label` is the variadic argument `label ...string`. -/
def UploadModel (s : ModelsService) (id : ServableID) (file : Archive) (label : List String) :
    Except ServiceError ModelID × ModelsService :=
  match s.metadata.NextVersion { team := some id.team, project := some id.project,
                                 name := some id.name } with
  | .error e => (.error (.metadata e), s)
  | .ok version =>
    match s.storage.SaveModel id version file with
    | (.error e, st) => (.error (.storage e), { s with storage := st })
    | (.ok _, st) =>
      let s1 := { s with storage := st }
      let modelID : ModelID := { toServableID := id, version := version, label := "" }
      match s1.metadata.Add { toModelID := modelID, ID := 0, status := StatusPending } with
      | (.error e, md) =>
        (.error (.metadata e),
          { s1 with metadata := md, storage := s1.storage.RemoveModel id version })
      | (.ok metaID, md) =>
        let s2 := { s1 with metadata := md }
        let modelIDWithLabel : ModelID :=
          match label with
          | [] => { modelID with label := s2.servingConfig.defaultLabel }
          | l :: _ => { modelID with label := l }
        match s2.servingConfig.AddModel modelIDWithLabel with
        | (.error e, sc) => (.error (.serving e), { s2 with servingConfig := sc })
        | (.ok _, sc) =>
          let s3 := { s2 with servingConfig := sc }
          match s3.metadata.UpdateStatus metaID StatusReady with
          | (.error e, md3) => (.error (.metadata e), { s3 with metadata := md3 })
          | (.ok _, md3) =>
            let s4 := { s3 with metadata := md3 }
            match s4.metadata.ChangeLabel
                { toModelID := modelIDWithLabel, ID := 0, status := StatusReady } with
            | (.error e, md4) => (.error (.metadata e), { s4 with metadata := md4 })
            | (.ok _, md4) => (.ok modelID, { s4 with metadata := md4 })

/-- The methods `RemoveModelLabel` and `removeModelLabel`. -/
def RemoveModelLabel (s : ModelsService) (id : ServableID) (label : String) :
    Except ServiceError Unit × ModelsService :=
  match s.metadata.Get { team := some id.team, project := some id.project,
                         name := some id.name, label := some label } with
  | .error e => (.error (.metadata e), s)
  | .ok none => (.error .errorModelNotFound, s)
  | .ok (some modelMeta) =>
    let modelID : ModelID := { toServableID := id, version := 0, label := modelMeta.label }
    match s.servingConfig.RemoveModelLabel modelID with
    | (.error e, sc) => (.error (.serving e), { s with servingConfig := sc })
    | (.ok _, sc) =>
      let s1 := { s with servingConfig := sc }
      match s1.metadata.RemoveLabel { toModelID := modelID, ID := 0, status := "" } with
      | (.error e, md) => (.error (.metadata e), { s1 with metadata := md })
      | (.ok _, md) => (.ok (), { s1 with metadata := md })

end ModelsService

/-! ## The blob invariant -/

/-- Every version a label of the entry points at is one of the entry's versions. -/
def entryInvariant (e : ModelConfig) : Prop :=
  ∀ p ∈ e.versionLabels.entries, p.2 ∈ e.versions

instance (e : ModelConfig) : Decidable (entryInvariant e) := by
  unfold entryInvariant
  infer_instance

/-- The blob invariant of the data model: `entryInvariant` for every entry. -/
def blobInvariant (msc : ModelServerConfig) : Prop :=
  ∀ e ∈ msc, entryInvariant e

instance (msc : ModelServerConfig) : Decidable (blobInvariant msc) := by
  unfold blobInvariant
  infer_instance

/-! ## Guarantees of the database schema -/

/-- The row carries the label `label` for the servable `id`: the WHERE clause
`team = ? AND project = ? AND name = ? AND label = ?`. -/
def sameLabelKey (id : ServableID) (label : String) (r : ModelRow) : Bool :=
  decide (r.team = id.team) && decide (r.project = id.project) &&
    decide (r.name = id.name) && decide (r.label = label)

/-- AUTOINCREMENT: no row has an id above the last id handed out. -/
def idsIssued (t : ModelTable) : Prop :=
  ∀ r ∈ t.rows, r.id ≤ t.lastID

instance (t : ModelTable) : Decidable (idsIssued t) := by
  unfold idsIssued
  infer_instance

/-- The unique index `idx_model_label`: at most one row per (team, project, name, label)
with a non-empty label. -/
def labelIndexUnique (t : ModelTable) : Prop :=
  ∀ r1 ∈ t.rows, ∀ r2 ∈ t.rows, r1.label ≠ "" → r1.team = r2.team →
    r1.project = r2.project → r1.name = r2.name → r1.label = r2.label → r1 = r2

instance (t : ModelTable) : Decidable (labelIndexUnique t) := by
  unfold labelIndexUnique
  infer_instance

/-- The row that `insert` adds. -/
def insertedRow (id : Int) (m : ModelData) (status : Nat) : ModelRow :=
  { id := id, team := m.team, project := m.project, name := m.name, version := m.version,
    label := m.label, status := status }

/-! ## Sample states -/

/-- A servable configuration with default label `canary` and no stored blob. -/
def emptyConfig : ServableConfig := { storage := fun _ _ => none, defaultLabel := "canary" }

/-- A blob entry `m` with versions 1 and 2, `canary` at 2 and `stable` at 1. -/
def entryM : ModelConfig :=
  { name := "m", basePath := "/models/t/p/m", modelPlatform := "tensorflow",
    versions := [1, 2],
    versionLabels := (LabelMap.empty.set "canary" 2).set "stable" 1 }

/-- A blob entry `m` with version 1 and no label map. -/
def entryNoLabels : ModelConfig :=
  { name := "m", basePath := "/models/t/p/m", modelPlatform := "tensorflow",
    versions := [1], versionLabels := LabelMap.empty }

/-- A blob entry `other` with version 1 labelled `canary`. -/
def entryOther : ModelConfig :=
  { name := "other", basePath := "/models/t/p/other", modelPlatform := "tensorflow",
    versions := [1], versionLabels := LabelMap.empty.set "canary" 1 }

/-- A blob entry `m` with version 1 labelled `canary`. -/
def entryCanary : ModelConfig :=
  { name := "m", basePath := "/models/t/p/m", modelPlatform := "tensorflow",
    versions := [1], versionLabels := LabelMap.empty.set "canary" 1 }

/-- A servable configuration that stores the given blob for team `t`, project `p`. -/
def configWith (defaultLabel : String) (msc : ModelServerConfig) : ServableConfig :=
  { storage := fun t p => if t = "t" ∧ p = "p" then some msc else none,
    defaultLabel := defaultLabel }

/-- The model identifier (`t`, `p`, `m`) with the given version and label. -/
def modelM (version : Int) (label : String) : ModelID :=
  { team := "t", project := "p", name := "m", version := version, label := label }

/-- The servable (`t`, `p`, `m`). -/
def servableM : ServableID := { team := "t", project := "p", name := "m" }

/-- An archive that extracts and has a valid directory layout. -/
def goodArchive : Archive := { extracts := true, layoutValid := true }

/-- A service with no metadata row, no blob and no version directory; the default
label is `canary`. -/
def emptyService : ModelsService :=
  { metadata := { rows := [], lastID := 0 }, servingConfig := emptyConfig,
    storage := { dirs := [] } }

/-- The service after the first upload of `servableM` with the default label. -/
def afterFirstUpload : ModelsService :=
  (emptyService.UploadModel servableM goodArchive []).2

/-- The service after the first upload and the removal of the label `canary`. -/
def afterLabelRemoved : ModelsService :=
  (afterFirstUpload.RemoveModelLabel servableM "canary").2

/-- The service after the first upload and `SetLabel` of version 1 to `stable`. -/
def afterStable1 : ModelsService :=
  (afterFirstUpload.SetLabel { toServableID := servableM, version := 1, label := "stable" }).2

/-- The service after a second upload on top of `afterStable1`. -/
def afterSecondUpload : ModelsService :=
  (afterStable1.UploadModel servableM goodArchive []).2

/-- The service after `SetLabel` of version 2 to `stable` on top of `afterSecondUpload`. -/
def afterStable2 : ModelsService :=
  (afterSecondUpload.SetLabel { toServableID := servableM, version := 2, label := "stable" }).2

/-- A service whose metadata holds the pending anchor row of version 1 of `servableM`
and whose storage holds its directory, while no blob is stored. -/
def rowWithoutEntry : ModelsService :=
  { metadata := { rows := [{ id := 1, team := "t", project := "p", name := "m",
                             version := 1, label := "", status := 3 }],
                  lastID := 1 },
    servingConfig := emptyConfig,
    storage := { dirs := [(servableM, 1)] } }

/-! ## service/model.go: cleanList -/

/-- The closure `mapID` of `cleanList`: `fmt.Sprintf("%s-%s-%s-%d", ...)`. -/
def mapID (m : ModelData) : String :=
  m.team ++ "-" ++ m.project ++ "-" ++ m.name ++ "-" ++ toString m.version

/-- The first loop of `cleanList`: the keys of `labeledModel`, the map that holds
`true` for the `mapID` of every record with a non-empty label. -/
def labeledModel (models : List ModelData) : List String :=
  (models.filter (fun model => model.label != "")).map mapID

/-- The function `cleanList`: the second loop skips a record with an empty label whose
`mapID` is in `labeledModel` and appends every other record. -/
def cleanList (models : List ModelData) : List ModelData :=
  models.filter (fun model =>
    !(model.label == "" && (labeledModel models).contains (mapID model)))

/-! ## storage/validator.go -/

/-- The function `isDirectoryLayoutValid`.  `matchString re item` stands for
`regexp.MustCompile(re).MatchString(item)` of the Go standard library. -/
def isDirectoryLayoutValid (matchString : String → String → Bool)
    (directoryLayout directoryRegexp : List String) : Bool :=
  directoryRegexp.all (fun regexpToCheck =>
    directoryLayout.any (fun directoryItem => matchString regexpToCheck directoryItem))

/-! ## lock/lock.go -/

/-- The constant `maxKeyLength`: the three maximal lengths of `app`, 32 each. -/
def maxKeyLength : Nat := 32 + 32 + 32

/-- The errors of the lock: the key-length error of `Lock` and `errKeyIsLocked`. -/
inductive LockError where
  | errWrongKeyLength
  | errKeyIsLocked
deriving DecidableEq, Repr

/-- The struct `Lock`: the keys of its `sync.Map`, which are digests.  The digest type
`δ` and the function `sum` of the methods stand for `md5.Sum` of the Go standard
library. -/
structure Lock (δ : Type) where
  state : List δ

/-- The method `lock`: `LoadOrStore` of the digest of the key. -/
def Lock.lock {δ : Type} [DecidableEq δ] (sum : String → δ) (l : TFDeploy.Lock δ)
    (key : String) : Option LockError × TFDeploy.Lock δ :=
  if sum key ∈ l.state then (some .errKeyIsLocked, l)
  else (none, { state := l.state ++ [sum key] })

/-- The method `unLock`: `Delete` of the digest of the key. -/
def Lock.unLock {δ : Type} [DecidableEq δ] (sum : String → δ) (l : TFDeploy.Lock δ)
    (key : String) : TFDeploy.Lock δ :=
  { state := l.state.filter (fun d => !(d == sum key)) }

/-- The key of a servable: `servable.Team + servable.Project + servable.Name`. -/
def Lock.key (servable : ServableID) : String :=
  servable.team ++ servable.project ++ servable.name

/-- The method `Lock`; `len(key)` is the length in bytes. -/
def Lock.Lock {δ : Type} [DecidableEq δ] (sum : String → δ) (l : TFDeploy.Lock δ)
    (servable : ServableID) : Option LockError × TFDeploy.Lock δ :=
  if (Lock.key servable).utf8ByteSize = 0 ∨
      (Lock.key servable).utf8ByteSize > maxKeyLength then
    (some .errWrongKeyLength, l)
  else l.lock sum (Lock.key servable)

/-- The method `UnLock`. -/
def Lock.UnLock {δ : Type} [DecidableEq δ] (sum : String → δ) (l : TFDeploy.Lock δ)
    (servable : ServableID) : TFDeploy.Lock δ :=
  l.unLock sum (Lock.key servable)

/-- The method `LockID`. -/
def Lock.LockID {δ : Type} [DecidableEq δ] (sum : String → δ) (l : TFDeploy.Lock δ)
    (id : String) : Option LockError × TFDeploy.Lock δ :=
  l.lock sum id

/-- The method `UnLockID`. -/
def Lock.UnLockID {δ : Type} [DecidableEq δ] (sum : String → δ) (l : TFDeploy.Lock δ)
    (id : String) : TFDeploy.Lock δ :=
  l.unLock sum id

/-- The method `IsLockedID`. -/
def Lock.IsLockedID {δ : Type} [DecidableEq δ] (sum : String → δ) (l : TFDeploy.Lock δ)
    (keyID : String) : Bool :=
  l.state.any (fun d => d == sum keyID)

/-! ## serving/reloader.go -/

/-- The method `ServableID.InstanceName`: `fmt.Sprintf("tfs-%s-%s", s.Team, s.Project)`. -/
def ServableID.InstanceName (s : ServableID) : String :=
  "tfs-" ++ s.team ++ "-" ++ s.project

/-- The struct `app.ServableInstances`. -/
structure ServableInstances extends ServableID where
  instances : List String
deriving DecidableEq, Repr

/-- A `map[string]app.ServableInstances`: key/value pairs with distinct keys, in the
order in which the keys were first set. -/
structure InstanceMap where
  entries : List (String × ServableInstances)
  nodupKeys : (entries.map Prod.fst).Nodup
deriving DecidableEq

/-- The empty map. -/
def InstanceMap.empty : InstanceMap := ⟨[], List.nodup_nil⟩

/-- Lookup in a list of pairs, first match. -/
def InstanceMap.findIn (k : String) :
    List (String × ServableInstances) → Option ServableInstances
  | [] => none
  | p :: rest => if p.1 = k then some p.2 else InstanceMap.findIn k rest

/-- The two-valued lookup `v, ok := m[k]`. -/
def InstanceMap.find (m : InstanceMap) (k : String) : Option ServableInstances :=
  InstanceMap.findIn k m.entries

/-- Assignment in a list of pairs: overwrite the key in place, or add it. -/
def InstanceMap.setIn (k : String) (v : ServableInstances) :
    List (String × ServableInstances) → List (String × ServableInstances)
  | [] => [(k, v)]
  | p :: rest => if p.1 = k then (k, v) :: rest else p :: InstanceMap.setIn k v rest

/-- The assignment `m[k] = v`. -/
def InstanceMap.set (m : InstanceMap) (k : String) (v : ServableInstances) : InstanceMap :=
  ⟨InstanceMap.setIn k v m.entries, by
    have keys : ∀ l : List (String × ServableInstances),
        (InstanceMap.setIn k v l).map Prod.fst =
          if k ∈ l.map Prod.fst then l.map Prod.fst else l.map Prod.fst ++ [k] := by
      intro l
      induction l with
      | nil => simp [InstanceMap.setIn]
      | cons p rest ih =>
        by_cases h : p.1 = k
        · simp [InstanceMap.setIn, h]
        · have h2 : ¬ k = p.1 := fun e => h e.symm
          simp only [InstanceMap.setIn, h, if_false, List.map_cons, List.mem_cons, h2,
            false_or, ih]
          split <;> simp
    rw [keys]
    split
    · exact m.nodupKeys
    · rename_i hk
      exact List.nodup_append.mpr ⟨m.nodupKeys, List.nodup_singleton k, by
        intro a ha hb
        simp only [List.mem_singleton] at hb
        exact hk (hb ▸ ha)⟩⟩

/-- The method `ConfigWithoutLabels`: the blob with `VersionLabels = nil` in every
entry. -/
def ServableConfig.ConfigWithoutLabels (sc : ServableConfig) (team project : String) :
    ModelServerConfig :=
  (sc.Config team project).map (fun v => { v with versionLabels := LabelMap.empty })

/-- What a reload does to the outside: a `HandleReloadConfigRequest` with a blob sent
to an endpoint, or a `time.Sleep` of so many milliseconds. -/
inductive ReloadEvent where
  | push (config : ModelServerConfig) (endpoint : String)
  | sleep (milliseconds : Nat)
deriving DecidableEq

/-- The serving fleet as the reloader sees it: given everything the reloader did so
far, the blob and the endpoint, the error of the push (dial error, request error or a
non-empty error message in the response status), or `none` when it is acknowledged. -/
abbrev ServingFleet := List ReloadEvent → ModelServerConfig → String → Option String

/-- The two lists `reloadTFSInstances` returns, with the events so far. -/
structure PushResult where
  validInstances : List String
  reloaderErrors : List String
  events : List ReloadEvent
deriving DecidableEq

/-- The loop of `reloadTFSInstances` over the instances. -/
def reloadTFSInstancesLoop (fleet : ServingFleet) (config : ModelServerConfig) :
    List String → List String → List String → List ReloadEvent → PushResult
  | [], validInstances, reloaderErrors, events =>
    { validInstances := validInstances, reloaderErrors := reloaderErrors, events := events }
  | inst :: rest, validInstances, reloaderErrors, events =>
    match fleet events config inst with
    | some err =>
      reloadTFSInstancesLoop fleet config rest validInstances (reloaderErrors ++ [err])
        (events ++ [.push config inst])
    | none =>
      reloadTFSInstancesLoop fleet config rest (validInstances ++ [inst]) reloaderErrors
        (events ++ [.push config inst])

/-- The method `reloadTFSInstances`: push the blob to every instance in turn; the
instances that acknowledged it and the errors of the others. -/
def reloadTFSInstances (fleet : ServingFleet) (config : ModelServerConfig)
    (instances : List String) (events : List ReloadEvent) : PushResult :=
  reloadTFSInstancesLoop fleet config instances [] [] events

/-- The constant `maxReloadAttempts`. -/
def maxReloadAttempts : Nat := 2

/-- The constant `timeToWaitForNextReload`, in milliseconds. -/
def timeToWaitForNextReload : Nat := 150

/-- The retry loop of `reloadConfig` (`for len(reloadedErrors) > 0 && attemptReload <=
maxReloadAttempts`): `remaining` bounds the number of iterations that are left, and is
`maxReloadAttempts` when the loop starts with `attemptReload = 1`. -/
def reloadAgain (fleet : ServingFleet) (config : ModelServerConfig)
    (instances : List String) :
    Nat → Nat → List String → List ReloadEvent → List String × List ReloadEvent
  | 0, _, reloadedErrors, events => (reloadedErrors, events)
  | remaining + 1, attemptReload, reloadedErrors, events =>
    if reloadedErrors ≠ [] ∧ attemptReload ≤ maxReloadAttempts then
      let again := reloadTFSInstances fleet config instances
        (events ++ [.sleep (timeToWaitForNextReload * attemptReload)])
      reloadAgain fleet config instances remaining (attemptReload + 1)
        again.reloaderErrors again.events
    else (reloadedErrors, events)

/-- What `reloadConfig` returns: `(nil, nil)`, the error of the discovery, or the list of
error strings with the error made of them. -/
inductive ReloadOutcome where
  | success
  | discoveryFailed (err : String)
  | failed (instanceErrorList : List String)
deriving DecidableEq, Repr

/-- The struct `ModelsReloader`: the discovery (the endpoints of a servable, or its
error), the servable configuration, the snapshot and the flag; the lock, the two
durations and the metadata play no part in the methods embedded here. -/
structure ModelsReloader where
  serviceDiscovery : ServableID → Except String (List String)
  servableConfigurer : ServableConfig
  lastStateInstancesOfModel : InstanceMap
  allowLabelsForUnavailableModels : Bool

/-- The method `reloadConfig`, with the events it causes.  `ServableConfig.Config`
returns the empty blob, not an error, when the storage reports `ErrConfigDoesNotExist`,
so the branch `if err != nil` after the call is only taken on an I/O failure. -/
def ModelsReloader.reloadConfig (r : ModelsReloader) (fleet : ServingFleet)
    (id : ServableID) (labelsOnly : Bool) (instances : List String) :
    ReloadOutcome × List ReloadEvent :=
  let discovered : Except String (List String) :=
    if instances.length = 0 then r.serviceDiscovery id else .ok instances
  match discovered with
  | .error err => (.discoveryFailed err, [])
  | .ok instances1 =>
    let config := r.servableConfigurer.Config id.team id.project
    let withoutLabels : PushResult :=
      if !labelsOnly then
        reloadTFSInstances fleet (r.servableConfigurer.ConfigWithoutLabels id.team id.project)
          instances1 []
      else { validInstances := instances1, reloaderErrors := [], events := [] }
    let first := reloadTFSInstances fleet config withoutLabels.validInstances
      withoutLabels.events
    let last := reloadAgain fleet config withoutLabels.validInstances maxReloadAttempts 1
      first.reloaderErrors first.events
    let retErrors := withoutLabels.reloaderErrors ++ last.1
    if retErrors.length = 0 then (.success, last.2) else (.failed retErrors, last.2)

/-- The method `ReloadConfig`. -/
def ModelsReloader.ReloadConfig (r : ModelsReloader) (fleet : ServingFleet)
    (team project : String) (skipConfigWithoutLabels : Bool) :
    ReloadOutcome × List ReloadEvent :=
  r.reloadConfig fleet { team := team, project := project, name := "" }
    (r.allowLabelsForUnavailableModels && skipConfigWithoutLabels) []

/-- The method `invalidInstancesModel`: the instances for which the status request
fails or reports a state other than AVAILABLE; `invalid name version endpoint` stands
for that outcome of the remote call. -/
def invalidInstancesModel (invalid : String → Int → String → Bool) (name : String)
    (version : Int) (instances : List String) : List String :=
  instances.filter (fun inst => invalid name version inst)

/-- The function `equal`: same length, and every item of `a` occurs in `b`. -/
def equal (a b : List String) : Bool :=
  if a.length ≠ b.length then false
  else a.all (fun aItem => b.any (fun bItem => aItem == bItem))

/-- The method `invalidInstancesToReload`. -/
def invalidInstancesToReload (instances invalidInstances : List ServableInstances) :
    List ServableInstances :=
  if invalidInstances.length = 0 then []
  else if instances.length = 0 then
    invalidInstances.filter (fun invalidInstance => invalidInstance.instances.length > 0)
  else
    invalidInstances.flatMap (fun invalidInstance =>
      instances.filterMap (fun vInstance =>
        if vInstance.InstanceName = invalidInstance.InstanceName then
          let instancesToAdd := invalidInstance.instances.filter (fun invalidInstanceIP =>
            !(vInstance.instances.any (fun instanceToReload =>
              invalidInstanceIP == instanceToReload)))
          if instancesToAdd.length > 0 then
            some { toServableID := invalidInstance.toServableID,
                   instances := instancesToAdd }
          else none
        else none))

/-- The statement `currentInstances, _ := r.serviceDiscovery.Discover(ctx, v)`: both
discoveries return nil with an error, and the error is dropped. -/
def ModelsReloader.currentInstancesOf (r : ModelsReloader) (v : ServableID) : List String :=
  match r.serviceDiscovery v with
  | .ok found => found
  | .error _ => []

/-- One iteration of the first loop of `instancesOfServablesToReload`: discover the
instances of `v` (none when the discovery fails, its error being dropped), record them
under the instance name, and ask the instances for the last version of the first blob
entry.  `Config` is total here, as everywhere in this development: a storage whose read
fails for another reason than a missing blob is not part of the storage model, so the
branch `if err != nil { return result, err }` has no counterpart. -/
def discoverServable (r : ModelsReloader) (invalid : String → Int → String → Bool)
    (acc : InstanceMap × List ServableInstances) (v : ServableID) :
    InstanceMap × List ServableInstances :=
  let currentInstances : List String := r.currentInstancesOf v
  let currentStateModels := acc.1.set v.InstanceName
    { toServableID := v, instances := currentInstances }
  match r.servableConfigurer.Config v.team v.project with
  | [] => (currentStateModels, acc.2)
  | configValue :: _ =>
    match configValue.versions.getLast? with
    | none => (currentStateModels, acc.2)
    | some version =>
      let invalidInstances :=
        invalidInstancesModel invalid configValue.name version currentInstances
      if invalidInstances.length > 0 then
        (currentStateModels,
          acc.2 ++ [{ toServableID := v, instances := invalidInstances }])
      else (currentStateModels, acc.2)

/-- The method `instancesOfServablesToReload`: the servables to reload and the
reloader with its new snapshot.  The map `currentStateModels` is ranged over in the
order of its first assignments. -/
def ModelsReloader.instancesOfServablesToReload (r : ModelsReloader)
    (invalid : String → Int → String → Bool) (models : List ServableID) :
    List ServableInstances × ModelsReloader :=
  let pass := models.foldl (discoverServable r invalid) (InstanceMap.empty, [])
  if r.lastStateInstancesOfModel.entries.length = 0 then
    ([], { r with lastStateInstancesOfModel := pass.1 })
  else
    let result : List ServableInstances := pass.1.entries.filterMap (fun kv =>
      match r.lastStateInstancesOfModel.find kv.1 with
      | none => none
      | some itemLastInstance =>
        if !(equal itemLastInstance.instances kv.2.instances) then
          some { toServableID := kv.2.toServableID, instances := kv.2.instances }
        else none)
    (result ++ invalidInstancesToReload result pass.2,
      { r with lastStateInstancesOfModel := pass.1 })

/-! ## Sample states of the second part -/

/-- An anchor record whose team contains a `-`. -/
def anchorDashTeam : ModelData :=
  { team := "a-b", project := "c", name := "n", version := 1, label := "", ID := 1,
    status := "ready" }

/-- A labelled record of another servable with the same `mapID` as `anchorDashTeam`. -/
def labelledDashProject : ModelData :=
  { team := "a", project := "b-c", name := "n", version := 1, label := "x", ID := 2,
    status := "ready" }

/-- A table with one row, of id 1 and status ready. -/
def oneReadyRow : ModelTable :=
  { rows := [{ id := 1, team := "t", project := "p", name := "m", version := 1,
               label := "", status := 2 }],
    lastID := 1 }

/-- A table with one row, of id 1 and status pending. -/
def onePendingRow : ModelTable :=
  { rows := [{ id := 1, team := "t", project := "p", name := "m", version := 1,
               label := "", status := 3 }],
    lastID := 1 }

/-- A table with versions 1 and 3 of `m` and version 7 of another model. -/
def threeVersions : ModelTable :=
  { rows := [{ id := 1, team := "t", project := "p", name := "m", version := 1,
               label := "", status := 2 },
             { id := 2, team := "t", project := "p", name := "m", version := 3,
               label := "", status := 2 },
             { id := 3, team := "t", project := "p", name := "other", version := 7,
               label := "", status := 2 }],
    lastID := 3 }

/-- A table whose only row has the largest 64-bit version. -/
def lastVersion : ModelTable :=
  { rows := [{ id := 1, team := "t", project := "p", name := "m",
               version := 9223372036854775807, label := "", status := 2 }],
    lastID := 1 }

/-- The filter on team `t`, project `p` and name `m`. -/
def filterM : QueryParameters :=
  { team := some "t", project := some "p", name := some "m" }

/-- A matcher that takes the expression literally. -/
def literalMatch (re item : String) : Bool := re == item

/-- A blob entry `m` that lists version 1 only and whose label `canary` points at
version 2: the entry that an upload of version 2 creates when the blob has no entry
`m` yet. -/
def entryUnlisted : ModelConfig :=
  { name := "m", basePath := "/models/t/p/m", modelPlatform := "tensorflow",
    versions := [1], versionLabels := LabelMap.empty.set "canary" 2 }

/-- A servable whose team is 32 times `é`, whose project is 17 times `é` and whose name
is `m`: 50 characters, 99 bytes. -/
def accentedServable : ServableID :=
  { team := "éééééééééééééééééééééééééééééééé", project := "ééééééééééééééééé",
    name := "m" }

/-! ## Sample reloaders and fleets -/

/-- The servable (`t`, `p`) that `ReloadConfig` passes on, with an empty name. -/
def servableTP : ServableID := { team := "t", project := "p", name := "" }

/-- A reloader over the blob `[entryM]` of (`t`, `p`); the discovery finds two
endpoints; the snapshot is empty. -/
def sampleReloader : ModelsReloader :=
  { serviceDiscovery := fun _ => .ok ["10.0.0.1:8500", "10.0.0.2:8500"],
    servableConfigurer := configWith "canary" [entryM],
    lastStateInstancesOfModel := InstanceMap.empty,
    allowLabelsForUnavailableModels := true }

/-- A reloader whose storage holds no blob at all. -/
def blobless : ModelsReloader :=
  { serviceDiscovery := fun _ => .ok ["10.0.0.1:8500"],
    servableConfigurer := emptyConfig,
    lastStateInstancesOfModel := InstanceMap.empty,
    allowLabelsForUnavailableModels := true }

/-- A fleet that acknowledges every push. -/
def healthyFleet : ServingFleet := fun _ _ _ => none

/-- A fleet whose endpoint `10.0.0.2:8500` refuses every push. -/
def secondDown : ServingFleet :=
  fun _ _ endpoint => if endpoint = "10.0.0.2:8500" then some "unavailable" else none

/-- A fleet that refuses every push until five events have happened. -/
def slowFleet : ServingFleet :=
  fun events _ _ => if events.length < 5 then some "loading" else none

/-- A status oracle that reports every endpoint invalid. -/
def allInvalid : String → Int → String → Bool := fun _ _ _ => true

/-! ## service/model.go: removeModel -/

/-- The errors of `removeModel`: an error of the service or of one of its stores, or the
outcome of the reload when `ReloadConfig` returns an error. -/
inductive RemoveError where
  | service (e : ServiceError)
  | reload (outcome : ReloadOutcome)
deriving DecidableEq

/-- The first loop of `removeModel`: `version` starts at -1 and takes the version of a
listed record as long as it is negative. -/
def removedVersion (modelsMetas : List ModelData) : Int :=
  modelsMetas.foldl
    (fun version modelMeta => if version < 0 then modelMeta.version else version) (-1)

/-- The last loop of `removeModel`: `Delete` of every listed record by its id, returning
at the first error. -/
def deleteListed : List ModelData → ModelTable → Except MetadataError Unit × ModelTable
  | [], t => (.ok (), t)
  | modelMeta :: rest, t =>
    match t.Delete modelMeta.ID with
    | (.error e, t1) => (.error e, t1)
    | (.ok _, t1) => deleteListed rest t1

/-- The method `removeModel`, with the events of its reload.  `main` hands the same
servable configuration to the service and to the reloader, so the reloader `r` reads the
blob that `RemoveModel` has just stored.  The storage's `RemoveModel` is `os.RemoveAll`
of the version directory. -/
def ModelsService.removeModel (s : ModelsService) (r : ModelsReloader) (fleet : ServingFleet)
    (id : ServableID) (params : QueryParameters) :
    Except RemoveError Unit × ModelsService × List ReloadEvent :=
  match s.metadata.List params with
  | .error e => (.error (.service (.metadata e)), s, [])
  | .ok none => (.error (.service .errorModelNotFound), s, [])
  | .ok (some modelsMetas) =>
    let modelID : ModelID :=
      { toServableID := id, version := removedVersion modelsMetas, label := "" }
    match s.servingConfig.RemoveModel modelID with
    | (.error e, sc) => (.error (.service (.serving e)), { s with servingConfig := sc }, [])
    | (.ok _, sc) =>
      let s1 := { s with servingConfig := sc }
      match ({ r with servableConfigurer := sc }).ReloadConfig fleet id.team id.project
          true with
      | (.success, events) =>
        let s2 := { s1 with storage := s1.storage.RemoveModel id modelID.version }
        match deleteListed modelsMetas s2.metadata with
        | (.error e, md) =>
          (.error (.service (.metadata e)), { s2 with metadata := md }, events)
        | (.ok _, md) => (.ok (), { s2 with metadata := md }, events)
      | (outcome, events) => (.error (.reload outcome), s1, events)

/-- The method `RemoveByLabel`. -/
def ModelsService.RemoveByLabel (s : ModelsService) (r : ModelsReloader)
    (fleet : ServingFleet) (id : ServableID) (label : String) :
    Except RemoveError Unit × ModelsService × List ReloadEvent :=
  s.removeModel r fleet id
    { team := some id.team, project := some id.project, name := some id.name,
      label := some label }

/-- The method `RemoveByVersion`. -/
def ModelsService.RemoveByVersion (s : ModelsService) (r : ModelsReloader)
    (fleet : ServingFleet) (id : ServableID) (version : Int) :
    Except RemoveError Unit × ModelsService × List ReloadEvent :=
  s.removeModel r fleet id
    { team := some id.team, project := some id.project, name := some id.name,
      version := some version }

/-! ## Sample states of the third part -/

/-- The servable (`a`, `p`) as the reconcile job lists it. -/
def servableAP : ServableID := { team := "a", project := "p", name := "" }

/-- The servable (`b`, `p`) as the reconcile job lists it. -/
def servableBP : ServableID := { team := "b", project := "p", name := "" }

/-- A servable configuration that stores the blob `[entryM]` for every team and
project. -/
def everyBlob : ServableConfig :=
  { storage := fun _ _ => some [entryM], defaultLabel := "canary" }

/-- The snapshot with `10.0.0.1:8500` for (`a`, `p`) and `10.0.0.3:8500` for (`b`, `p`). -/
def twoServables : InstanceMap :=
  (InstanceMap.empty.set "tfs-a-p"
      { toServableID := servableAP, instances := ["10.0.0.1:8500"] }).set "tfs-b-p"
    { toServableID := servableBP, instances := ["10.0.0.3:8500"] }

/-- A reloader with the snapshot `twoServables`: the discovery finds the endpoint of
(`a`, `p`) as before and a new endpoint `10.0.0.4:8500` for (`b`, `p`). -/
def driftReloader : ModelsReloader :=
  { serviceDiscovery := fun v =>
      if v.team = "a" then .ok ["10.0.0.1:8500"] else .ok ["10.0.0.4:8500"],
    servableConfigurer := everyBlob,
    lastStateInstancesOfModel := twoServables,
    allowLabelsForUnavailableModels := false }

/-- The reloader `driftReloader` with a discovery that finds both endpoints as the
snapshot has them. -/
def steadyReloader : ModelsReloader :=
  { driftReloader with
    serviceDiscovery := fun v =>
      if v.team = "a" then .ok ["10.0.0.1:8500"] else .ok ["10.0.0.3:8500"] }

/-- A status oracle that reports the endpoint `10.0.0.1:8500` invalid and no other. -/
def firstInvalid : String → Int → String → Bool :=
  fun _ _ endpoint => endpoint == "10.0.0.1:8500"

/-- A status oracle that reports no endpoint invalid. -/
def noneInvalid : String → Int → String → Bool := fun _ _ _ => false

/-- A reloader whose snapshot lists the endpoint `10.0.0.1:8500` twice for (`a`, `p`),
while the discovery finds `10.0.0.1:8500` and `10.0.0.2:8500`. -/
def repeatedEndpoint : ModelsReloader :=
  { serviceDiscovery := fun _ => .ok ["10.0.0.1:8500", "10.0.0.2:8500"],
    servableConfigurer := everyBlob,
    lastStateInstancesOfModel := InstanceMap.empty.set "tfs-a-p"
      { toServableID := servableAP, instances := ["10.0.0.1:8500", "10.0.0.1:8500"] },
    allowLabelsForUnavailableModels := false }

/-- The reloader `sampleReloader` with `allowLabelsForUnavailableModels` off. -/
def strictReloader : ModelsReloader :=
  { sampleReloader with allowLabelsForUnavailableModels := false }

/-! ## config/structmerge and config/config.go -/

/-- The struct `Source`, for a struct type all of whose leaves are pointers to scalars,
as they are in `app.Config`: `data` maps the path of a leaf field to the pointer stored
there, `none` being nil. -/
structure Source (ν : Type) where
  name : String
  data : String → Option ν

/-- The struct `MergedMeta`, without the printed value. -/
structure MergedMeta where
  fieldPath : String
  source : String
deriving DecidableEq, Repr

/-- The errors of a merge and of `Parse`. -/
inductive MergeError where
  | errEmptySources
  | nilValue (sourceName : String)
  | validation
deriving DecidableEq, Repr

/-- The method `isSettable` on a value of kind `reflect.Ptr`: `!v.IsNil()`. -/
def isSettable {ν : Type} (v : Option ν) : Bool := v.isSome

/-- The first loop of `selectValue`: every settable source it meets replaces the
selection, so the last settable one is kept. -/
def selectFromSources {ν : Type} :
    List (String × Option ν) → Option (String × Option ν) → Option (String × Option ν)
  | [], selected => selected
  | src :: rest, selected =>
    if isSettable src.2 then selectFromSources rest (some src)
    else selectFromSources rest selected

/-- The method `selectValue` on the sources of one leaf: the loop runs over all sources
but the last, the last one is the default, and a nil selection is an error. -/
def selectValue {ν : Type} (sources : List (String × Option ν)) :
    Except MergeError (ν × String) :=
  match sources.getLast? with
  | none => .error .errEmptySources
  | some lastSource =>
    let selected := (selectFromSources sources.dropLast none).getD lastSource
    match selected.2 with
    | none => .error (.nilValue selected.1)
    | some value => .ok (value, selected.1)

/-- The method `merge` on a struct: the leaves are visited in the order of their
declaration, `fields` being their paths; each is set to the selected value and recorded
in the merged metadata. -/
def mergeFields {ν : Type} (sources : List (Source ν)) :
    List String → (String → Option ν) × List MergedMeta →
      Except MergeError ((String → Option ν) × List MergedMeta)
  | [], acc => .ok acc
  | fieldPath :: rest, acc =>
    match selectValue (sources.map (fun s => (s.name, s.data fieldPath))) with
    | .error e => .error e
    | .ok (value, source) =>
      mergeFields sources rest
        (fun p => if p = fieldPath then some value else acc.1 p,
          acc.2 ++ [{ fieldPath := fieldPath, source := source }])

/-- The method `mergeSources`: the sources are traversed in reversed order. -/
def mergeSources {ν : Type} (fields : List String) (data : String → Option ν)
    (s : List (Source ν)) : Except MergeError ((String → Option ν) × List MergedMeta) :=
  mergeFields s.reverse fields (data, [])

/-- The method `StructMerge.Merge`: the check of `Sources.check`, then the merge. -/
def StructMerge.Merge {ν : Type} (fields : List String) (data : String → Option ν)
    (sources : List (Source ν)) :
    Except MergeError ((String → Option ν) × List MergedMeta) :=
  if sources.length = 0 then .error .errEmptySources
  else mergeSources fields data sources

/-- The paths of the leaves of `app.Config`, in the order of their declaration. -/
def configFields : List String :=
  ["App.ConfigFile", "App.ListenHost", "App.ListenPort", "App.ReloadIntervalInSec",
   "App.MaxAutoReloadDurationInSec", "App.UploadTimeoutInSec", "App.DefaultModelLabel",
   "App.AllowLabelsForUnavailableModels", "App.Discovery", "App.Storage", "App.Metadata",
   "Discovery.Plaintext.HostsPath", "Discovery.DNS.ServiceSuffix",
   "Discovery.DNS.DefaultInstancePort", "Storage.Filesystem.Base.BasePath",
   "Storage.Filesystem.Model.ArchiveName", "Storage.Filesystem.Model.BasePath",
   "Storage.Filesystem.Model.ConfigName", "Storage.Filesystem.Model.EmptyConfigName",
   "Storage.Filesystem.Model.IncomingArchivePath",
   "Storage.Filesystem.Model.DirectoryPermissions",
   "Storage.Filesystem.Model.FilePermissions", "Storage.Filesystem.Module.ArchiveName",
   "Storage.Filesystem.Module.BasePath", "Storage.Filesystem.Module.IncomingArchivePath",
   "Storage.Filesystem.Module.DirectoryPermissions",
   "Storage.Filesystem.Module.FilePermissions", "Metadata.SQLDB.Driver",
   "Metadata.SQLDB.DSN"]

/-- The struct `config.Config`: the four sources, each an `app.Config`. -/
structure Config (ν : Type) where
  defaults : String → Option ν
  cli : String → Option ν
  env : String → Option ν
  yamlFile : String → Option ν

/-- The method `Parse`: the merge of the four sources into an unfilled `app.Config`, then
`Validate`, which is a parameter here. -/
def Config.Parse {ν : Type} (validate : (String → Option ν) → Bool) (c : Config ν) :
    Except MergeError (String → Option ν) :=
  match StructMerge.Merge configFields (fun _ => none)
      [{ name := "Defaults", data := c.defaults }, { name := "CLI", data := c.cli },
       { name := "ENV", data := c.env }, { name := "YAML-FILE", data := c.yamlFile }] with
  | .error e => .error e
  | .ok merged => if validate merged.1 then .ok merged.1 else .error .validation

/-- Sources in which the command line sets the listen host to `10.0.0.1`, the YAML
file sets it to `10.0.0.2`, the environment sets nothing and every parameter has the
default `0.0.0.0`. -/
def cliAndYaml : Config String :=
  { defaults := fun _ => some "0.0.0.0",
    cli := fun p => if p = "App.ListenHost" then some "10.0.0.1" else none,
    env := fun _ => none,
    yamlFile := fun p => if p = "App.ListenHost" then some "10.0.0.2" else none }

/-! ## rest/checksum.go and rest/model.go -/

/-- The reader `io.TeeReader(file, &dup)` over an uploaded file held as its bytes: what
is left to read of the file, and what has been written to the buffer `dup`. -/
structure TeeReader where
  r : List Nat
  w : List Nat
deriving DecidableEq, Repr

/-- Reading the tee to its end, as `io.Copy` does: the bytes read, all of which are
written to the buffer as well, and the reader afterwards. -/
def TeeReader.readAll (t : TeeReader) : List Nat × TeeReader :=
  (t.r, { r := [], w := t.w ++ t.r })

/-- The digits of the verb `%x`. -/
def hexDigits : List Char := "0123456789abcdef".toList

/-- The call `fmt.Sprintf("%x", sum)` on a byte slice: two lower-case hexadecimal digits
per byte. -/
def hexLower (sum : List Nat) : String :=
  String.mk (sum.flatMap (fun b =>
    [hexDigits.getD (b / 16 % 16) '0', hexDigits.getD (b % 16) '0']))

/-- The function `calculateChecksum`, with the reader after the call; `sha256` stands
for the digest of `crypto/sha256`. -/
def calculateChecksum (sha256 : List Nat → List Nat) (r : TeeReader) : String × TeeReader :=
  let read := r.readAll
  (hexLower (sha256 read.1), read.2)

/-- The function `isChecksumValid`, with the reader after the call. -/
def isChecksumValid (sha256 : List Nat → List Nat) (r : TeeReader) (formChecksum : String) :
    Bool × TeeReader :=
  if formChecksum = "" then (true, r)
  else
    let sum := calculateChecksum sha256 r
    if formChecksum ≠ sum.1 then (false, sum.2) else (true, sum.2)

/-- The errors of `uploadModel`: the one of `FormFile`, `errorInvalidChecksum`, or the
error of the service. -/
inductive RestError where
  | formFile
  | errorInvalidChecksum
  | service (err : String)
deriving DecidableEq, Repr

/-- The struct `UploadModelResponse`. -/
structure UploadModelResponse where
  modelID : Option ModelID
  responseCode : Nat
deriving DecidableEq, Repr

/-- What `uploadModel` reads of the request: the file of the form (`none` when
`FormFile` fails) and the form value of the checksum field, empty when absent. -/
structure UploadRequest where
  formFile : Option (List Nat)
  formChecksum : String
deriving DecidableEq, Repr

/-- One call of the service's `UploadModel`: the servable, the content of the stream it
is given, and the labels. -/
structure UploadCall where
  id : ServableID
  content : List Nat
  label : List String
deriving DecidableEq, Repr

/-- The last step of `uploadModel`: the call of the service with a stream of the given
content, and the response made of its result. -/
def callUploadModel (service : ServableID → List Nat → List String → Except String ModelID)
    (id : ServableID) (content : List Nat) (label : List String) :
    UploadModelResponse × Option RestError × List UploadCall :=
  match service id content label with
  | .error err =>
    ({ modelID := none, responseCode := 307 }, some (.service err),
      [{ id := id, content := content, label := label }])
  | .ok model =>
    ({ modelID := some model, responseCode := 200 }, none,
      [{ id := id, content := content, label := label }])

/-- The method `uploadModel`: the response, the error and the calls of the service.
`len(checksum) > 0` is the test that the form value is not the empty string.  Without
a checksum the service reads the tee itself; with one, it reads a new reader over the
bytes the tee has written to `dup`. -/
def uploadModel (sha256 : List Nat → List Nat)
    (service : ServableID → List Nat → List String → Except String ModelID)
    (r : UploadRequest) (id : ServableID) (label : List String) :
    UploadModelResponse × Option RestError × List UploadCall :=
  match r.formFile with
  | none => ({ modelID := none, responseCode := 307 }, some .formFile, [])
  | some file =>
    let tee : TeeReader := { r := file, w := [] }
    if r.formChecksum ≠ "" then
      let valid := isChecksumValid sha256 tee r.formChecksum
      if !valid.1 then
        ({ modelID := none, responseCode := 400 }, some .errorInvalidChecksum, [])
      else callUploadModel service id valid.2.w label
    else callUploadModel service id tee.readAll.1 label

/-- A stand-in digest for the samples: the length of the content as one byte. -/
def lengthDigest : List Nat → List Nat := fun content => [content.length % 256]

/-- A service that accepts every upload as version 1. -/
def acceptingService : ServableID → List Nat → List String → Except String ModelID :=
  fun id _ _ => .ok { toServableID := id, version := 1, label := "" }

/-! ## discovery/plaintext/plaintext.go -/

/-- The fragment of the syntax of `regexp` that the patterns of the discovery use: a
character class (a literal character being a class of one), concatenation, alternation
and the repetition `{min,max}`, with `max = none` for `*`, `+` and `{min,}`. -/
inductive Regex where
  | cls (p : Char → Bool)
  | seq (a b : Regex)
  | alt (a b : Regex)
  | rep (a : Regex) (min : Nat) (max : Option Nat)

/-- The remainders of `s` after `k` consecutive matches, `step` giving the remainders
after one match. -/
def repeatRests (step : List Char → List (List Char)) : Nat → List Char → List (List Char)
  | 0, s => [s]
  | k + 1, s => (step s).flatMap (repeatRests step k)

/-- The remainders of `s` after every match of the expression at the start of `s`.  The
repeated expressions of the patterns here read at least one character per round, so an
open repetition needs no more than `min + s.length` rounds. -/
def Regex.rests : Regex → List Char → List (List Char)
  | .cls _, [] => []
  | .cls p, c :: cs => if p c then [cs] else []
  | .seq a b, s => (a.rests s).flatMap b.rests
  | .alt a b, s => a.rests s ++ b.rests s
  | .rep a min max, s =>
    ((List.range (max.getD (min + s.length) + 1 - min)).map (fun k => k + min)).flatMap
      (fun k => repeatRests a.rests k s)

/-- The call `MatchString` of a pattern `^e`: `e` matches at the start of `s`. -/
def matchesStart (e : Regex) (s : String) : Bool :=
  !(e.rests s.toList).isEmpty

/-- The call `MatchString` of a pattern `^e$`: all of `s` matches `e`. -/
def matchesWhole (e : Regex) (s : String) : Bool :=
  (e.rests s.toList).any (fun rest => rest.isEmpty)

/-- A literal character. -/
def Regex.char (c : Char) : Regex := .cls (fun x => x == c)

/-- A range `[lo-hi]`. -/
def Regex.range (lo hi : Char) : Regex :=
  .cls (fun x => decide (lo.toNat ≤ x.toNat) && decide (x.toNat ≤ hi.toNat))

/-- The class `[[:space:]]`: tab, newline, vertical tab, form feed, carriage return and
space. -/
def isSpace (c : Char) : Bool :=
  [9, 10, 11, 12, 13, 32].contains c.toNat

/-- The class `[[:alnum:]]`: the ASCII digits and letters. -/
def isAlnum (c : Char) : Bool :=
  (decide ('0'.toNat ≤ c.toNat) && decide (c.toNat ≤ '9'.toNat)) ||
  (decide ('A'.toNat ≤ c.toNat) && decide (c.toNat ≤ 'Z'.toNat)) ||
  (decide ('a'.toNat ≤ c.toNat) && decide (c.toNat ≤ 'z'.toNat))

/-- The pieces of `s` between the characters of a class, empty pieces included. -/
def splitOn (p : Char → Bool) : List Char → List (List Char)
  | [] => [[]]
  | c :: cs =>
    if p c then [] :: splitOn p cs
    else
      match splitOn p cs with
      | [] => [[c]]
      | piece :: pieces => (c :: piece) :: pieces

/-- The call `re.Split(s, -1)` for a pattern that is one character class. -/
def Split (p : Char → Bool) (s : String) : List String :=
  (splitOn p s.toList).map String.mk

/-- The value of a string of decimal digits. -/
def decimalValue (digits : List Char) : Nat :=
  digits.foldl (fun n ch => n * 10 + (ch.toNat - '0'.toNat)) 0

/-- The function `strconv.Atoi` of the Go standard library: an optional sign `+` or `-`,
then one or more decimal digits; `none` for a syntax error or a value outside the range
of a 64-bit `int`. -/
def Atoi (s : String) : Option Int :=
  let signed : Bool × List Char :=
    match s.toList with
    | '+' :: rest => (false, rest)
    | '-' :: rest => (true, rest)
    | digits => (false, digits)
  if signed.2.isEmpty || !(signed.2.all (fun ch => ch.isDigit)) then none
  else if signed.1 then
    if decimalValue signed.2 ≤ 2 ^ 63 then some (-(decimalValue signed.2 : Int)) else none
  else
    if decimalValue signed.2 < 2 ^ 63 then some (decimalValue signed.2 : Int) else none

/-- The call `strings.TrimLeft` with the cutset of `readInstances`: tab, newline, form
feed, carriage return and space. -/
def trimLeft (line : String) : String :=
  String.mk (line.toList.dropWhile (fun c => [9, 10, 12, 13, 32].contains c.toNat))

/-- The errors of the plaintext discovery. -/
inductive PlaintextError where
  | cannotOpen
  | errPlainTextNotFoundInstanceAddress
  | errPlainTextInvalidInstanceName
  | errPlainTextInstanceNameIsEmpty
  | invalidInstanceAddress (lineNo : Nat) (address : String)
deriving DecidableEq, Repr

/-- The struct `Plaintext`: the lines of the file at `hostsPath` as `readLines` returns
them, `none` when the file cannot be opened. -/
structure Plaintext where
  hosts : Option (List String)

/-- The pattern of `skipLine`, `^[[:space:]]*[#;]+`, without its anchor. -/
def commentPattern : Regex :=
  .seq (.rep (.cls isSpace) 0 none) (.rep (.cls (fun c => c == '#' || c == ';')) 1 none)

/-- The method `skipLine`. -/
def skipLine (line : String) : Bool :=
  if line.length = 0 then true else matchesStart commentPattern line

/-- The pattern of `isValidInstanceName`, `^tfs-[[:alnum:]]{1,32}-[[:alnum:]]{1,32}`
(32 being `app.MaxTeamLength` and `app.MaxProjectLength`), without its anchor. -/
def instanceNamePattern : Regex :=
  .seq (.char 't') (.seq (.char 'f') (.seq (.char 's') (.seq (.char '-')
    (.seq (.rep (.cls isAlnum) 1 (some 32))
      (.seq (.char '-') (.rep (.cls isAlnum) 1 (some 32)))))))

/-- The method `isValidInstanceName`. -/
def isValidInstanceName (instanceName : String) : Bool :=
  matchesStart instanceNamePattern instanceName

/-- The group `([0-9]|[1-9][0-9]|1[0-9]{2}|2[0-4][0-9]|25[0-5])` of the address
pattern. -/
def octetPattern : Regex :=
  .alt (.range '0' '9')
    (.alt (.seq (.range '1' '9') (.range '0' '9'))
      (.alt (.seq (.char '1') (.rep (.range '0' '9') 2 (some 2)))
        (.alt (.seq (.char '2') (.seq (.range '0' '4') (.range '0' '9')))
          (.seq (.char '2') (.seq (.char '5') (.range '0' '5'))))))

/-- The address pattern of `isValidInstance`, `^((octet)\.){3}(octet)$`, without its
anchors. -/
def addressPattern : Regex :=
  .seq (.rep (.seq octetPattern (.char '.')) 3 (some 3)) octetPattern

/-- The port pattern of `isValidInstance`, `^0{1,}`, without its anchor. -/
def leadingZeroPattern : Regex := .rep (.char '0') 1 none

/-- The method `isValidInstance`. -/
def isValidInstance (entry : String) : Bool :=
  match Split (fun c => c == ':') entry with
  | [address, port] =>
    if !matchesWhole addressPattern address then false
    else if matchesStart leadingZeroPattern port then false
    else
      match Atoi port with
      | none => false
      | some port => decide (0 < port) && decide (port < 65536)
  | _ => false

/-- The method `extractInstanceName`. -/
def extractInstanceName (line : String) : Except PlaintextError String :=
  if line.length = 0 then .error .errPlainTextInstanceNameIsEmpty
  else
    match Split isSpace line with
    | [] => .error .errPlainTextInstanceNameIsEmpty
    | first :: _ =>
      if !isValidInstanceName first then .error .errPlainTextInvalidInstanceName
      else .ok first

/-- The method `skipInstanceName`. -/
def skipInstanceName (line instanceName : String) : Except PlaintextError Bool :=
  match extractInstanceName line with
  | .error e => .error e
  | .ok name => if name ≠ instanceName then .ok true else .ok false

/-- The method `extractInstances`: the pieces after the first that are not empty. -/
def extractInstances (line : String) : Except PlaintextError (List String) :=
  let splitInstances := Split isSpace line
  if splitInstances.length ≤ 1 then .error .errPlainTextNotFoundInstanceAddress
  else .ok ((splitInstances.drop 1).filter (fun v => v.length ≠ 0))

/-- The loop of `readInstances` over the entries: the first invalid address is an
error. -/
def readInstancesEntries (lineNo : Nat) : List String → Except PlaintextError (List String)
  | [] => .ok []
  | v :: rest =>
    if !isValidInstance v then .error (.invalidInstanceAddress lineNo v)
    else
      match readInstancesEntries lineNo rest with
      | .error e => .error e
      | .ok instances => .ok (v :: instances)

/-- The method `readInstances`. -/
def readInstances (lineNo : Nat) (line : String) : Except PlaintextError (List String) :=
  let line1 := trimLeft line
  match extractInstanceName line1 with
  | .error e => .error e
  | .ok _ =>
    match extractInstances line1 with
    | .error e => .error e
    | .ok entries => readInstancesEntries (lineNo + 1) entries

/-- The loop of `Discover` over the lines. -/
def discoverLines (instanceName : String) :
    List String → Nat → List String → Except PlaintextError (List String)
  | [], _, instances => .ok instances
  | line :: rest, lineNo, instances =>
    if skipLine line then discoverLines instanceName rest (lineNo + 1) instances
    else
      match skipInstanceName line instanceName with
      | .error e => .error e
      | .ok true => discoverLines instanceName rest (lineNo + 1) instances
      | .ok false =>
        match readInstances lineNo line with
        | .error e => .error e
        | .ok currentInstances =>
          if currentInstances.length = 0 then
            discoverLines instanceName rest (lineNo + 1) instances
          else discoverLines instanceName rest (lineNo + 1) (instances ++ currentInstances)

/-- The method `Discover`. -/
def Plaintext.Discover (pt : Plaintext) (servableID : ServableID) :
    Except PlaintextError (List String) :=
  match pt.hosts with
  | none => .error .cannotOpen
  | some lines => discoverLines servableID.InstanceName lines 0 []

/-- A hosts file whose only line is a record of `tfs-t-p` behind one space. -/
def indentedHosts : Plaintext := { hosts := some [" tfs-t-p 10.0.0.1:8500"] }

/-- The hosts file `indentedHosts` without the space at the start of its line. -/
def flushHosts : Plaintext := { hosts := some ["tfs-t-p 10.0.0.1:8500"] }

/-! ## Lemmas on label maps -/

namespace LabelMap

theorem findIn_setIn (k k' : String) (v : Int) (l : List (String × Int)) :
    findIn k' (setIn k v l) = if k' = k then some v else findIn k' l := by
  induction l with
  | nil =>
    by_cases h : k' = k
    · simp [setIn, findIn, h]
    · have h2 : ¬ k = k' := fun e => h e.symm
      simp [setIn, findIn, h, h2]
  | cons p rest ih =>
    by_cases h : p.1 = k
    · by_cases h1 : k' = k
      · simp [setIn, findIn, h, h1]
      · have h2 : ¬ k = k' := fun e => h1 e.symm
        simp [setIn, findIn, h, h1, h2]
    · by_cases h1 : k' = k
      · subst h1
        simp [setIn, findIn, h, ih]
      · simp [setIn, findIn, h, h1, ih]

theorem find_set (m : LabelMap) (k k' : String) (v : Int) :
    (m.set k v).find k' = if k' = k then some v else m.find k' :=
  findIn_setIn k k' v m.entries

theorem findIn_eq_none {k : String} {l : List (String × Int)} :
    findIn k l = none ↔ k ∉ l.map Prod.fst := by
  induction l with
  | nil => simp [findIn]
  | cons p rest ih =>
    by_cases h : p.1 = k
    · simp [findIn, h]
    · have h2 : ¬ k = p.1 := fun e => h e.symm
      simp [findIn, h, h2, ih]

theorem findIn_eq_some {k : String} {v : Int} {l : List (String × Int)}
    (hn : (l.map Prod.fst).Nodup) : findIn k l = some v ↔ (k, v) ∈ l := by
  induction l with
  | nil => simp [findIn]
  | cons p rest ih =>
    rw [List.map_cons, List.nodup_cons] at hn
    by_cases h : p.1 = k
    · have hk : ∀ w, (k, w) ∉ rest := fun w hw =>
        hn.1 (h ▸ List.mem_map_of_mem Prod.fst hw)
      simp only [findIn, h, if_true, List.mem_cons, hk, or_false, Option.some.injEq]
      constructor
      · intro e
        rw [← e, ← h]
      · intro e
        rw [← e]
    · have h2 : ¬ (k, v) = p := fun e => h (by rw [← e])
      simp [findIn, h, h2, ih hn.2]

theorem find_eq_some (m : LabelMap) (k : String) (v : Int) :
    m.find k = some v ↔ (k, v) ∈ m.entries :=
  findIn_eq_some m.nodupKeys

theorem findIn_filter_key (q : String → Bool) (k : String) (l : List (String × Int)) :
    findIn k (l.filter (fun p => q p.1)) = if q k then findIn k l else none := by
  induction l with
  | nil => simp [findIn]
  | cons p rest ih =>
    by_cases hq : q p.1 = true
    · rw [List.filter_cons_of_pos (by simpa using hq)]
      by_cases h : p.1 = k
      · subst h
        simp [findIn, hq]
      · simp [findIn, h, ih]
    · rw [List.filter_cons_of_neg (by simpa using hq)]
      by_cases h : p.1 = k
      · rw [ih]
        have : q k = false := by rw [← h]; simpa using hq
        simp [this]
      · simp [findIn, h, ih]

theorem findIn_filter_value (q : Int → Bool) (k : String) (l : List (String × Int))
    (hn : (l.map Prod.fst).Nodup) :
    findIn k (l.filter (fun p => q p.2)) = (findIn k l).filter q := by
  induction l with
  | nil => simp [findIn]
  | cons p rest ih =>
    rw [List.map_cons, List.nodup_cons] at hn
    by_cases hq : q p.2 = true
    · rw [List.filter_cons_of_pos (by simpa using hq)]
      by_cases h : p.1 = k
      · simp [findIn, h, Option.filter, hq]
      · simp [findIn, h, ih hn.2]
    · rw [List.filter_cons_of_neg (by simpa using hq)]
      by_cases h : p.1 = k
      · have hk : k ∉ rest.map Prod.fst := h ▸ hn.1
        have hk2 : k ∉ (rest.filter (fun p => q p.2)).map Prod.fst := fun hm =>
          hk ((List.filter_sublist rest).map Prod.fst |>.subset hm)
        rw [findIn_eq_none.mpr hk2]
        simp [findIn, h, Option.filter, hq]
      · simp [findIn, h, ih hn.2]

end LabelMap

theorem find_removeVersionLabels (labels : LabelMap) (version : Int) (k : String) :
    (removeVersionLabels labels version).find k =
      if labels.find k = some version then none else labels.find k := by
  have h := LabelMap.findIn_filter_value (fun x => !(x == version)) k labels.entries
    labels.nodupKeys
  simp only [removeVersionLabels, LabelMap.filter, LabelMap.find]
  rw [h]
  cases hf : LabelMap.findIn k labels.entries with
  | none => simp [Option.filter]
  | some w =>
    by_cases hw : w = version
    · simp [Option.filter, hw]
    · simp [Option.filter, hw]

theorem find_removeLabel (labels : LabelMap) (label k : String) :
    (removeLabel labels label).find k = if k = label then none else labels.find k := by
  have h := LabelMap.findIn_filter_key (fun x => !(x == label)) k labels.entries
  simp only [removeLabel, LabelMap.filter, LabelMap.find]
  rw [h]
  by_cases hk : k = label
  · simp [hk]
  · simp [hk]

/-! ## Lemmas on the loops of the servable configuration -/

theorem removeModelVersions_eq (labels : LabelMap) (version : Int) (vs : List Int)
    (current : LabelMap) :
    removeModelVersions labels version vs current =
      (vs.filter (fun x => !(x == version)),
        if version ∈ vs then removeVersionLabels labels version else current) := by
  have key : ∀ (vs acc : List Int) (cur : LabelMap),
      vs.foldl (fun (a : List Int × LabelMap) ver =>
          if ver = version then (a.1, removeVersionLabels labels version)
          else (a.1 ++ [ver], a.2)) (acc, cur) =
        (acc ++ vs.filter (fun x => !(x == version)),
          if version ∈ vs then removeVersionLabels labels version else cur) := by
    intro vs
    induction vs with
    | nil => intro acc cur; simp
    | cons x rest ih =>
      intro acc cur
      by_cases hx : x = version
      · subst hx
        simp only [List.foldl_cons, if_true]
        rw [ih]
        simp
      · have hx2 : ¬ version = x := fun e => hx e.symm
        simp only [List.foldl_cons, hx, if_false]
        rw [ih]
        simp [hx, hx2]
  have h := key vs [] current
  simpa [removeModelVersions] using h

theorem removeModelLabelVersions_eq (labels : LabelMap) (label : String) (versionLabel : Int)
    (vs : List Int) (current : LabelMap) :
    removeModelLabelVersions labels label versionLabel vs current =
      (vs, if versionLabel ∈ vs then removeLabel labels label else current) := by
  have key : ∀ (vs acc : List Int) (cur : LabelMap),
      vs.foldl (fun (a : List Int × LabelMap) ver =>
          if ver = versionLabel then (a.1 ++ [ver], removeLabel labels label)
          else (a.1 ++ [ver], a.2)) (acc, cur) =
        (acc ++ vs, if versionLabel ∈ vs then removeLabel labels label else cur) := by
    intro vs
    induction vs with
    | nil => intro acc cur; simp
    | cons x rest ih =>
      intro acc cur
      by_cases hx : x = versionLabel
      · subst hx
        simp only [List.foldl_cons, if_true]
        rw [ih]
        simp
      · have hx2 : ¬ versionLabel = x := fun e => hx e.symm
        simp only [List.foldl_cons, hx, if_false]
        rw [ih]
        simp [hx, hx2]
  have h := key vs [] current
  simpa [removeModelLabelVersions] using h

theorem length_filter_ne_iff (version : Int) (vs : List Int) :
    (vs.filter (fun x => !(x == version))).length ≠ vs.length ↔ version ∈ vs := by
  rw [Ne, List.filter_length_eq_length]
  constructor
  · intro h
    by_contra hv
    exact h (fun a ha => by
      have : a ≠ version := fun e => hv (e ▸ ha)
      simpa using this)
  · intro hv h
    have := h version hv
    simp at this

theorem addModelConfigs_absent (id : ModelID) (l : List ModelConfig)
    (h : ∀ e ∈ l, e.name ≠ id.name) :
    addModelConfigs id l = .ok (l ++ [newModelConfig id]) := by
  induction l with
  | nil => rfl
  | cons v rest ih =>
    have hv : v.name ≠ id.name := h v (List.mem_cons_self _ _)
    have hr := ih (fun e he => h e (List.mem_cons_of_mem _ he))
    simp [addModelConfigs, hv, hr]

theorem addModelConfigs_first (id : ModelID) (pre : List ModelConfig) (e : ModelConfig)
    (post : List ModelConfig) (hpre : ∀ x ∈ pre, x.name ≠ id.name) (he : e.name = id.name) :
    addModelConfigs id (pre ++ e :: post) =
      if id.label ≠ "" then
        if e.versionLabels.isNil then .error .errVersionNotFound
        else .ok (pre ++ { e with versions := e.versions ++ [id.version],
                                  versionLabels := e.versionLabels.set id.label id.version }
                    :: post)
      else .ok (pre ++ { e with versions := e.versions ++ [id.version] } :: post) := by
  induction pre with
  | nil => simp [addModelConfigs, he]
  | cons v rest ih =>
    have hv : v.name ≠ id.name := hpre v (List.mem_cons_self _ _)
    have hr := ih (fun x hx => hpre x (List.mem_cons_of_mem _ hx))
    by_cases h1 : id.label = ""
    · simp [addModelConfigs, hv, hr, h1]
    · by_cases h2 : e.versionLabels.isNil = true
      · simp [addModelConfigs, hv, hr, h1, h2]
      · simp [addModelConfigs, hv, hr, h1, h2]

theorem updateLabelConfigs_absent (id : ModelID) (l : List ModelConfig)
    (h : ∀ e ∈ l, e.name ≠ id.name) :
    updateLabelConfigs id l = .error .errUpdateLabel := by
  induction l with
  | nil => rfl
  | cons v rest ih =>
    have hv : v.name ≠ id.name := h v (List.mem_cons_self _ _)
    have hr := ih (fun e he => h e (List.mem_cons_of_mem _ he))
    simp [updateLabelConfigs, hv, hr]

theorem updateLabelConfigs_first (id : ModelID) (pre : List ModelConfig) (e : ModelConfig)
    (post : List ModelConfig) (hpre : ∀ x ∈ pre, x.name ≠ id.name) (he : e.name = id.name) :
    updateLabelConfigs id (pre ++ e :: post) =
      .ok (e.versionLabels.get id.label,
        pre ++ { e with versionLabels := e.versionLabels.set id.label id.version } :: post) := by
  induction pre with
  | nil => simp [updateLabelConfigs, he]
  | cons v rest ih =>
    have hv : v.name ≠ id.name := hpre v (List.mem_cons_self _ _)
    have hr := ih (fun x hx => hpre x (List.mem_cons_of_mem _ hx))
    simp [updateLabelConfigs, hv, hr]

theorem removeModelConfigs_absent (id : ModelID) (l : List ModelConfig)
    (h : ∀ e ∈ l, e.name ≠ id.name) :
    removeModelConfigs id l = .ok none := by
  induction l with
  | nil => rfl
  | cons v rest ih =>
    have hv : v.name ≠ id.name := h v (List.mem_cons_self _ _)
    have hr := ih (fun e he => h e (List.mem_cons_of_mem _ he))
    simp [removeModelConfigs, hv, hr]

theorem removeModelConfigs_first (id : ModelID) (pre : List ModelConfig) (e : ModelConfig)
    (post : List ModelConfig) (hpre : ∀ x ∈ pre, x.name ≠ id.name) (he : e.name = id.name) :
    removeModelConfigs id (pre ++ e :: post) =
      if e.versionLabels.isNil then .error .errVersionNotFound
      else if isLabelStable e.versionLabels id.version then
        .error .errRemovingModelHasStableLabel
      else if id.version ∈ e.versions then
        .ok (some (pre ++
          { e with versions := e.versions.filter (fun x => !(x == id.version)),
                   versionLabels := removeVersionLabels e.versionLabels id.version } :: post))
      else
        match removeModelConfigs id post with
        | .error err => .error err
        | .ok none => .ok none
        | .ok (some post1) => .ok (some (pre ++ e :: post1)) := by
  induction pre with
  | nil =>
    simp only [List.nil_append, removeModelConfigs, he, if_true, removeModelVersions_eq,
      length_filter_ne_iff]
    by_cases h1 : e.versionLabels.isNil = true
    · simp [h1]
    · by_cases h2 : isLabelStable e.versionLabels id.version = true
      · simp [h1, h2]
      · by_cases h3 : id.version ∈ e.versions
        · simp [h1, h2, h3]
        · simp [h1, h2, h3]
  | cons v rest ih =>
    have hv : v.name ≠ id.name := hpre v (List.mem_cons_self _ _)
    have hr := ih (fun x hx => hpre x (List.mem_cons_of_mem _ hx))
    by_cases h1 : e.versionLabels.isNil = true
    · simp [removeModelConfigs, hv, hr, h1]
    · by_cases h2 : isLabelStable e.versionLabels id.version = true
      · simp [removeModelConfigs, hv, hr, h1, h2]
      · by_cases h3 : id.version ∈ e.versions
        · simp [removeModelConfigs, hv, hr, h1, h2, h3]
        · cases hp : removeModelConfigs id post with
          | error err => simp [removeModelConfigs, hv, hr, h1, h2, h3, hp]
          | ok r =>
            cases r with
            | none => simp [removeModelConfigs, hv, hr, h1, h2, h3, hp]
            | some post1 => simp [removeModelConfigs, hv, hr, h1, h2, h3, hp]

/-! ## The methods of the servable configuration -/

@[simp] theorem Config_saveModel (sc : ServableConfig) (msc : ModelServerConfig)
    (team project : String) : (sc.saveModel msc team project).Config team project = msc := by
  simp [ServableConfig.saveModel, ServableConfig.Config]

theorem AddModel_eq (sc : ServableConfig) (id : ModelID) :
    sc.AddModel id =
      match addModelConfigs
          { id with label := if id.label = "" then sc.defaultLabel else id.label }
          (sc.Config id.team id.project) with
      | .error e => (.error e, sc)
      | .ok msc1 => (.ok (), sc.saveModel msc1 id.team id.project) := by
  unfold ServableConfig.AddModel
  by_cases h : id.label = ""
  · simp only [h, if_true]
  · simp only [h, if_false]

/-- C8: when no entry of the stored blob (the empty blob when none is stored) is named
`id.name`, `AddModel` succeeds and the stored blob is the old one followed by exactly
one new entry: name `id.name`, base path `/models/{team}/{project}/{name}`, versions
`[1]` whatever `id.version` is, and the single label `label -> id.version`, where
`label` is `id.label` or the default label when `id.label` is empty. -/
theorem addModel_without_entry_appends (sc : ServableConfig) (id : ModelID)
    (h : ∀ e ∈ sc.Config id.team id.project, e.name ≠ id.name) :
    (sc.AddModel id).1 = .ok () ∧
    ∃ entry : ModelConfig,
      (sc.AddModel id).2.Config id.team id.project
        = sc.Config id.team id.project ++ [entry] ∧
      entry.name = id.name ∧
      entry.basePath = "/models/" ++ id.team ++ "/" ++ id.project ++ "/" ++ id.name ∧
      entry.versions = [1] ∧
      entry.versionLabels.entries =
        [(if id.label = "" then sc.defaultLabel else id.label, id.version)] := by
  rw [AddModel_eq, addModelConfigs_absent
    { id with label := if id.label = "" then sc.defaultLabel else id.label } _ h]
  exact ⟨rfl, _, Config_saveModel _ _ _ _, rfl, rfl, rfl, rfl⟩

theorem addModel_without_entry_appends_witness :
    (∀ e ∈ (configWith "canary" [entryOther]).Config "t" "p", e.name ≠ "m") ∧
    ((configWith "canary" [entryOther]).AddModel (modelM 5 "")).1 = .ok () ∧
    ((configWith "canary" [entryOther]).AddModel (modelM 5 "")).2.Config "t" "p" =
      [entryOther,
        { name := "m", basePath := "/models/t/p/m", modelPlatform := "tensorflow",
          versions := [1], versionLabels := LabelMap.empty.set "canary" 5 }] :=
  ⟨by decide,
   (addModel_without_entry_appends (configWith "canary" [entryOther]) (modelM 5 "")
      (by decide)).1,
   by decide⟩

/-- C9: if `e` is the first entry of the stored blob named `id.name`, `UpdateLabel`
returns the version `id.label` pointed at in `e` (0 when the label was absent) and
stores the blob in which `e` has `id.label -> id.version`, every other label, the
versions and every other entry being as before; if no entry is named `id.name` it
fails with `errUpdateLabel` and leaves the configuration unchanged. -/
theorem updateLabel_sets_label (sc : ServableConfig) (id : ModelID) :
    (∀ pre e post, sc.Config id.team id.project = pre ++ e :: post →
        (∀ x ∈ pre, x.name ≠ id.name) → e.name = id.name →
        (sc.UpdateLabel id).1 = .ok ((e.versionLabels.find id.label).getD 0) ∧
        ∃ e1 : ModelConfig,
          (sc.UpdateLabel id).2.Config id.team id.project = pre ++ e1 :: post ∧
          e1.name = e.name ∧ e1.basePath = e.basePath ∧
          e1.modelPlatform = e.modelPlatform ∧ e1.versions = e.versions ∧
          ∀ l, e1.versionLabels.find l =
            if l = id.label then some id.version else e.versionLabels.find l) ∧
    ((∀ e ∈ sc.Config id.team id.project, e.name ≠ id.name) →
        (sc.UpdateLabel id).1 = .error .errUpdateLabel ∧ (sc.UpdateLabel id).2 = sc) := by
  constructor
  · intro pre e post hblob hpre he
    unfold ServableConfig.UpdateLabel
    rw [hblob, updateLabelConfigs_first id pre e post hpre he]
    refine ⟨rfl, _, Config_saveModel _ _ _ _, rfl, rfl, rfl, rfl, ?_⟩
    intro l
    exact LabelMap.find_set _ _ _ _
  · intro h
    unfold ServableConfig.UpdateLabel
    rw [updateLabelConfigs_absent _ _ h]
    exact ⟨rfl, rfl⟩

theorem updateLabel_sets_label_witness :
    ((configWith "canary" [entryOther, entryM]).UpdateLabel (modelM 2 "stable")).1 = .ok 1 ∧
    ((emptyConfig.UpdateLabel (modelM 2 "stable")).1 = .error .errUpdateLabel ∧
      (emptyConfig.UpdateLabel (modelM 2 "stable")).2 = emptyConfig) :=
  ⟨((updateLabel_sets_label (configWith "canary" [entryOther, entryM]) (modelM 2 "stable")).1
      [entryOther] entryM [] (by decide) (by decide) (by decide)).1,
   (updateLabel_sets_label emptyConfig (modelM 2 "stable")).2 (by decide)⟩

/-- C7, counterexample: with an empty default label and an empty `id.label`, `AddModel`
on an entry without label map does not fail with `errVersionNotFound`. -/
theorem addModel_empty_label_no_error :
    (configWith "" [entryNoLabels]).Config "t" "p" = [entryNoLabels] ∧
    entryNoLabels.name = (modelM 2 "").name ∧
    entryNoLabels.versionLabels.isNil = true ∧
    ¬ (((configWith "" [entryNoLabels]).AddModel (modelM 2 "")).1
          = .error .errVersionNotFound ∧
       ((configWith "" [entryNoLabels]).AddModel (modelM 2 "")).2.Config "t" "p"
          = [entryNoLabels]) := by
  decide

/-- C7, amended: let `e` be the first entry of the stored blob named `id.name` and
`label` be `id.label`, or the default label when `id.label` is empty.  If `label` is
not empty and `e` has a label map, `AddModel` succeeds and stores the blob in which `e`
has `id.version` appended to its versions and `label -> id.version` set in its label
map, all else as before.  If `label` is not empty and `e` has no label map, `AddModel`
fails with `errVersionNotFound` and the configuration is unchanged.  If `label` is
empty, `AddModel` succeeds and only appends `id.version` to the versions of `e`. -/
theorem addModel_existing_entry (sc : ServableConfig) (id : ModelID) (label : String)
    (pre : List ModelConfig) (e : ModelConfig) (post : List ModelConfig)
    (hlabel : label = if id.label = "" then sc.defaultLabel else id.label)
    (hblob : sc.Config id.team id.project = pre ++ e :: post)
    (hpre : ∀ x ∈ pre, x.name ≠ id.name) (he : e.name = id.name) :
    (label ≠ "" → e.versionLabels.isNil = false →
      (sc.AddModel id).1 = .ok () ∧
      (sc.AddModel id).2.Config id.team id.project =
        pre ++ { e with versions := e.versions ++ [id.version],
                        versionLabels := e.versionLabels.set label id.version } :: post ∧
      ∀ l, (e.versionLabels.set label id.version).find l =
        if l = label then some id.version else e.versionLabels.find l) ∧
    (label ≠ "" → e.versionLabels.isNil = true →
      (sc.AddModel id).1 = .error .errVersionNotFound ∧ (sc.AddModel id).2 = sc) ∧
    (label = "" →
      (sc.AddModel id).1 = .ok () ∧
      (sc.AddModel id).2.Config id.team id.project =
        pre ++ { e with versions := e.versions ++ [id.version] } :: post) := by
  have hfirst := addModelConfigs_first
    { id with label := if id.label = "" then sc.defaultLabel else id.label } pre e post
    hpre he
  rw [← hblob, ← hlabel] at hfirst
  simp only [] at hfirst
  rw [AddModel_eq, ← hlabel, hfirst]
  refine ⟨?_, ?_, ?_⟩
  · intro h1 h2
    rw [if_pos h1, if_neg (by simp [h2])]
    exact ⟨rfl, Config_saveModel _ _ _ _, fun l => LabelMap.find_set _ _ _ _⟩
  · intro h1 h2
    rw [if_pos h1, if_pos h2]
    exact ⟨rfl, rfl⟩
  · intro h1
    rw [if_neg (by simp [h1])]
    exact ⟨rfl, Config_saveModel _ _ _ _⟩

theorem addModel_existing_entry_witness :
    ((configWith "canary" [entryOther, entryM]).AddModel (modelM 3 "")).1 = .ok () ∧
    ((configWith "canary" [entryOther, entryM]).AddModel (modelM 3 "")).2.Config "t" "p" =
      [entryOther,
        { entryM with versions := [1, 2, 3],
                      versionLabels := (LabelMap.empty.set "canary" 3).set "stable" 1 }] ∧
    ((configWith "canary" [entryNoLabels]).AddModel (modelM 3 "")).1
      = .error .errVersionNotFound ∧
    ((configWith "" [entryNoLabels]).AddModel (modelM 3 "")).1 = .ok () :=
  ⟨((addModel_existing_entry (configWith "canary" [entryOther, entryM]) (modelM 3 "")
      "canary" [entryOther] entryM [] (by decide) (by decide) (by decide) (by decide)).1
      (by decide) (by decide)).1,
   by decide,
   ((addModel_existing_entry (configWith "canary" [entryNoLabels]) (modelM 3 "")
      "canary" [] entryNoLabels [] (by decide) (by decide) (by decide) (by decide)).2.1
      (by decide) (by decide)).1,
   ((addModel_existing_entry (configWith "" [entryNoLabels]) (modelM 3 "")
      "" [] entryNoLabels [] (by decide) (by decide) (by decide) (by decide)).2.2
      (by decide)).1⟩

theorem isLabelStable_iff (labels : LabelMap) (version : Int) (hv : version ≠ 0) :
    isLabelStable labels version = true ↔ labels.find StableLabel = some version := by
  unfold isLabelStable LabelMap.get
  cases h : labels.find StableLabel with
  | none =>
    have : ¬ (0 : Int) = version := fun e => hv e.symm
    simp [this]
  | some w => simp

theorem RemoveModel_only_entry (sc : ServableConfig) (id : ModelID)
    (pre : List ModelConfig) (e : ModelConfig) (post : List ModelConfig)
    (hblob : sc.Config id.team id.project = pre ++ e :: post)
    (hpre : ∀ x ∈ pre, x.name ≠ id.name) (hpost : ∀ x ∈ post, x.name ≠ id.name)
    (he : e.name = id.name) :
    sc.RemoveModel id =
      if e.versionLabels.isNil then (.error .errVersionNotFound, sc)
      else if isLabelStable e.versionLabels id.version then
        (.error .errRemovingModelHasStableLabel, sc)
      else if id.version ∈ e.versions then
        (.ok (), sc.saveModel (pre ++
          { e with versions := e.versions.filter (fun x => !(x == id.version)),
                   versionLabels := removeVersionLabels e.versionLabels id.version } :: post)
          id.team id.project)
      else (.ok (), sc) := by
  unfold ServableConfig.RemoveModel
  rw [hblob, removeModelConfigs_first id pre e post hpre he,
    removeModelConfigs_absent id post hpost]
  by_cases h1 : e.versionLabels.isNil = true
  · simp [h1]
  · by_cases h2 : isLabelStable e.versionLabels id.version = true
    · simp [h1, h2]
    · by_cases h3 : id.version ∈ e.versions
      · simp [h1, h2, h3]
      · simp [h1, h2, h3]

/-- C2, counterexample: on an entry without label map `RemoveModel` refuses (an error,
the configuration unchanged) although `stable` does not point at the version. -/
theorem removeModel_refuses_without_label_map :
    (configWith "canary" [entryNoLabels]).Config "t" "p" = [entryNoLabels] ∧
    entryNoLabels.name = (modelM 1 "").name ∧
    ¬ (((∃ err, ((configWith "canary" [entryNoLabels]).RemoveModel (modelM 1 "")).1
            = .error err) ∧
        ((configWith "canary" [entryNoLabels]).RemoveModel (modelM 1 "")).2
            = configWith "canary" [entryNoLabels]) ↔
       entryNoLabels.versionLabels.find StableLabel = some 1) := by
  refine ⟨by decide, by decide, ?_⟩
  intro h
  have h1 := h.mp ⟨⟨.errVersionNotFound, by decide⟩, rfl⟩
  revert h1
  decide

/-- C2, amended: when `e` is the only entry of the stored blob named `id.name` and
`id.version >= 1`, `RemoveModel` refuses (returns an error and leaves the configuration
unchanged) if and only if `e` has no label map or its label map has
`stable -> id.version`. -/
theorem removeModel_refuses_iff (sc : ServableConfig) (id : ModelID)
    (pre : List ModelConfig) (e : ModelConfig) (post : List ModelConfig)
    (hblob : sc.Config id.team id.project = pre ++ e :: post)
    (hpre : ∀ x ∈ pre, x.name ≠ id.name) (hpost : ∀ x ∈ post, x.name ≠ id.name)
    (he : e.name = id.name) (hv : 1 ≤ id.version) :
    ((∃ err, (sc.RemoveModel id).1 = .error err) ∧ (sc.RemoveModel id).2 = sc) ↔
      (e.versionLabels.isNil = true ∨ e.versionLabels.find StableLabel = some id.version) := by
  have hv0 : id.version ≠ 0 := by omega
  rw [RemoveModel_only_entry sc id pre e post hblob hpre hpost he,
    ← isLabelStable_iff _ _ hv0]
  by_cases h1 : e.versionLabels.isNil = true
  · simp [h1]
  · by_cases h2 : isLabelStable e.versionLabels id.version = true
    · simp [h1, h2]
    · by_cases h3 : id.version ∈ e.versions
      · simp [h1, h2, h3]
      · simp [h1, h2, h3]

theorem removeModel_refuses_iff_witness :
    (((∃ err, ((configWith "canary" [entryOther, entryM]).RemoveModel (modelM 1 "")).1
          = .error err) ∧
      ((configWith "canary" [entryOther, entryM]).RemoveModel (modelM 1 "")).2
          = configWith "canary" [entryOther, entryM]) ↔
     (entryM.versionLabels.isNil = true ∨
      entryM.versionLabels.find StableLabel = some 1)) ∧
    entryM.versionLabels.find StableLabel = some 1 :=
  ⟨removeModel_refuses_iff (configWith "canary" [entryOther, entryM]) (modelM 1 "")
      [entryOther] entryM [] (by decide) (by decide) (by decide) (by decide) (by decide),
   by decide⟩

/-- C10: when `e` is the only entry of the stored blob named `id.name`, `e` has a label
map in which `stable` does not point at `id.version`, and `id.version` is a version, that
is, not the `InvalidVersion` 0 (versions start at `StartVersion` = 1):
`RemoveModel` succeeds; if `id.version` occurs in the versions of `e`, the stored blob
has, in place of `e`, the entry whose versions are the old ones without every
occurrence of `id.version` (order kept) and whose label map is the old one minus exactly
the labels that pointed at `id.version`, all other entries as before; if `id.version`
does not occur, the configuration is unchanged. -/
theorem removeModel_drops_version (sc : ServableConfig) (id : ModelID)
    (pre : List ModelConfig) (e : ModelConfig) (post : List ModelConfig)
    (hblob : sc.Config id.team id.project = pre ++ e :: post)
    (hpre : ∀ x ∈ pre, x.name ≠ id.name) (hpost : ∀ x ∈ post, x.name ≠ id.name)
    (he : e.name = id.name)
    (hmap : e.versionLabels.isNil = false)
    (hstable : e.versionLabels.find StableLabel ≠ some id.version)
    (hv : id.version ≠ 0) :
    (sc.RemoveModel id).1 = .ok () ∧
    (id.version ∈ e.versions →
      ∃ e1 : ModelConfig,
        (sc.RemoveModel id).2.Config id.team id.project = pre ++ e1 :: post ∧
        e1.name = e.name ∧ e1.basePath = e.basePath ∧
        e1.modelPlatform = e.modelPlatform ∧
        e1.versions = e.versions.filter (fun x => x ≠ id.version) ∧
        ∀ l, e1.versionLabels.find l =
          if e.versionLabels.find l = some id.version then none
          else e.versionLabels.find l) ∧
    (id.version ∉ e.versions → (sc.RemoveModel id).2 = sc) := by
  have h2 : ¬ isLabelStable e.versionLabels id.version = true :=
    fun h => hstable ((isLabelStable_iff _ _ hv).mp h)
  rw [RemoveModel_only_entry sc id pre e post hblob hpre hpost he]
  rw [if_neg (by simp [hmap]), if_neg h2]
  by_cases h3 : id.version ∈ e.versions
  · rw [if_pos h3]
    refine ⟨rfl, fun _ => ⟨_, Config_saveModel _ _ _ _, rfl, rfl, rfl, ?_, ?_⟩,
      fun h => absurd h3 h⟩
    · show e.versions.filter _ = e.versions.filter _
      congr 1
      funext x
      by_cases hx : x = id.version <;> simp [hx]
    · intro l
      exact find_removeVersionLabels _ _ _
  · rw [if_neg h3]
    exact ⟨rfl, fun h => absurd h h3, fun _ => rfl⟩

theorem removeModel_drops_version_witness :
    ((configWith "canary" [entryOther, entryM]).RemoveModel (modelM 2 "")).1 = .ok () ∧
    ((configWith "canary" [entryOther, entryM]).RemoveModel (modelM 2 "")).2.Config "t" "p" =
      [entryOther,
        { entryM with versions := [1], versionLabels := LabelMap.empty.set "stable" 1 }] ∧
    ((configWith "canary" [entryOther, entryM]).RemoveModel (modelM 7 "")).2
      = configWith "canary" [entryOther, entryM] :=
  ⟨(removeModel_drops_version (configWith "canary" [entryOther, entryM]) (modelM 2 "")
      [entryOther] entryM [] (by decide) (by decide) (by decide) (by decide) (by decide)
      (by decide) (by decide)).1,
   by decide,
   (removeModel_drops_version (configWith "canary" [entryOther, entryM]) (modelM 7 "")
      [entryOther] entryM [] (by decide) (by decide) (by decide) (by decide) (by decide)
      (by decide) (by decide)).2.2 (by decide)⟩

/-! ## Preservation of the blob invariant -/

theorem mem_setIn {k : String} {v : Int} {l : List (String × Int)} {p : String × Int}
    (h : p ∈ LabelMap.setIn k v l) : p = (k, v) ∨ p ∈ l := by
  induction l with
  | nil => simpa [LabelMap.setIn] using h
  | cons q rest ih =>
    by_cases hq : q.1 = k
    · simp only [LabelMap.setIn, hq, if_true, List.mem_cons] at h
      rcases h with h | h
      · exact Or.inl h
      · exact Or.inr (List.mem_cons_of_mem _ h)
    · simp only [LabelMap.setIn, hq, if_false, List.mem_cons] at h
      rcases h with h | h
      · exact Or.inr (h ▸ List.mem_cons_self _ _)
      · rcases ih h with h1 | h1
        · exact Or.inl h1
        · exact Or.inr (List.mem_cons_of_mem _ h1)

theorem blobInvariant_cons (v : ModelConfig) (rest : List ModelConfig) :
    blobInvariant (v :: rest) ↔ entryInvariant v ∧ blobInvariant rest := by
  simp [blobInvariant]

theorem entryInvariant_addVersion (v : ModelConfig) (version : Int) (label : String)
    (h : entryInvariant v) :
    entryInvariant { v with versions := v.versions ++ [version],
                            versionLabels := v.versionLabels.set label version } := by
  intro p hp
  rcases mem_setIn hp with h1 | h1
  · simp [h1]
  · exact List.mem_append_left _ (h p h1)

theorem addModelConfigs_invariant (id : ModelID) :
    ∀ (l l1 : List ModelConfig), blobInvariant l →
      ((∃ e ∈ l, e.name = id.name) ∨ id.version = 1) →
      addModelConfigs id l = .ok l1 → blobInvariant l1 := by
  intro l
  induction l with
  | nil =>
    intro l1 _ h hr
    rcases h with ⟨e, he, _⟩ | h
    · cases he
    · simp only [addModelConfigs, Except.ok.injEq] at hr
      subst hr
      intro e he p hp
      simp only [List.mem_singleton] at he
      subst he
      rcases mem_setIn hp with h1 | h1
      · simp [newModelConfig, h1, h]
      · cases h1
  | cons v rest ih =>
    intro l1 hinv h hr
    rw [blobInvariant_cons] at hinv
    simp only [addModelConfigs] at hr
    by_cases hn : v.name = id.name
    · rw [if_pos hn] at hr
      by_cases h1 : id.label = ""
      · rw [if_neg (by simp [h1])] at hr
        injection hr with hr
        subst hr
        rw [blobInvariant_cons]
        exact ⟨fun p hp => List.mem_append_left _ (hinv.1 p hp), hinv.2⟩
      · rw [if_pos h1] at hr
        by_cases h2 : v.versionLabels.isNil = true
        · rw [if_pos h2] at hr
          cases hr
        · rw [if_neg h2] at hr
          injection hr with hr
          subst hr
          rw [blobInvariant_cons]
          exact ⟨entryInvariant_addVersion v _ _ hinv.1, hinv.2⟩
    · rw [if_neg hn] at hr
      have h' : (∃ e ∈ rest, e.name = id.name) ∨ id.version = 1 := by
        rcases h with ⟨e, he, hne⟩ | h
        · rcases List.mem_cons.mp he with rfl | he
          · exact absurd hne hn
          · exact Or.inl ⟨e, he, hne⟩
        · exact Or.inr h
      cases hrec : addModelConfigs id rest with
      | error err => rw [hrec] at hr; cases hr
      | ok rest1 =>
        rw [hrec] at hr
        injection hr with hr
        subst hr
        rw [blobInvariant_cons]
        exact ⟨hinv.1, ih rest1 hinv.2 h' hrec⟩

theorem updateLabelConfigs_invariant (id : ModelID) :
    ∀ (l l1 : List ModelConfig) (prev : Int), blobInvariant l →
      (∀ e ∈ l, e.name = id.name → id.version ∈ e.versions) →
      updateLabelConfigs id l = .ok (prev, l1) → blobInvariant l1 := by
  intro l
  induction l with
  | nil => intro l1 prev _ _ hr; simp [updateLabelConfigs] at hr
  | cons v rest ih =>
    intro l1 prev hinv h hr
    rw [blobInvariant_cons] at hinv
    simp only [updateLabelConfigs] at hr
    by_cases hn : v.name = id.name
    · rw [if_pos hn] at hr
      injection hr with hr
      injection hr with _ hr
      subst hr
      rw [blobInvariant_cons]
      refine ⟨?_, hinv.2⟩
      intro p hp
      rcases mem_setIn hp with h1 | h1
      · rw [h1]
        exact h v (List.mem_cons_self _ _) hn
      · exact hinv.1 p h1
    · rw [if_neg hn] at hr
      cases hrec : updateLabelConfigs id rest with
      | error err => rw [hrec] at hr; cases hr
      | ok r =>
        obtain ⟨prev1, rest1⟩ := r
        rw [hrec] at hr
        injection hr with hr
        injection hr with _ hr
        subst hr
        rw [blobInvariant_cons]
        exact ⟨hinv.1, ih rest1 prev1 hinv.2
          (fun e he => h e (List.mem_cons_of_mem _ he)) hrec⟩

theorem entryInvariant_removeVersion (v : ModelConfig) (version : Int)
    (h : entryInvariant v) :
    entryInvariant { v with versions := v.versions.filter (fun x => !(x == version)),
                            versionLabels := removeVersionLabels v.versionLabels version } := by
  intro p hp
  simp only [removeVersionLabels, LabelMap.filter, List.mem_filter] at hp
  simp only [List.mem_filter]
  exact ⟨h p hp.1, hp.2⟩

theorem removeModelConfigs_invariant (id : ModelID) :
    ∀ (l l1 : List ModelConfig), blobInvariant l →
      removeModelConfigs id l = .ok (some l1) → blobInvariant l1 := by
  intro l
  induction l with
  | nil => intro l1 _ hr; simp [removeModelConfigs] at hr
  | cons v rest ih =>
    intro l1 hinv hr
    rw [blobInvariant_cons] at hinv
    have hrest : ∀ l2, (match removeModelConfigs id rest with
        | .error err => (.error err : Except ServingError (Option (List ModelConfig)))
        | .ok none => .ok none
        | .ok (some rest1) => .ok (some (v :: rest1))) = .ok (some l2) →
        blobInvariant l2 := by
      intro l2 h2
      cases hrec : removeModelConfigs id rest with
      | error err => simp [hrec] at h2
      | ok r =>
        cases r with
        | none => simp [hrec] at h2
        | some rest1 =>
          simp only [hrec, Except.ok.injEq, Option.some.injEq] at h2
          rw [← h2, blobInvariant_cons]
          exact ⟨hinv.1, ih rest1 hinv.2 hrec⟩
    simp only [removeModelConfigs, removeModelVersions_eq] at hr
    by_cases hn : v.name = id.name
    · rw [if_pos hn] at hr
      by_cases h1 : v.versionLabels.isNil = true
      · rw [if_pos h1] at hr
        cases hr
      · rw [if_neg h1] at hr
        by_cases h2 : isLabelStable v.versionLabels id.version = true
        · rw [if_pos h2] at hr
          cases hr
        · rw [if_neg h2] at hr
          by_cases h3 : id.version ∈ v.versions
          · rw [if_pos ((length_filter_ne_iff _ _).mpr h3), if_pos h3] at hr
            injection hr with hr
            injection hr with hr
            subst hr
            rw [blobInvariant_cons]
            exact ⟨entryInvariant_removeVersion v _ hinv.1, hinv.2⟩
          · rw [if_neg (fun hc => h3 ((length_filter_ne_iff _ _).mp hc))] at hr
            exact hrest l1 hr
    · rw [if_neg hn] at hr
      exact hrest l1 hr

theorem removeModelLabelConfigs_invariant (id : ModelID) :
    ∀ (l l1 : List ModelConfig), blobInvariant l →
      removeModelLabelConfigs id l = .ok (some l1) → blobInvariant l1 := by
  intro l
  induction l with
  | nil => intro l1 _ hr; simp [removeModelLabelConfigs] at hr
  | cons v rest ih =>
    intro l1 hinv hr
    rw [blobInvariant_cons] at hinv
    simp only [removeModelLabelConfigs, removeModelLabelVersions_eq] at hr
    by_cases hn : v.name = id.name
    · rw [if_pos hn] at hr
      by_cases h1 : v.versionLabels.isNil = true
      · rw [if_pos h1] at hr
        cases hr
      · rw [if_neg h1] at hr
        cases hl : versionByLabel v.versionLabels id.label with
        | none => rw [hl] at hr; cases hr
        | some versionLabel =>
          rw [hl] at hr
          simp only [] at hr
          by_cases h2 : isLabelStable v.versionLabels versionLabel = true
          · rw [if_pos h2] at hr
            cases hr
          · rw [if_neg h2] at hr
            injection hr with hr
            injection hr with hr
            subst hr
            rw [blobInvariant_cons]
            refine ⟨?_, hinv.2⟩
            intro p hp
            by_cases h3 : versionLabel ∈ v.versions
            · simp only [h3, if_true, removeLabel, LabelMap.filter, List.mem_filter] at hp
              exact hinv.1 p hp.1
            · simp only [h3, if_false] at hp
              exact hinv.1 p hp
    · rw [if_neg hn] at hr
      cases hrec : removeModelLabelConfigs id rest with
      | error err => rw [hrec] at hr; cases hr
      | ok r =>
        cases r with
        | none => rw [hrec] at hr; cases hr
        | some rest1 =>
          rw [hrec] at hr
          injection hr with hr
          injection hr with hr
          subst hr
          rw [blobInvariant_cons]
          exact ⟨hinv.1, ih rest1 hinv.2 hrec⟩

/-- C1, counterexample: `UpdateLabel` with a version that is not among the entry's
versions succeeds and stores a blob that breaks the invariant. -/
theorem updateLabel_breaks_blobInvariant :
    blobInvariant ((configWith "canary" [entryM]).Config "t" "p") ∧
    ((configWith "canary" [entryM]).UpdateLabel (modelM 7 "stable")).1 = .ok 1 ∧
    ¬ blobInvariant
        (((configWith "canary" [entryM]).UpdateLabel (modelM 7 "stable")).2.Config "t" "p") := by
  decide

/-- C1, amended: if the blob stored for (`id.team`, `id.project`) satisfies the blob
invariant, then so does the blob stored after `RemoveModel` and after
`RemoveModelLabel`, for every ModelID; after `AddModel` when the blob already has an
entry named `id.name` or `id.version` is 1; and after `UpdateLabel` when `id.version` is
among the versions of every entry named `id.name`. -/
theorem mutations_preserve_blobInvariant (sc : ServableConfig) (id : ModelID)
    (hinv : blobInvariant (sc.Config id.team id.project)) :
    (((∃ e ∈ sc.Config id.team id.project, e.name = id.name) ∨ id.version = 1) →
      blobInvariant ((sc.AddModel id).2.Config id.team id.project)) ∧
    ((∀ e ∈ sc.Config id.team id.project, e.name = id.name → id.version ∈ e.versions) →
      blobInvariant ((sc.UpdateLabel id).2.Config id.team id.project)) ∧
    blobInvariant ((sc.RemoveModel id).2.Config id.team id.project) ∧
    blobInvariant ((sc.RemoveModelLabel id).2.Config id.team id.project) := by
  refine ⟨?_, ?_, ?_, ?_⟩
  · intro h
    rw [AddModel_eq]
    cases hr : addModelConfigs
        { id with label := if id.label = "" then sc.defaultLabel else id.label }
        (sc.Config id.team id.project) with
    | error err => exact hinv
    | ok msc1 =>
      simp only [Config_saveModel]
      exact addModelConfigs_invariant
        { id with label := if id.label = "" then sc.defaultLabel else id.label }
        _ _ hinv h hr
  · intro h
    unfold ServableConfig.UpdateLabel
    cases hr : updateLabelConfigs id (sc.Config id.team id.project) with
    | error err => exact hinv
    | ok r =>
      obtain ⟨prev, msc1⟩ := r
      simp only [Config_saveModel]
      exact updateLabelConfigs_invariant _ _ _ _ hinv h hr
  · unfold ServableConfig.RemoveModel
    cases hr : removeModelConfigs id (sc.Config id.team id.project) with
    | error err => exact hinv
    | ok r =>
      cases r with
      | none => exact hinv
      | some msc1 =>
        simp only [Config_saveModel]
        exact removeModelConfigs_invariant _ _ _ hinv hr
  · unfold ServableConfig.RemoveModelLabel
    cases hr : removeModelLabelConfigs id (sc.Config id.team id.project) with
    | error err => exact hinv
    | ok r =>
      cases r with
      | none => exact hinv
      | some msc1 =>
        simp only [Config_saveModel]
        exact removeModelLabelConfigs_invariant _ _ _ hinv hr

theorem mutations_preserve_blobInvariant_witness :
    blobInvariant ((configWith "canary" [entryOther, entryM]).Config "t" "p") ∧
    blobInvariant
      (((configWith "canary" [entryOther, entryM]).AddModel (modelM 3 "")).2.Config "t" "p") ∧
    blobInvariant
      (((configWith "canary" [entryOther, entryM]).UpdateLabel
        (modelM 2 "stable")).2.Config "t" "p") ∧
    blobInvariant
      (((configWith "canary" [entryOther, entryM]).RemoveModel (modelM 2 "")).2.Config "t" "p") :=
  ⟨by decide,
   (mutations_preserve_blobInvariant (configWith "canary" [entryOther, entryM])
      (modelM 3 "") (by decide)).1 (by decide),
   (mutations_preserve_blobInvariant (configWith "canary" [entryOther, entryM])
      (modelM 2 "stable") (by decide)).2.1 (by decide),
   (mutations_preserve_blobInvariant (configWith "canary" [entryOther, entryM])
      (modelM 2 "") (by decide)).2.2.1⟩

/-! ## Lemmas on the metadata table -/

theorem Get_labelKey (t : ModelTable) (id : ServableID) (label : String) :
    t.Get { team := some id.team, project := some id.project, name := some id.name,
            label := some label } =
      match t.rows.find? (sameLabelKey id label) with
      | none => .ok none
      | some r =>
        match scanRow r with
        | .error e => .error e
        | .ok m => .ok (some m) := by
  have hc : (fun (r : ModelRow) => columnIs (some id.team) r.team &&
      columnIs (some id.project) r.project && columnIs (some id.name) r.name &&
      columnIs (none : Option Int) r.version && columnIs (some label) r.label) =
      sameLabelKey id label := by
    funext r
    simp [columnIs, sameLabelKey]
  simp only [ModelTable.Get, buildSearchQueryAndValues, hc]

theorem scanRow_ok {r : ModelRow} {m : ModelData} (h : scanRow r = .ok m) :
    m.ID = r.id ∧ m.team = r.team ∧ m.project = r.project ∧ m.name = r.name ∧
      m.version = r.version ∧ m.label = r.label := by
  unfold scanRow at h
  cases hs : StatusToName r.status with
  | error e => rw [hs] at h; cases h
  | ok st =>
    rw [hs] at h
    injection h with h
    subst h
    exact ⟨rfl, rfl, rfl, rfl, rfl, rfl⟩

theorem Get_labelKey_some {t : ModelTable} {id : ServableID} {label : String}
    {m : ModelData}
    (h : t.Get { team := some id.team, project := some id.project, name := some id.name,
                 label := some label } = .ok (some m)) :
    ∃ r, t.rows.find? (sameLabelKey id label) = some r ∧ m.ID = r.id ∧
      m.version = r.version := by
  rw [Get_labelKey] at h
  cases hf : t.rows.find? (sameLabelKey id label) with
  | none => rw [hf] at h; cases h
  | some r =>
    rw [hf] at h
    simp only [] at h
    cases hs : scanRow r with
    | error e => rw [hs] at h; cases h
    | ok m1 =>
      rw [hs] at h
      injection h with h
      injection h with h
      subst h
      exact ⟨r, rfl, (scanRow_ok hs).1, (scanRow_ok hs).2.2.2.2.1⟩

theorem Get_labelKey_none {t : ModelTable} {id : ServableID} {label : String}
    (h : t.Get { team := some id.team, project := some id.project, name := some id.name,
                 label := some label } = .ok none) :
    t.rows.find? (sameLabelKey id label) = none := by
  rw [Get_labelKey] at h
  cases hf : t.rows.find? (sameLabelKey id label) with
  | none => rfl
  | some r =>
    rw [hf] at h
    simp only [] at h
    cases hs : scanRow r with
    | error e => rw [hs] at h; cases h
    | ok m1 => rw [hs] at h; cases h

theorem insertAllowed_no_label_row {rows : List ModelRow} {m : ModelData}
    (h : insertAllowed rows m = true) (hl : m.label ≠ "") :
    rows.filter (sameLabelKey m.toServableID m.label) = [] := by
  rw [List.filter_eq_nil_iff]
  intro r hr hk
  unfold insertAllowed at h
  rw [List.all_eq_true] at h
  have h1 := h r hr
  simp only [sameLabelKey, Bool.and_eq_true, decide_eq_true_eq] at hk
  obtain ⟨⟨⟨h2, h3⟩, h4⟩, h5⟩ := hk
  simp [h2, h3, h4, h5, hl] at h1

theorem ChangeLabel_ok {t : ModelTable} {m : ModelData} :
    (t.ChangeLabel m).1 = .ok () →
    ∃ (rows1 : List ModelRow) (status : Nat),
      (t.ChangeLabel m).2 =
        { rows := rows1 ++ [insertedRow (t.lastID + 1) m status], lastID := t.lastID + 1 } ∧
      insertAllowed rows1 m = true ∧
      (rows1 = t.rows ∨
        ∃ cur, t.rows.find? (sameLabelKey m.toServableID m.label) = some cur ∧
          rows1 = t.rows.filter (fun r => !(r.id == cur.id))) := by
  unfold ModelTable.ChangeLabel
  cases hg : t.Get { team := some m.team, project := some m.project, name := some m.name,
                     label := some m.label } with
  | error e => intro h; cases h
  | ok cur =>
    cases hst : StatusToID m.status with
    | error e =>
      cases cur with
      | none => intro h; cases h
      | some c =>
        dsimp only
        split <;> (intro h; cases h)
    | ok status =>
      cases cur with
      | none =>
        dsimp only [ModelTable.insert]
        by_cases ha : insertAllowed t.rows m = true
        · rw [if_pos ha]
          intro _
          exact ⟨t.rows, status, rfl, ha, Or.inl rfl⟩
        · rw [if_neg ha]
          intro h
          cases h
      | some c =>
        obtain ⟨r, hr, hid, _⟩ := @Get_labelKey_some t m.toServableID m.label c hg
        dsimp only
        by_cases hd : (t.rows.filter (fun r => r.id == c.ID)).length = 0
        · rw [if_pos hd]
          intro h
          cases h
        · rw [if_neg hd]
          dsimp only [ModelTable.insert]
          by_cases ha : insertAllowed (t.rows.filter (fun r => !(r.id == c.ID))) m = true
          · rw [if_pos ha]
            intro _
            refine ⟨_, status, rfl, ha, Or.inr ⟨r, hr, ?_⟩⟩
            rw [hid]
          · rw [if_neg ha]
            intro h
            cases h

theorem Delete_ok {t : ModelTable} {id : Int} (h : (t.Delete id).1 = .ok ()) :
    (t.Delete id).2 = { t with rows := t.rows.filter (fun r => !(r.id == id)) } := by
  unfold ModelTable.Delete at h ⊢
  simp only [] at h ⊢
  by_cases hd : (t.rows.filter (fun r => r.id == id)).length = 0
  · rw [if_pos hd] at h
    cases h
  · rw [if_neg hd]

/-! ## The service: SetLabel and Revert -/

theorem SetLabel_ok {s : ModelsService} {model : ModelID} {res : LabelChanged} :
    (s.SetLabel model).1 = .ok res →
    ∃ (prev : Int) (sc1 : ServableConfig) (md2 : ModelTable),
      s.servingConfig.UpdateLabel model = (.ok prev, sc1) ∧
      (s.metadata.ChangeLabel { toModelID := model, ID := 0, status := StatusReady }).1
        = .ok () ∧
      (if model.label = StableLabel ∧ prev ≠ 0 then
        ((s.metadata.ChangeLabel
            { toModelID := model, ID := 0, status := StatusReady }).2.ChangeLabel
          { toModelID := { toServableID := model.toServableID, version := prev,
                           label := PrevStableLabel },
            ID := 0, status := StatusReady }).1 = .ok () ∧
        md2 = ((s.metadata.ChangeLabel
            { toModelID := model, ID := 0, status := StatusReady }).2.ChangeLabel
          { toModelID := { toServableID := model.toServableID, version := prev,
                           label := PrevStableLabel },
            ID := 0, status := StatusReady }).2
       else
        md2 = (s.metadata.ChangeLabel
            { toModelID := model, ID := 0, status := StatusReady }).2) ∧
      res = { toServableID := model.toServableID, label := model.label,
              previousVersion := prev, newVersion := model.version } ∧
      (s.SetLabel model).2 = { s with servingConfig := sc1, metadata := md2 } := by
  unfold ModelsService.SetLabel
  cases hg : s.metadata.Get { team := some model.team, project := some model.project,
                              name := some model.name, version := some model.version } with
  | error e => intro h; cases h
  | ok found =>
    cases found with
    | none => intro h; cases h
    | some row =>
      dsimp only
      cases hu : s.servingConfig.UpdateLabel model with
      | mk r sc1 =>
        cases r with
        | error e => intro h; cases h
        | ok prev =>
          dsimp only
          cases hc : s.metadata.ChangeLabel
              { toModelID := model, ID := 0, status := StatusReady } with
          | mk r1 md1 =>
            cases r1 with
            | error e => intro h; cases h
            | ok u =>
              dsimp only
              by_cases hl : model.label = StableLabel ∧ prev ≠ 0
              · rw [if_pos hl]
                cases hc2 : md1.ChangeLabel
                    { toModelID := { toServableID := model.toServableID, version := prev,
                                     label := PrevStableLabel },
                      ID := 0, status := StatusReady } with
                | mk r2 md2 =>
                  cases r2 with
                  | error e => intro h; cases h
                  | ok u2 =>
                    intro h
                    injection h with h
                    exact ⟨prev, sc1, md2, rfl, rfl, by rw [if_pos hl, hc2]; exact ⟨rfl, rfl⟩,
                      h.symm, rfl⟩
              · rw [if_neg hl]
                intro h
                injection h with h
                exact ⟨prev, sc1, md1, rfl, rfl, by rw [if_neg hl], h.symm, rfl⟩

theorem sameLabelKey_inserted (id : ServableID) (label : String) (n version : Int)
    (status : String) (st : Nat) :
    sameLabelKey id label
      (insertedRow n { toServableID := id, version := version, label := label, ID := 0,
                       status := status } st) = true := by
  simp [sameLabelKey, insertedRow]

theorem sameLabelKey_inserted_other (id : ServableID) (label label1 : String)
    (n version : Int) (status : String) (st : Nat) (h : label1 ≠ label) :
    sameLabelKey id label
      (insertedRow n { toServableID := id, version := version, label := label1, ID := 0,
                       status := status } st) = false := by
  simp [sameLabelKey, insertedRow, h]

theorem ChangeLabel_label_rows {t : ModelTable} {m : ModelData}
    (h : (t.ChangeLabel m).1 = .ok ()) (hl : m.label ≠ "") :
    ∃ status, (t.ChangeLabel m).2.rows.filter (sameLabelKey m.toServableID m.label)
      = [insertedRow (t.lastID + 1) m status] := by
  obtain ⟨rows1, status, hshape, hallowed, _⟩ := ChangeLabel_ok h
  refine ⟨status, ?_⟩
  rw [hshape]
  simp only [List.filter_append, insertAllowed_no_label_row hallowed hl, List.nil_append]
  have : sameLabelKey m.toServableID m.label (insertedRow (t.lastID + 1) m status) = true := by
    simp [sameLabelKey, insertedRow]
  simp [List.filter, this]

theorem ChangeLabel_other_rows {t : ModelTable} {m : ModelData} (q : ModelRow → Bool)
    (h : (t.ChangeLabel m).1 = .ok ())
    (hq : ∀ n st, q (insertedRow n m st) = false) :
    ∀ r ∈ (t.ChangeLabel m).2.rows.filter q, r ∈ t.rows.filter q := by
  obtain ⟨rows1, status, hshape, _, hrows⟩ := ChangeLabel_ok h
  rw [hshape]
  intro r hr
  simp only [List.filter_append, List.mem_append, List.mem_filter, List.mem_singleton] at hr
  rcases hr with ⟨hr1, hr2⟩ | ⟨hr1, hr2⟩
  · rcases hrows with h1 | ⟨cur, _, h1⟩
    · rw [h1] at hr1
      exact List.mem_filter.mpr ⟨hr1, hr2⟩
    · rw [h1] at hr1
      exact List.mem_filter.mpr ⟨(List.mem_filter.mp hr1).1, hr2⟩
  · rw [hr1, hq] at hr2
    cases hr2

/-- C5: if `e` is the first blob entry named `id.name`, its label map has `stable -> p`
with `p` not 0, and `SetLabel(id, v, "stable")` succeeds, then the result is
`LabelChanged` with previous version `p` and new version `v`; the metadata afterwards has
exactly one row with label `stable` for `id`, at version `v`, and exactly one row with
label `last_stable` for `id`, at version `p`; and the blob entry has `stable -> v`. -/
theorem setLabel_stable_records_previous (s : ModelsService) (id : ServableID) (v p : Int)
    (res : LabelChanged) (pre : List ModelConfig) (e : ModelConfig)
    (post : List ModelConfig)
    (hids : idsIssued s.metadata)
    (hblob : s.servingConfig.Config id.team id.project = pre ++ e :: post)
    (hpre : ∀ x ∈ pre, x.name ≠ id.name) (he : e.name = id.name)
    (hp : e.versionLabels.find StableLabel = some p) (hp0 : p ≠ 0)
    (hok : (s.SetLabel { toServableID := id, version := v, label := StableLabel }).1
      = .ok res) :
    res = { toServableID := id, label := StableLabel, previousVersion := p,
            newVersion := v } ∧
    (∃ r, (s.SetLabel { toServableID := id, version := v, label := StableLabel }).2.metadata.rows.filter
        (sameLabelKey id StableLabel) = [r] ∧ r.version = v) ∧
    (∃ r, (s.SetLabel { toServableID := id, version := v, label := StableLabel }).2.metadata.rows.filter
        (sameLabelKey id PrevStableLabel) = [r] ∧ r.version = p) ∧
    (∃ e1, (s.SetLabel { toServableID := id, version := v, label := StableLabel }).2.servingConfig.Config
        id.team id.project = pre ++ e1 :: post ∧
      e1.name = id.name ∧ e1.versionLabels.find StableLabel = some v) := by
  obtain ⟨prev, sc1, md2, hu, hc1, hif, hres, hst⟩ := SetLabel_ok hok
  -- the configuration step
  have hupd : s.servingConfig.UpdateLabel
      { toServableID := id, version := v, label := StableLabel } =
      (.ok p, s.servingConfig.saveModel
        (pre ++ { e with versionLabels := e.versionLabels.set StableLabel v } :: post)
        id.team id.project) := by
    unfold ServableConfig.UpdateLabel
    dsimp only
    rw [hblob, updateLabelConfigs_first _ pre e post hpre he]
    simp [LabelMap.get, hp]
  rw [hupd] at hu
  injection hu with hu1 hu2
  injection hu1 with hu1
  subst hu1
  subst hu2
  have hl : (StableLabel = StableLabel ∧ p ≠ 0) := ⟨rfl, hp0⟩
  rw [if_pos hl] at hif
  obtain ⟨hc2, hmd2⟩ := hif
  rw [hst, hmd2]
  dsimp only
  obtain ⟨rows1, status1, hshape1, hallowed1, hrows1⟩ := ChangeLabel_ok hc1
  obtain ⟨rows2, status2, hshape2, hallowed2, hrows2⟩ := ChangeLabel_ok hc2
  have hno1 : rows1.filter (sameLabelKey id StableLabel) = [] :=
    insertAllowed_no_label_row hallowed1 (show StableLabel ≠ "" by decide)
  have hno2 : rows2.filter (sameLabelKey id PrevStableLabel) = [] :=
    insertAllowed_no_label_row hallowed2 (show PrevStableLabel ≠ "" by decide)
  have hsub1 : ∀ r ∈ rows1, r ∈ s.metadata.rows := by
    intro r hr
    rcases hrows1 with h1 | ⟨cur, _, h1⟩
    · rw [h1] at hr; exact hr
    · rw [h1] at hr; exact (List.mem_filter.mp hr).1
  have hstable : List.filter (sameLabelKey id StableLabel)
      ((s.metadata.ChangeLabel
          { toServableID := id, version := v, label := StableLabel, ID := 0,
            status := StatusReady }).2.ChangeLabel
        { toServableID := id, version := p, label := PrevStableLabel, ID := 0,
          status := StatusReady }).2.rows =
      [insertedRow (s.metadata.lastID + 1)
        { toServableID := id, version := v, label := StableLabel, ID := 0,
          status := StatusReady } status1] := by
    rw [hshape2, List.filter_append]
    rw [List.filter_cons_of_neg (by
      rw [sameLabelKey_inserted_other id StableLabel PrevStableLabel _ _ _ _ (by decide)]
      decide)]
    rw [List.filter_nil, List.append_nil]
    rw [hshape1] at hrows2
    rcases hrows2 with h2 | ⟨cur, hcur, h2⟩
    · rw [h2, List.filter_append, hno1, List.nil_append,
        List.filter_cons_of_pos (sameLabelKey_inserted id StableLabel _ _ _ _)]
      rfl
    · have hmem := List.mem_of_find?_eq_some hcur
      have hkey := List.find?_some hcur
      have hcur1 : cur ∈ rows1 := by
        rcases List.mem_append.mp hmem with hm | hm
        · exact hm
        · rw [List.mem_singleton] at hm
          rw [hm] at hkey
          have hneq := sameLabelKey_inserted_other id PrevStableLabel StableLabel
            (s.metadata.lastID + 1) v StatusReady status1 (by decide)
          rw [hneq] at hkey
          cases hkey
      have hle : cur.id ≤ s.metadata.lastID := hids cur (hsub1 cur hcur1)
      rw [h2, List.filter_filter, List.filter_append]
      have hk1 : ∀ r ∈ rows1, ¬ ((sameLabelKey id StableLabel r &&
          !(r.id == cur.id)) = true) := by
        intro r hr hc
        rw [Bool.and_eq_true] at hc
        have : r ∈ rows1.filter (sameLabelKey id StableLabel) :=
          List.mem_filter.mpr ⟨hr, hc.1⟩
        rw [hno1] at this
        cases this
      rw [List.filter_eq_nil_iff.mpr hk1, List.nil_append]
      rw [List.filter_cons_of_pos (by
        rw [sameLabelKey_inserted id StableLabel]
        simp only [insertedRow, Bool.true_and, Bool.not_eq_true', beq_eq_false_iff_ne, ne_eq]
        omega)]
      rfl
  have hlast : List.filter (sameLabelKey id PrevStableLabel)
      ((s.metadata.ChangeLabel
          { toServableID := id, version := v, label := StableLabel, ID := 0,
            status := StatusReady }).2.ChangeLabel
        { toServableID := id, version := p, label := PrevStableLabel, ID := 0,
          status := StatusReady }).2.rows =
      [insertedRow ((s.metadata.ChangeLabel
          { toServableID := id, version := v, label := StableLabel, ID := 0,
            status := StatusReady }).2.lastID + 1)
        { toServableID := id, version := p, label := PrevStableLabel, ID := 0,
          status := StatusReady } status2] := by
    rw [hshape2, List.filter_append, hno2, List.nil_append,
      List.filter_cons_of_pos (sameLabelKey_inserted id PrevStableLabel _ _ _ _)]
    rfl
  exact ⟨hres, ⟨_, hstable, rfl⟩, ⟨_, hlast, rfl⟩,
    ⟨_, Config_saveModel _ _ _ _, he, (LabelMap.find_set _ _ _ _).trans (by simp)⟩⟩

theorem setLabel_stable_records_previous_witness :
    (afterSecondUpload.SetLabel
        { toServableID := servableM, version := 2, label := StableLabel }).1 =
      .ok { toServableID := servableM, label := StableLabel, previousVersion := 1,
            newVersion := 2 } ∧
    ∃ r, (afterSecondUpload.SetLabel
        { toServableID := servableM, version := 2,
          label := StableLabel }).2.metadata.rows.filter
        (sameLabelKey servableM PrevStableLabel) = [r] ∧ r.version = 1 :=
  ⟨by decide,
   (setLabel_stable_records_previous afterSecondUpload servableM 2 1
      { toServableID := servableM, label := StableLabel, previousVersion := 1,
        newVersion := 2 }
      [] entryM [] (by decide) (by decide) (by decide) (by decide) (by decide) (by decide)
      (by decide)).2.2.1⟩

theorem Revert_ok {s : ModelsService} {id : ServableID} {res : LabelChanged} :
    (s.Revert id).1 = .ok res →
    ∃ (cs ls : ModelData) (prev : Int) (sc1 : ServableConfig),
      s.metadata.Get { team := some id.team, project := some id.project,
                       name := some id.name, label := some StableLabel } = .ok (some cs) ∧
      s.metadata.Get { team := some id.team, project := some id.project,
                       name := some id.name, label := some PrevStableLabel }
        = .ok (some ls) ∧
      s.servingConfig.UpdateLabel
        { toServableID := id, version := ls.version, label := StableLabel }
        = (.ok prev, sc1) ∧
      (s.metadata.Delete ls.ID).1 = .ok () ∧
      ((s.metadata.Delete ls.ID).2.ChangeLabel
        { toServableID := id, version := ls.version, label := StableLabel, ID := 0,
          status := StatusReady }).1 = .ok () ∧
      res = { toServableID := id, label := StableLabel, previousVersion := cs.version,
              newVersion := ls.version } ∧
      (s.Revert id).2 =
        { s with servingConfig := sc1,
                 metadata := ((s.metadata.Delete ls.ID).2.ChangeLabel
                   { toServableID := id, version := ls.version, label := StableLabel,
                     ID := 0, status := StatusReady }).2 } := by
  unfold ModelsService.Revert
  cases hg1 : s.metadata.Get { team := some id.team, project := some id.project,
                               name := some id.name, label := some StableLabel } with
  | error e => intro h; cases h
  | ok found1 =>
    cases found1 with
    | none => intro h; cases h
    | some cs =>
      dsimp only
      cases hg2 : s.metadata.Get { team := some id.team, project := some id.project,
                                   name := some id.name, label := some PrevStableLabel } with
      | error e => intro h; cases h
      | ok found2 =>
        cases found2 with
        | none => intro h; cases h
        | some ls =>
          dsimp only
          cases hu : s.servingConfig.UpdateLabel
              { toServableID := id, version := ls.version, label := StableLabel } with
          | mk r sc1 =>
            cases r with
            | error e => intro h; cases h
            | ok prev =>
              dsimp only
              cases hd : s.metadata.Delete ls.ID with
              | mk r1 md1 =>
                cases r1 with
                | error e => intro h; cases h
                | ok u =>
                  dsimp only
                  cases hc : md1.ChangeLabel
                      { toServableID := id, version := ls.version, label := StableLabel,
                        ID := 0, status := StatusReady } with
                  | mk r2 md2 =>
                    cases r2 with
                    | error e => intro h; cases h
                    | ok u2 =>
                      intro h
                      injection h with h
                      exact ⟨cs, ls, prev, sc1, rfl, rfl, hu, by rw [hd], by rw [hd, hc],
                        h.symm, by rw [hd, hc]⟩

theorem sameLabelKey_unique {t : ModelTable} (hu : labelIndexUnique t) {id : ServableID}
    {label : String} (hl : label ≠ "") {r1 r2 : ModelRow} (h1 : r1 ∈ t.rows)
    (h2 : r2 ∈ t.rows) (k1 : sameLabelKey id label r1 = true)
    (k2 : sameLabelKey id label r2 = true) : r1 = r2 := by
  simp only [sameLabelKey, Bool.and_eq_true, decide_eq_true_eq] at k1 k2
  obtain ⟨⟨⟨a1, a2⟩, a3⟩, a4⟩ := k1
  obtain ⟨⟨⟨b1, b2⟩, b3⟩, b4⟩ := k2
  exact hu r1 h1 r2 h2 (by rw [a4]; exact hl) (by rw [a1, b1]) (by rw [a2, b2])
    (by rw [a3, b3]) (by rw [a4, b4])

theorem Get_labelKey_of_absent {t : ModelTable} {id : ServableID} {label : String}
    (h : ∀ r ∈ t.rows, sameLabelKey id label r = false) :
    t.Get { team := some id.team, project := some id.project, name := some id.name,
            label := some label } = .ok none := by
  rw [Get_labelKey]
  have hf : t.rows.find? (sameLabelKey id label) = none := by
    rw [List.find?_eq_none]
    intro r hr
    rw [h r hr]
    decide
  rw [hf]

/-- C6: let the metadata (with its unique label index) have a `stable` row at version
`v` and a `last_stable` row at version `p` for `id`, and let `e` be the first blob entry
named `id.name`.  If `Revert(id)` succeeds, it returns `LabelChanged` with previous
version `v` and new version `p`; afterwards the metadata has exactly one `stable` row
for `id`, at version `p`, and no `last_stable` row for `id`, and the blob entry has
`stable -> p`.  If the `stable` row or the `last_stable` row is missing, `Revert` fails
and leaves the metadata, the blobs and the storage unchanged. -/
theorem revert_restores_previous_stable (s : ModelsService) (id : ServableID) :
    (∀ (v p : Int) (res : LabelChanged) (pre : List ModelConfig) (e : ModelConfig)
        (post : List ModelConfig),
      labelIndexUnique s.metadata →
      (∃ r ∈ s.metadata.rows, sameLabelKey id StableLabel r = true ∧ r.version = v) →
      (∃ r ∈ s.metadata.rows, sameLabelKey id PrevStableLabel r = true ∧ r.version = p) →
      s.servingConfig.Config id.team id.project = pre ++ e :: post →
      (∀ x ∈ pre, x.name ≠ id.name) → e.name = id.name →
      (s.Revert id).1 = .ok res →
      res = { toServableID := id, label := StableLabel, previousVersion := v,
              newVersion := p } ∧
      (∃ r, (s.Revert id).2.metadata.rows.filter (sameLabelKey id StableLabel) = [r] ∧
        r.version = p) ∧
      (s.Revert id).2.metadata.rows.filter (sameLabelKey id PrevStableLabel) = [] ∧
      (∃ e1, (s.Revert id).2.servingConfig.Config id.team id.project = pre ++ e1 :: post ∧
        e1.name = id.name ∧ e1.versionLabels.find StableLabel = some p)) ∧
    (((∀ r ∈ s.metadata.rows, sameLabelKey id StableLabel r = false) ∨
      (∀ r ∈ s.metadata.rows, sameLabelKey id PrevStableLabel r = false)) →
      (∃ err, (s.Revert id).1 = .error err) ∧ (s.Revert id).2 = s) := by
  constructor
  · intro v p res pre e post huniq hstable hlast hblob hpre he hok
    obtain ⟨cs, ls, prev, sc1, hg1, hg2, hu, hd, hc, hres, hst⟩ := Revert_ok hok
    obtain ⟨rS, hfS, _, hvS⟩ := Get_labelKey_some hg1
    obtain ⟨rL, hfL, hidL, hvL⟩ := Get_labelKey_some hg2
    obtain ⟨r1, hr1, hk1, hv1⟩ := hstable
    obtain ⟨r2, hr2, hk2, hv2⟩ := hlast
    have hrS : rS = r1 := sameLabelKey_unique huniq (show StableLabel ≠ "" by decide)
      (List.mem_of_find?_eq_some hfS) hr1 (List.find?_some hfS) hk1
    have hrL : rL = r2 := sameLabelKey_unique huniq (show PrevStableLabel ≠ "" by decide)
      (List.mem_of_find?_eq_some hfL) hr2 (List.find?_some hfL) hk2
    have hcsv : cs.version = v := by rw [hvS, hrS, hv1]
    have hlsv : ls.version = p := by rw [hvL, hrL, hv2]
    have hupd : s.servingConfig.UpdateLabel
        { toServableID := id, version := ls.version, label := StableLabel } =
        (.ok (e.versionLabels.get StableLabel), s.servingConfig.saveModel
          (pre ++ { e with versionLabels := e.versionLabels.set StableLabel ls.version }
            :: post) id.team id.project) := by
      unfold ServableConfig.UpdateLabel
      dsimp only
      rw [hblob, updateLabelConfigs_first _ pre e post hpre he]
    rw [hupd] at hu
    injection hu with _ hu2
    subst hu2
    rw [hst]
    dsimp only
    obtain ⟨status, hrows⟩ := ChangeLabel_label_rows hc (show StableLabel ≠ "" by decide)
    have hnone : List.filter (sameLabelKey id PrevStableLabel)
        ((s.metadata.Delete ls.ID).2.ChangeLabel
          { toServableID := id, version := ls.version, label := StableLabel, ID := 0,
            status := StatusReady }).2.rows = [] := by
      rw [List.eq_nil_iff_forall_not_mem]
      intro r hr
      have hr' := ChangeLabel_other_rows (sameLabelKey id PrevStableLabel) hc
        (fun n st => sameLabelKey_inserted_other id PrevStableLabel StableLabel n _ _ st
          (by decide)) r hr
      rw [Delete_ok hd] at hr'
      dsimp only at hr'
      rw [List.mem_filter, List.mem_filter] at hr'
      obtain ⟨⟨hmem, hid⟩, hkey⟩ := hr'
      have hrr : r = rL := sameLabelKey_unique huniq (show PrevStableLabel ≠ "" by decide)
        hmem (List.mem_of_find?_eq_some hfL) hkey (List.find?_some hfL)
      rw [hrr, ← hidL] at hid
      simp at hid
    refine ⟨?_, ⟨_, hrows, hlsv⟩, hnone, ⟨_, Config_saveModel _ _ _ _, he, ?_⟩⟩
    · rw [hres, hcsv, hlsv]
    · rw [← hlsv]
      exact (LabelMap.find_set _ _ _ _).trans (by simp)
  · intro h
    unfold ModelsService.Revert
    rcases h with h | h
    · rw [Get_labelKey_of_absent h]
      exact ⟨⟨_, rfl⟩, rfl⟩
    · rw [Get_labelKey_of_absent h]
      cases hg1 : s.metadata.Get { team := some id.team, project := some id.project,
                                   name := some id.name, label := some StableLabel } with
      | error err => exact ⟨⟨_, rfl⟩, rfl⟩
      | ok found =>
        cases found with
        | none => exact ⟨⟨_, rfl⟩, rfl⟩
        | some cs => exact ⟨⟨_, rfl⟩, rfl⟩

theorem revert_restores_previous_stable_witness :
    (afterStable2.Revert servableM).1 =
      .ok { toServableID := servableM, label := StableLabel, previousVersion := 2,
            newVersion := 1 } ∧
    (afterStable2.Revert servableM).2.metadata.rows.filter
      (sameLabelKey servableM PrevStableLabel) = [] ∧
    ((∃ err, (afterFirstUpload.Revert servableM).1 = .error err) ∧
      (afterFirstUpload.Revert servableM).2 = afterFirstUpload) :=
  ⟨by decide,
   ((revert_restores_previous_stable afterStable2 servableM).1 2 1
      { toServableID := servableM, label := StableLabel, previousVersion := 2,
        newVersion := 1 }
      [] { entryM with versionLabels := (LabelMap.empty.set "canary" 2).set "stable" 2 } []
      (by decide) (by decide) (by decide) (by decide) (by decide) (by decide)
      (by decide)).2.2.1,
   (revert_restores_previous_stable afterFirstUpload servableM).2 (Or.inl (by decide))⟩

/-! ## The service: UploadModel -/

/-- C3, failing input: after a first upload and the removal of its label `canary`, the
entry of the model has no label map.  The next upload gets version 2, saves the
directory and adds the pending anchor row, then fails in `AddModel` with
`errVersionNotFound`; the version directory and the metadata row of version 2 are still
there after the failed call. -/
theorem uploadModel_failure_leaves_version :
    (emptyService.UploadModel servableM goodArchive []).1
      = .ok { toServableID := servableM, version := 1, label := "" } ∧
    (afterFirstUpload.RemoveModelLabel servableM "canary").1 = .ok () ∧
    afterLabelRemoved.metadata.NextVersion
      { team := some "t", project := some "p", name := some "m" } = .ok 2 ∧
    (afterLabelRemoved.UploadModel servableM goodArchive []).1
      = .error (.serving .errVersionNotFound) ∧
    (afterLabelRemoved.UploadModel servableM goodArchive []).2.storage.exists_ servableM 2
      = true ∧
    (afterLabelRemoved.UploadModel servableM goodArchive []).2.metadata.rows
      = [{ id := 1, team := "t", project := "p", name := "m", version := 1, label := "",
           status := 2 },
         { id := 3, team := "t", project := "p", name := "m", version := 2, label := "",
           status := 3 }] := by
  decide

/-- C4, failing input: the metadata has a row of version 1 for the model while the blob
has no entry for it.  Every step of the upload succeeds and version 2 is returned, but
the new blob entry lists the versions `[1]`: version 2 is not among them although the
label `canary` points at it. -/
theorem uploadModel_new_entry_misses_version :
    rowWithoutEntry.metadata.NextVersion
      { team := some "t", project := some "p", name := some "m" } = .ok 2 ∧
    (rowWithoutEntry.UploadModel servableM goodArchive []).1
      = .ok { toServableID := servableM, version := 2, label := "" } ∧
    (rowWithoutEntry.UploadModel servableM goodArchive []).2.servingConfig.Config "t" "p"
      = [{ name := "m", basePath := "/models/t/p/m", modelPlatform := "tensorflow",
           versions := [1], versionLabels := LabelMap.empty.set "canary" 2 }] ∧
    ¬ (∃ e ∈ (rowWithoutEntry.UploadModel servableM goodArchive []).2.servingConfig.Config
          "t" "p",
        e.name = "m" ∧ (2 : Int) ∈ e.versions ∧ e.versionLabels.find "canary" = some 2) := by
  decide

/-! ## The directory layout -/

/-- C20: `isDirectoryLayoutValid` is true if and only if every expression matches at
least one entry; a layout that contains all entries of a valid layout is valid; and
when an expression of the list matches no entry but one, the layout without that entry
is invalid. -/
theorem isDirectoryLayoutValid_iff (matchString : String → String → Bool)
    (directoryLayout directoryRegexp : List String) :
    (isDirectoryLayoutValid matchString directoryLayout directoryRegexp = true ↔
      ∀ re ∈ directoryRegexp, ∃ item ∈ directoryLayout, matchString re item = true) ∧
    (∀ larger : List String, (∀ item ∈ directoryLayout, item ∈ larger) →
      isDirectoryLayoutValid matchString directoryLayout directoryRegexp = true →
      isDirectoryLayoutValid matchString larger directoryRegexp = true) ∧
    (∀ re ∈ directoryRegexp, ∀ (pre : List String) (item : String) (post : List String),
      directoryLayout = pre ++ item :: post →
      (∀ other ∈ pre ++ post, matchString re other = false) →
      isDirectoryLayoutValid matchString (pre ++ post) directoryRegexp = false) := by
  have hiff : ∀ layout : List String,
      isDirectoryLayoutValid matchString layout directoryRegexp = true ↔
        ∀ re ∈ directoryRegexp, ∃ item ∈ layout, matchString re item = true := by
    intro layout
    simp [isDirectoryLayoutValid, List.all_eq_true, List.any_eq_true]
  refine ⟨hiff directoryLayout, ?_, ?_⟩
  · intro larger hsub hvalid
    rw [hiff] at hvalid ⊢
    intro re hre
    obtain ⟨item, hitem, hm⟩ := hvalid re hre
    exact ⟨item, hsub item hitem, hm⟩
  · intro re hre pre item post _ hnone
    cases hv : isDirectoryLayoutValid matchString (pre ++ post) directoryRegexp with
    | false => rfl
    | true =>
      obtain ⟨other, hother, hm⟩ := (hiff (pre ++ post)).mp hv re hre
      rw [hnone other hother] at hm
      cases hm

theorem isDirectoryLayoutValid_iff_witness :
    isDirectoryLayoutValid literalMatch ["README.md", "variables", "assets"]
      ["variables", "README.md"] = true ∧
    isDirectoryLayoutValid literalMatch ["README.md", "assets"]
      ["variables", "README.md"] = false :=
  ⟨(isDirectoryLayoutValid_iff literalMatch ["README.md", "variables"]
      ["variables", "README.md"]).2.1 ["README.md", "variables", "assets"]
      (by decide) (by decide),
   (isDirectoryLayoutValid_iff literalMatch ["README.md", "variables", "assets"]
      ["variables", "README.md"]).2.2 "variables" (by decide) ["README.md"] "variables"
      ["assets"] (by decide) (by decide)⟩

/-! ## cleanList -/

/-- C19, failing input: the anchor of (`a-b`, `c`, `n`, 1) is removed although the only
labelled record belongs to (`a`, `b-c`, `n`, 1), so the result is not the list without
the anchors that have a labelled record of the same (team, project, name, version). -/
theorem cleanList_drops_foreign_anchor :
    cleanList [anchorDashTeam, labelledDashProject] = [labelledDashProject] ∧
    cleanList [anchorDashTeam, labelledDashProject] ≠
      [anchorDashTeam, labelledDashProject].filter (fun m =>
        decide (¬ (m.label = "" ∧
          ∃ l ∈ [anchorDashTeam, labelledDashProject], l.label ≠ "" ∧
            l.team = m.team ∧ l.project = m.project ∧ l.name = m.name ∧
            l.version = m.version))) := by
  decide

/-- What `cleanList` computes: the input records in their original order without those
that have an empty label and share the string of `mapID` with some record of the list
that has a non-empty label; a list without labelled records is returned unchanged. -/
theorem cleanList_eq_filter (models : List ModelData) :
    cleanList models =
      models.filter (fun m =>
        decide (¬ (m.label = "" ∧ ∃ l ∈ models, l.label ≠ "" ∧ mapID l = mapID m))) ∧
    ((∀ m ∈ models, m.label = "") → cleanList models = models) := by
  have hkey : ∀ m : ModelData, (labeledModel models).contains (mapID m) = true ↔
      ∃ l ∈ models, l.label ≠ "" ∧ mapID l = mapID m := by
    intro m
    simp only [labeledModel, List.contains_iff_exists_mem_beq, List.mem_map,
      List.mem_filter, bne_iff_ne, ne_eq, beq_iff_eq]
    constructor
    · rintro ⟨k, ⟨l, ⟨hl, hlab⟩, rfl⟩, hk⟩
      exact ⟨l, hl, hlab, hk.symm⟩
    · rintro ⟨l, hl, hlab, hk⟩
      exact ⟨mapID l, ⟨l, ⟨hl, hlab⟩, rfl⟩, hk.symm⟩
  have hfirst : cleanList models =
      models.filter (fun m =>
        decide (¬ (m.label = "" ∧ ∃ l ∈ models, l.label ≠ "" ∧ mapID l = mapID m))) := by
    unfold cleanList
    apply List.filter_congr
    intro m _
    by_cases h1 : m.label = ""
    · by_cases h2 : (labeledModel models).contains (mapID m) = true
      · have h3 := (hkey m).mp h2
        have h2m : mapID m ∈ labeledModel models := by simpa using h2
        simp [h1, h2m, h3]
      · have h3 : ¬ ∃ l ∈ models, l.label ≠ "" ∧ mapID l = mapID m :=
          fun h => h2 ((hkey m).mpr h)
        have h4 : (labeledModel models).contains (mapID m) = false := by
          simpa using h2
        simp only [h1, h4, h3, beq_self_eq_true, Bool.and_false, Bool.not_false, and_false,
          not_false_eq_true, decide_True]
    · simp [h1]
  refine ⟨hfirst, ?_⟩
  intro hall
  rw [hfirst, List.filter_eq_self]
  intro m _
  have : ¬ ∃ l ∈ models, l.label ≠ "" ∧ mapID l = mapID m := by
    rintro ⟨l, hl, hlab, _⟩
    exact hlab (hall l hl)
  simp [this]

theorem cleanList_eq_filter_witness :
    cleanList [anchorDashTeam, { anchorDashTeam with version := 2 }] =
      [anchorDashTeam, { anchorDashTeam with version := 2 }] :=
  (cleanList_eq_filter [anchorDashTeam, { anchorDashTeam with version := 2 }]).2 (by decide)

/-! ## The metadata table: UpdateStatus and NextVersion -/

/-- C18, counterexample: the row of id 1 already has the status `ready`, and
`UpdateStatus(1, "ready")` does not succeed: it fails with `errorUpdateModel`. -/
theorem updateStatus_same_status_fails :
    (∃ r ∈ oneReadyRow.rows, r.id = 1 ∧ StatusToID StatusReady = .ok r.status) ∧
    ¬ ((oneReadyRow.UpdateStatus 1 StatusReady).1 = .ok ()) ∧
    (oneReadyRow.UpdateStatus 1 StatusReady).1 = .error .errorUpdateModel := by
  decide

/-- C18, amended: with a valid status name, `UpdateStatus(id, status)` succeeds and sets
the status of the row with that id, leaving every other row as it is, when a row with
that id has a different status; it fails with `errorUpdateModel` and changes nothing
when no row with that id exists or the row already has the target status. -/
theorem updateStatus_spec (t : ModelTable) (id : Int) (status : String) (statusID : Nat)
    (hstatus : StatusToID status = .ok statusID) :
    ((∃ r ∈ t.rows, r.id = id ∧ r.status ≠ statusID) →
      (t.UpdateStatus id status).1 = .ok () ∧
      (t.UpdateStatus id status).2 =
        { t with rows := t.rows.map (fun r =>
            if r.id = id then { r with status := statusID } else r) }) ∧
    ((∀ r ∈ t.rows, r.id = id → r.status = statusID) →
      (t.UpdateStatus id status).1 = .error .errorUpdateModel ∧
      (t.UpdateStatus id status).2 = t) := by
  unfold ModelTable.UpdateStatus
  rw [hstatus]
  dsimp only
  constructor
  · rintro ⟨r, hr, hid, hst⟩
    have hne : ¬ (t.rows.filter (fun r => r.id == id && r.status != statusID)).length = 0 := by
      intro h0
      have hmem : r ∈ t.rows.filter (fun r => r.id == id && r.status != statusID) := by
        rw [List.mem_filter]
        exact ⟨hr, by simp [hid, hst]⟩
      rw [List.length_eq_zero] at h0
      rw [h0] at hmem
      cases hmem
    rw [if_neg hne]
    refine ⟨rfl, ?_⟩
    dsimp only
    congr 1
    apply List.map_congr_left
    intro x _
    by_cases h1 : x.id = id
    · by_cases h2 : x.status = statusID
      · cases x
        simp only at h1 h2
        subst h1
        subst h2
        simp
      · simp [h1, h2]
    · simp [h1]
  · intro hall
    have h0 : (t.rows.filter (fun r => r.id == id && r.status != statusID)).length = 0 := by
      rw [List.length_eq_zero, List.filter_eq_nil_iff]
      intro r hr hc
      simp only [Bool.and_eq_true, beq_iff_eq, bne_iff_ne, ne_eq] at hc
      exact hc.2 (hall r hr hc.1)
    rw [if_pos h0]
    exact ⟨rfl, rfl⟩

theorem updateStatus_spec_witness :
    (onePendingRow.UpdateStatus 1 StatusReady).2 = oneReadyRow ∧
    (onePendingRow.UpdateStatus 5 StatusReady).1 = .error .errorUpdateModel :=
  ⟨((updateStatus_spec onePendingRow 1 StatusReady 2 (by decide)).1 (by decide)).2,
   ((updateStatus_spec onePendingRow 5 StatusReady 2 (by decide)).2 (by decide)).1⟩

theorem int_max?_eq_some_iff (l : List Int) (m : Int) :
    l.max? = some m ↔ m ∈ l ∧ ∀ b ∈ l, b ≤ m := by
  haveI : Std.Antisymm (fun (x1 x2 : Int) => x1 ≤ x2) := ⟨by intros; omega⟩
  apply List.max?_eq_some_iff
  · intro a
    exact Int.le_refl a
  · intro a b
    rcases le_total a b with h | h
    · exact Or.inr (max_eq_right h)
    · exact Or.inl (max_eq_left h)
  · intro a b c
    exact max_le_iff

/-- C17: for a filter that builds a WHERE clause and rows whose versions are 64-bit
integers, `NextVersion` returns 1 when no row matches; when `m` is the highest version
among the matching rows it returns `m + 1`, which is above the version of every matching
row, unless `m` is `2^63 - 1`, in which case it fails with `errorInvalidVersion`. -/
theorem nextVersion_spec (t : ModelTable) (params : QueryParameters)
    (cond : ModelRow → Bool)
    (hcond : buildSearchQueryAndValues params = .ok cond)
    (hrange : ∀ r ∈ t.rows, -(2 : Int) ^ 63 ≤ r.version ∧ r.version ≤ 2 ^ 63 - 1) :
    ((∀ r ∈ t.rows, cond r = false) → t.NextVersion params = .ok 1) ∧
    (∀ m : Int, (∃ r ∈ t.rows, cond r = true ∧ r.version = m) →
      (∀ r ∈ t.rows, cond r = true → r.version ≤ m) →
      (m < 2 ^ 63 - 1 →
        t.NextVersion params = .ok (m + 1) ∧
        ∀ r ∈ t.rows, cond r = true → r.version < m + 1) ∧
      (m = 2 ^ 63 - 1 → t.NextVersion params = .error .errorInvalidVersion)) := by
  unfold ModelTable.NextVersion
  rw [hcond]
  dsimp only
  constructor
  · intro hnone
    have : t.rows.filter cond = [] := by
      rw [List.filter_eq_nil_iff]
      intro r hr hc
      rw [hnone r hr] at hc
      cases hc
    rw [this]
    rfl
  · intro m hex hmax
    have hm : ((t.rows.filter cond).map (fun r => r.version)).max? = some m := by
      rw [int_max?_eq_some_iff]
      constructor
      · obtain ⟨r, hr, hc, hv⟩ := hex
        exact List.mem_map.mpr ⟨r, List.mem_filter.mpr ⟨hr, hc⟩, hv⟩
      · intro b hb
        obtain ⟨r, hr, hv⟩ := List.mem_map.mp hb
        rw [← hv]
        exact hmax r (List.mem_filter.mp hr).1 (List.mem_filter.mp hr).2
    rw [hm]
    dsimp only
    obtain ⟨r0, hr0, _, hv0⟩ := hex
    have hlow : -(2 : Int) ^ 63 ≤ m := hv0 ▸ (hrange r0 hr0).1
    norm_num at hlow
    constructor
    · intro hlt
      norm_num at hlt
      have hw : wrapInt64 (m + 1) = m + 1 := by
        unfold wrapInt64
        norm_num
        omega
      unfold TFDeploy.NextVersion
      dsimp only
      rw [hw, if_neg (by omega)]
      refine ⟨rfl, ?_⟩
      intro r hr hc
      have := hmax r hr hc
      omega
    · intro heq
      norm_num at heq
      have hw : wrapInt64 (m + 1) = -9223372036854775808 := by
        unfold wrapInt64
        rw [heq]
        norm_num
      unfold TFDeploy.NextVersion
      dsimp only
      rw [hw, if_pos (by omega)]

theorem nextVersion_spec_witness :
    threeVersions.NextVersion filterM = .ok 4 ∧
    lastVersion.NextVersion filterM = .error .errorInvalidVersion ∧
    oneReadyRow.NextVersion { name := some "none" } = .ok 1 :=
  ⟨(((nextVersion_spec threeVersions filterM _ rfl (by decide)).2 3 (by decide)
      (by decide)).1 (by decide)).1,
   ((nextVersion_spec lastVersion filterM _ rfl (by decide)).2 9223372036854775807
      (by decide) (by decide)).2 (by decide),
   (nextVersion_spec oneReadyRow { name := some "none" } _ rfl (by decide)).1 (by decide)⟩

/-! ## The lock -/

/-- C16, amended: when the key `team + project + name` is empty or longer than 96 bytes
(the unit of `len`), `Lock` fails with the key-length error and leaves the table unchanged.
Otherwise `Lock` succeeds if and only if the digest of the key is not in the table, and
fails with `errKeyIsLocked`, the table unchanged, when it is; after a successful `Lock` a
second `Lock` fails with `errKeyIsLocked`; and after `UnLock`, on any table, `Lock`
succeeds. -/
theorem lock_spec {δ : Type} [DecidableEq δ] (sum : String → δ) (l : TFDeploy.Lock δ)
    (s : ServableID) :
    (((Lock.key s).utf8ByteSize = 0 ∨ (Lock.key s).utf8ByteSize > 96) →
      (l.Lock sum s).1 = some .errWrongKeyLength ∧ (l.Lock sum s).2 = l) ∧
    ((0 < (Lock.key s).utf8ByteSize ∧ (Lock.key s).utf8ByteSize ≤ 96) →
      ((l.Lock sum s).1 = none ↔ sum (Lock.key s) ∉ l.state) ∧
      (sum (Lock.key s) ∈ l.state →
        (l.Lock sum s).1 = some .errKeyIsLocked ∧ (l.Lock sum s).2 = l) ∧
      ((l.Lock sum s).1 = none →
        ((l.Lock sum s).2.Lock sum s).1 = some .errKeyIsLocked) ∧
      ((l.UnLock sum s).Lock sum s).1 = none) := by
  constructor
  · intro h
    have h' : (Lock.key s).utf8ByteSize = 0 ∨ (Lock.key s).utf8ByteSize > maxKeyLength := h
    unfold Lock.Lock
    rw [if_pos h']
    exact ⟨rfl, rfl⟩
  · intro h
    have h' : ¬ ((Lock.key s).utf8ByteSize = 0 ∨
        (Lock.key s).utf8ByteSize > maxKeyLength) := by
      unfold maxKeyLength
      omega
    have hlock : ∀ t : TFDeploy.Lock δ, t.Lock sum s = t.lock sum (Lock.key s) := by
      intro t
      unfold Lock.Lock
      rw [if_neg h']
    rw [hlock l, hlock]
    unfold Lock.lock
    by_cases hm : sum (Lock.key s) ∈ l.state
    · rw [if_pos hm]
      refine ⟨?_, fun _ => ⟨rfl, rfl⟩, ?_, ?_⟩
      · simp [hm]
      · intro hc
        cases hc
      · rw [hlock]
        unfold Lock.lock Lock.UnLock Lock.unLock
        rw [if_neg (by simp)]
    · rw [if_neg hm]
      refine ⟨?_, fun hc => absurd hc hm, ?_, ?_⟩
      · simp [hm]
      · intro _
        rw [if_pos (by simp)]
      · rw [hlock]
        unfold Lock.lock Lock.UnLock Lock.unLock
        rw [if_neg (by simp)]

/-- C16, counterexample: the key of `accentedServable` has 50 characters, so it is not
empty and not longer than 96 characters, yet `Lock` on the empty table fails with the
key-length error: the key has 99 bytes. -/
theorem lock_refuses_key_of_fifty_characters :
    (Lock.key accentedServable).length = 50 ∧
    (Lock.key accentedServable).utf8ByteSize = 99 ∧
    accentedServable.team.length ≤ 32 ∧ accentedServable.project.length ≤ 32 ∧
    accentedServable.name.length ≤ 32 ∧
    (({ state := [] } : TFDeploy.Lock String).Lock id accentedServable).1 =
      some .errWrongKeyLength ∧
    ¬ ((({ state := [] } : TFDeploy.Lock String).Lock id accentedServable).1 = none) := by
  decide

theorem lock_spec_witness :
    ((({ state := [] } : TFDeploy.Lock String).Lock id servableM).2.Lock id servableM).1
      = some .errKeyIsLocked ∧
    (({ state := [] } : TFDeploy.Lock String).Lock id
      { team := "", project := "", name := "" }).1 = some .errWrongKeyLength :=
  ⟨((lock_spec id ({ state := [] } : TFDeploy.Lock String) servableM).2 (by decide)).2.2.1
      (by decide),
   ((lock_spec id ({ state := [] } : TFDeploy.Lock String)
      { team := "", project := "", name := "" }).1 (by decide)).1⟩

/-! ## RemoveModelLabel -/

theorem removeModelLabelConfigs_first (id : ModelID) (pre : List ModelConfig)
    (e : ModelConfig) (post : List ModelConfig) (hpre : ∀ x ∈ pre, x.name ≠ id.name)
    (he : e.name = id.name) :
    removeModelLabelConfigs id (pre ++ e :: post) =
      if e.versionLabels.isNil then .error .errVersionNotFound
      else
        match versionByLabel e.versionLabels id.label with
        | none => .error .errVersionNotFound
        | some versionLabel =>
          if isLabelStable e.versionLabels versionLabel then
            .error .errRemovingModelHasStableLabel
          else
            .ok (some (pre ++
              { e with versionLabels :=
                  if versionLabel ∈ e.versions then removeLabel e.versionLabels id.label
                  else e.versionLabels } :: post)) := by
  induction pre with
  | nil =>
    simp only [List.nil_append, removeModelLabelConfigs, he, if_true,
      removeModelLabelVersions_eq]
  | cons v rest ih =>
    have hv : v.name ≠ id.name := hpre v (List.mem_cons_self _ _)
    have hr := ih (fun x hx => hpre x (List.mem_cons_of_mem _ hx))
    by_cases h1 : e.versionLabels.isNil = true
    · simp [removeModelLabelConfigs, hv, hr, h1]
    · cases hl : versionByLabel e.versionLabels id.label with
      | none => simp [removeModelLabelConfigs, hv, hr, h1, hl]
      | some versionLabel =>
        by_cases h2 : isLabelStable e.versionLabels versionLabel = true
        · simp [removeModelLabelConfigs, hv, hr, h1, hl, h2]
        · simp [removeModelLabelConfigs, hv, hr, h1, hl, h2]

/-- C11, failing input: the entry `m` lists version 1 only and its label `canary` points
at version 2, the blob that an upload of version 2 leaves when the entry did not exist;
`stable` does not point at 2.  `RemoveModelLabel` of `canary` returns no error, and the
stored blob is the same as before: the label `canary` is still present. -/
theorem removeModelLabel_keeps_unlisted_label :
    (rowWithoutEntry.UploadModel servableM goodArchive []).2.servingConfig.Config "t" "p"
      = [entryUnlisted] ∧
    entryUnlisted.name = (modelM 0 "canary").name ∧
    entryUnlisted.versionLabels.find "canary" = some 2 ∧
    entryUnlisted.versionLabels.find StableLabel ≠ some 2 ∧
    ((configWith "canary" [entryUnlisted]).RemoveModelLabel (modelM 0 "canary")).1
      = .ok () ∧
    ((configWith "canary" [entryUnlisted]).RemoveModelLabel (modelM 0 "canary")).2.Config
      "t" "p" = [entryUnlisted] ∧
    (((configWith "canary" [entryUnlisted]).RemoveModelLabel (modelM 0 "canary")).2.Config
      "t" "p").map (fun e => e.versionLabels.find "canary") = [some 2] := by
  decide

/-- The case in which `RemoveModelLabel` does drop the label.  Let `e` be the first
entry of the stored blob named `id.name`, in which `id.label` is present and points at a
version `w` other than 0.  If `stable` also points at `w`, `RemoveModelLabel` refuses and
changes nothing.  Otherwise, if `w` is one of the versions of `e`, it succeeds and the
stored blob has, in place of `e`, the entry with the same versions and the old label map
minus `id.label`, all other entries as before. -/
theorem removeModelLabel_drops_label (sc : ServableConfig) (id : ModelID) (w : Int)
    (pre : List ModelConfig) (e : ModelConfig) (post : List ModelConfig)
    (hblob : sc.Config id.team id.project = pre ++ e :: post)
    (hpre : ∀ x ∈ pre, x.name ≠ id.name) (he : e.name = id.name)
    (hlabel : e.versionLabels.find id.label = some w) (hw : w ≠ 0) :
    (e.versionLabels.find StableLabel = some w →
      (sc.RemoveModelLabel id).1 = .error .errRemovingModelHasStableLabel ∧
      (sc.RemoveModelLabel id).2 = sc) ∧
    (e.versionLabels.find StableLabel ≠ some w → w ∈ e.versions →
      (sc.RemoveModelLabel id).1 = .ok () ∧
      ∃ e1 : ModelConfig,
        (sc.RemoveModelLabel id).2.Config id.team id.project = pre ++ e1 :: post ∧
        e1.name = e.name ∧ e1.basePath = e.basePath ∧
        e1.modelPlatform = e.modelPlatform ∧ e1.versions = e.versions ∧
        e1.versionLabels.find id.label = none ∧
        ∀ l, e1.versionLabels.find l =
          if l = id.label then none else e.versionLabels.find l) := by
  have hnil : ¬ e.versionLabels.isNil = true := by
    intro hn
    unfold LabelMap.isNil at hn
    rw [List.isEmpty_iff] at hn
    unfold LabelMap.find at hlabel
    rw [hn] at hlabel
    cases hlabel
  have hloop := removeModelLabelConfigs_first id pre e post hpre he
  rw [if_neg hnil] at hloop
  unfold versionByLabel at hloop
  rw [hlabel] at hloop
  dsimp only at hloop
  unfold ServableConfig.RemoveModelLabel
  rw [hblob, hloop]
  constructor
  · intro hs
    rw [if_pos ((isLabelStable_iff _ _ hw).mpr hs)]
    exact ⟨rfl, rfl⟩
  · intro hs hmem
    rw [if_neg (fun h => hs ((isLabelStable_iff _ _ hw).mp h)), if_pos hmem]
    refine ⟨rfl, _, Config_saveModel _ _ _ _, rfl, rfl, rfl, rfl, ?_, ?_⟩
    · rw [find_removeLabel]
      simp
    · intro l
      exact find_removeLabel _ _ _

theorem removeModelLabel_drops_label_witness :
    ((configWith "canary" [entryOther, entryM]).RemoveModelLabel (modelM 0 "canary")).1
      = .ok () ∧
    ((configWith "canary" [entryOther, entryM]).RemoveModelLabel (modelM 0 "stable")).1
      = .error .errRemovingModelHasStableLabel :=
  ⟨((removeModelLabel_drops_label (configWith "canary" [entryOther, entryM])
      (modelM 0 "canary") 2 [entryOther] entryM [] (by decide) (by decide) (by decide)
      (by decide) (by decide)).2 (by decide) (by decide)).1,
   ((removeModelLabel_drops_label (configWith "canary" [entryOther, entryM])
      (modelM 0 "stable") 1 [entryOther] entryM [] (by decide) (by decide) (by decide)
      (by decide) (by decide)).1 (by decide)).1⟩

/-! ## The reloader: the two-phase push -/

theorem reloadTFSInstancesLoop_events (fleet : ServingFleet) (config : ModelServerConfig) :
    ∀ (instances validInstances reloaderErrors : List String) (events : List ReloadEvent),
      (reloadTFSInstancesLoop fleet config instances validInstances reloaderErrors
        events).events = events ++ instances.map (ReloadEvent.push config) := by
  intro instances
  induction instances with
  | nil => intro v e ev; simp [reloadTFSInstancesLoop]
  | cons inst rest ih =>
    intro v e ev
    unfold reloadTFSInstancesLoop
    cases fleet ev config inst with
    | none => simp [ih]
    | some err => simp [ih]

theorem reloadTFSInstances_events (fleet : ServingFleet) (config : ModelServerConfig)
    (instances : List String) (events : List ReloadEvent) :
    (reloadTFSInstances fleet config instances events).events =
      events ++ instances.map (ReloadEvent.push config) :=
  reloadTFSInstancesLoop_events fleet config instances [] [] events

theorem reloadTFSInstancesLoop_valid (fleet : ServingFleet) (config : ModelServerConfig) :
    ∀ (instances validInstances reloaderErrors : List String) (events : List ReloadEvent)
      (endpoint : String),
      endpoint ∈ (reloadTFSInstancesLoop fleet config instances validInstances
        reloaderErrors events).validInstances →
      endpoint ∈ validInstances ∨
      ∃ k, instances[k]? = some endpoint ∧
        fleet (events ++ (instances.take k).map (ReloadEvent.push config)) config endpoint
          = none := by
  intro instances
  induction instances with
  | nil =>
    intro v e ev endpoint h
    simp only [reloadTFSInstancesLoop] at h
    exact Or.inl h
  | cons inst rest ih =>
    intro v e ev endpoint h
    unfold reloadTFSInstancesLoop at h
    cases hf : fleet ev config inst with
    | some err =>
      rw [hf] at h
      rcases ih _ _ _ _ h with h1 | ⟨k, hk, hnone⟩
      · exact Or.inl h1
      · refine Or.inr ⟨k + 1, by simpa using hk, ?_⟩
        simpa [List.append_assoc] using hnone
    | none =>
      rw [hf] at h
      rcases ih _ _ _ _ h with h1 | ⟨k, hk, hnone⟩
      · rcases List.mem_append.mp h1 with h2 | h2
        · exact Or.inl h2
        · rw [List.mem_singleton] at h2
          refine Or.inr ⟨0, by simp [h2], ?_⟩
          simpa [h2] using hf
      · refine Or.inr ⟨k + 1, by simpa using hk, ?_⟩
        simpa [List.append_assoc] using hnone

theorem reloadTFSInstances_valid (fleet : ServingFleet) (config : ModelServerConfig)
    (instances : List String) (events : List ReloadEvent) (endpoint : String)
    (h : endpoint ∈ (reloadTFSInstances fleet config instances events).validInstances) :
    ∃ k, instances[k]? = some endpoint ∧
      fleet (events ++ (instances.take k).map (ReloadEvent.push config)) config endpoint
        = none := by
  rcases reloadTFSInstancesLoop_valid fleet config instances [] [] events endpoint h with
    h1 | h1
  · cases h1
  · exact h1

theorem reloadAgain_events (fleet : ServingFleet) (config : ModelServerConfig)
    (instances : List String) :
    ∀ (remaining attemptReload : Nat) (reloadedErrors : List String)
      (events : List ReloadEvent),
      ∃ suffix : List ReloadEvent,
        (reloadAgain fleet config instances remaining attemptReload reloadedErrors
          events).2 = events ++ suffix ∧
        ∀ ev ∈ suffix, (∃ ms, ev = ReloadEvent.sleep ms) ∨
          ∃ endpoint ∈ instances, ev = ReloadEvent.push config endpoint := by
  intro remaining
  induction remaining with
  | zero =>
    intro a e ev
    exact ⟨[], by simp [reloadAgain], by simp⟩
  | succ n ih =>
    intro a e ev
    unfold reloadAgain
    by_cases hc : e ≠ [] ∧ a ≤ maxReloadAttempts
    · rw [if_pos hc]
      dsimp only
      obtain ⟨suffix, hs, hall⟩ := ih (a + 1)
        (reloadTFSInstances fleet config instances
          (ev ++ [.sleep (timeToWaitForNextReload * a)])).reloaderErrors
        (reloadTFSInstances fleet config instances
          (ev ++ [.sleep (timeToWaitForNextReload * a)])).events
      refine ⟨[.sleep (timeToWaitForNextReload * a)] ++
        instances.map (ReloadEvent.push config) ++ suffix, ?_, ?_⟩
      · rw [hs, reloadTFSInstances_events]
        simp [List.append_assoc]
      · intro x hx
        rcases List.mem_append.mp hx with hx1 | hx1
        · rcases List.mem_append.mp hx1 with hx2 | hx2
          · rw [List.mem_singleton] at hx2
            exact Or.inl ⟨_, hx2⟩
          · obtain ⟨endpoint, hmem, heq⟩ := List.mem_map.mp hx2
            exact Or.inr ⟨endpoint, hmem, heq.symm⟩
        · exact hall x hx1
    · rw [if_neg hc]
      exact ⟨[], by simp, by simp⟩

/-- C12: in `reloadConfig` with `labelsOnly = false` and a non-empty endpoint list, the
events start with one push of the labels-stripped blob (every entry with an empty label
map, its name, base path, platform and versions intact) to every given endpoint, in
order; every later push carries the full blob and goes to an endpoint of the list whose
labels-stripped push was acknowledged. -/
theorem reloadConfig_two_phase (r : ModelsReloader) (fleet : ServingFleet)
    (id : ServableID) (instances : List String) (hne : instances ≠ []) :
    r.servableConfigurer.ConfigWithoutLabels id.team id.project =
      (r.servableConfigurer.Config id.team id.project).map (fun e =>
        { name := e.name, basePath := e.basePath, modelPlatform := e.modelPlatform,
          versions := e.versions, versionLabels := LabelMap.empty }) ∧
    ∃ rest : List ReloadEvent,
      (r.reloadConfig fleet id false instances).2 =
        instances.map
          (ReloadEvent.push (r.servableConfigurer.ConfigWithoutLabels id.team id.project))
          ++ rest ∧
      ∀ config endpoint, ReloadEvent.push config endpoint ∈ rest →
        config = r.servableConfigurer.Config id.team id.project ∧
        ∃ k, instances[k]? = some endpoint ∧
          fleet ((instances.take k).map
              (ReloadEvent.push
                (r.servableConfigurer.ConfigWithoutLabels id.team id.project)))
            (r.servableConfigurer.ConfigWithoutLabels id.team id.project) endpoint
            = none := by
  refine ⟨rfl, ?_⟩
  have hlen : ¬ instances.length = 0 := by
    intro h
    exact hne (List.length_eq_zero.mp h)
  obtain ⟨suffix, hs, hall⟩ := reloadAgain_events fleet
    (r.servableConfigurer.Config id.team id.project)
    (reloadTFSInstances fleet (r.servableConfigurer.ConfigWithoutLabels id.team id.project)
      instances []).validInstances maxReloadAttempts 1
    (reloadTFSInstances fleet (r.servableConfigurer.Config id.team id.project)
      (reloadTFSInstances fleet
        (r.servableConfigurer.ConfigWithoutLabels id.team id.project)
        instances []).validInstances
      (reloadTFSInstances fleet
        (r.servableConfigurer.ConfigWithoutLabels id.team id.project)
        instances []).events).reloaderErrors
    (reloadTFSInstances fleet (r.servableConfigurer.Config id.team id.project)
      (reloadTFSInstances fleet
        (r.servableConfigurer.ConfigWithoutLabels id.team id.project)
        instances []).validInstances
      (reloadTFSInstances fleet
        (r.servableConfigurer.ConfigWithoutLabels id.team id.project)
        instances []).events).events
  refine ⟨(reloadTFSInstances fleet
      (r.servableConfigurer.ConfigWithoutLabels id.team id.project)
      instances []).validInstances.map
        (ReloadEvent.push (r.servableConfigurer.Config id.team id.project)) ++ suffix,
    ?_, ?_⟩
  · have hev : (r.reloadConfig fleet id false instances).2 =
        (reloadAgain fleet (r.servableConfigurer.Config id.team id.project)
          (reloadTFSInstances fleet
            (r.servableConfigurer.ConfigWithoutLabels id.team id.project)
            instances []).validInstances maxReloadAttempts 1
          (reloadTFSInstances fleet (r.servableConfigurer.Config id.team id.project)
            (reloadTFSInstances fleet
              (r.servableConfigurer.ConfigWithoutLabels id.team id.project)
              instances []).validInstances
            (reloadTFSInstances fleet
              (r.servableConfigurer.ConfigWithoutLabels id.team id.project)
              instances []).events).reloaderErrors
          (reloadTFSInstances fleet (r.servableConfigurer.Config id.team id.project)
            (reloadTFSInstances fleet
              (r.servableConfigurer.ConfigWithoutLabels id.team id.project)
              instances []).validInstances
            (reloadTFSInstances fleet
              (r.servableConfigurer.ConfigWithoutLabels id.team id.project)
              instances []).events).events).2 := by
      unfold ModelsReloader.reloadConfig
      simp only [hlen, if_false, Bool.not_false, if_true]
      split <;> rfl
    rw [hev, hs, reloadTFSInstances_events, reloadTFSInstances_events]
    simp [List.append_assoc]
  · intro config endpoint hmem
    have hvalid : config = r.servableConfigurer.Config id.team id.project ∧
        endpoint ∈ (reloadTFSInstances fleet
          (r.servableConfigurer.ConfigWithoutLabels id.team id.project)
          instances []).validInstances := by
      rcases List.mem_append.mp hmem with h1 | h1
      · obtain ⟨x, hx, heq⟩ := List.mem_map.mp h1
        injection heq with h2 h3
        exact ⟨h2.symm, h3 ▸ hx⟩
      · rcases hall _ h1 with ⟨ms, h2⟩ | ⟨x, hx, h2⟩
        · cases h2
        · injection h2 with h3 h4
          exact ⟨h3, h4 ▸ hx⟩
    refine ⟨hvalid.1, ?_⟩
    obtain ⟨k, hk, hnone⟩ := reloadTFSInstances_valid fleet _ instances [] endpoint hvalid.2
    exact ⟨k, hk, by simpa using hnone⟩

theorem reloadConfig_two_phase_witness :
    (sampleReloader.reloadConfig secondDown servableTP false
        ["10.0.0.1:8500", "10.0.0.2:8500"]).2 =
      [.push [{ entryM with versionLabels := LabelMap.empty }] "10.0.0.1:8500",
       .push [{ entryM with versionLabels := LabelMap.empty }] "10.0.0.2:8500",
       .push [entryM] "10.0.0.1:8500"] ∧
    sampleReloader.servableConfigurer.ConfigWithoutLabels "t" "p" =
      [{ entryM with versionLabels := LabelMap.empty }] :=
  ⟨by decide,
   (reloadConfig_two_phase sampleReloader secondDown servableTP
      ["10.0.0.1:8500", "10.0.0.2:8500"] (by decide)).1⟩

/-! ## The reloader: the retry rounds -/

theorem reloadAgain_unroll (fleet : ServingFleet) (config : ModelServerConfig)
    (instances : List String) (reloadedErrors : List String) (events : List ReloadEvent) :
    reloadAgain fleet config instances maxReloadAttempts 1 reloadedErrors events =
      if reloadedErrors = [] then (reloadedErrors, events)
      else if (reloadTFSInstances fleet config instances
          (events ++ [.sleep 150])).reloaderErrors = [] then
        ((reloadTFSInstances fleet config instances
            (events ++ [.sleep 150])).reloaderErrors,
          (reloadTFSInstances fleet config instances (events ++ [.sleep 150])).events)
      else
        ((reloadTFSInstances fleet config instances
            ((reloadTFSInstances fleet config instances
              (events ++ [.sleep 150])).events ++ [.sleep 300])).reloaderErrors,
          (reloadTFSInstances fleet config instances
            ((reloadTFSInstances fleet config instances
              (events ++ [.sleep 150])).events ++ [.sleep 300])).events) := by
  by_cases h1 : reloadedErrors = []
  · simp [reloadAgain, maxReloadAttempts, h1]
  · by_cases h2 : (reloadTFSInstances fleet config instances
        (events ++ [.sleep 150])).reloaderErrors = []
    · simp [reloadAgain, maxReloadAttempts, timeToWaitForNextReload, h1, h2]
    · simp [reloadAgain, maxReloadAttempts, timeToWaitForNextReload, h1, h2]

/-- C13: let `p1` be the labels-stripped phase (no push when `labelsOnly`), `r1` the
first round of full-blob pushes to the endpoints that `p1` kept, `r2` the round that
follows a wait of 150 ms and `r3` the round that follows a wait of 300 ms.  The last
round of `reloadConfig` is `r1` when `r1` has no failure, else `r2` when `r2` has none,
else `r3`: there are between one and three rounds.  The events are those of the last
round, each round adding its wait and one push per kept endpoint.  The call returns no
error exactly when `p1` and the last round have no failure, and otherwise returns the
error strings of `p1` followed by those of the last round. -/
theorem reloadConfig_rounds (r : ModelsReloader) (fleet : ServingFleet) (id : ServableID)
    (labelsOnly : Bool) (instances endpoints : List String) (p1 r1 r2 r3 last : PushResult)
    (hdisc : (if instances.length = 0 then r.serviceDiscovery id else .ok instances)
      = .ok endpoints)
    (hp1 : p1 = if labelsOnly = true then
        { validInstances := endpoints, reloaderErrors := [], events := [] }
      else reloadTFSInstances fleet
        (r.servableConfigurer.ConfigWithoutLabels id.team id.project) endpoints [])
    (hr1 : r1 = reloadTFSInstances fleet (r.servableConfigurer.Config id.team id.project)
      p1.validInstances p1.events)
    (hr2 : r2 = reloadTFSInstances fleet (r.servableConfigurer.Config id.team id.project)
      p1.validInstances (r1.events ++ [.sleep 150]))
    (hr3 : r3 = reloadTFSInstances fleet (r.servableConfigurer.Config id.team id.project)
      p1.validInstances (r2.events ++ [.sleep 300]))
    (hlast : last = if r1.reloaderErrors = [] then r1
      else if r2.reloaderErrors = [] then r2 else r3) :
    r.reloadConfig fleet id labelsOnly instances =
      (if p1.reloaderErrors ++ last.reloaderErrors = [] then .success
        else .failed (p1.reloaderErrors ++ last.reloaderErrors), last.events) ∧
    ((r.reloadConfig fleet id labelsOnly instances).1 = .success ↔
      p1.reloaderErrors = [] ∧ last.reloaderErrors = []) ∧
    r1.events = p1.events ++
      p1.validInstances.map
        (ReloadEvent.push (r.servableConfigurer.Config id.team id.project)) ∧
    r2.events = r1.events ++ [.sleep 150] ++
      p1.validInstances.map
        (ReloadEvent.push (r.servableConfigurer.Config id.team id.project)) ∧
    r3.events = r2.events ++ [.sleep 300] ++
      p1.validInstances.map
        (ReloadEvent.push (r.servableConfigurer.Config id.team id.project)) := by
  have hmain : r.reloadConfig fleet id labelsOnly instances =
      (if p1.reloaderErrors ++ last.reloaderErrors = [] then .success
        else .failed (p1.reloaderErrors ++ last.reloaderErrors), last.events) := by
    have hp1' : (if (!labelsOnly) = true then
          reloadTFSInstances fleet
            (r.servableConfigurer.ConfigWithoutLabels id.team id.project) endpoints []
        else { validInstances := endpoints, reloaderErrors := [], events := [] }) = p1 := by
      rw [hp1]
      cases labelsOnly <;> simp
    unfold ModelsReloader.reloadConfig
    simp only [hdisc, hp1', ← hr1, reloadAgain_unroll, ← hr2, ← hr3]
    rw [hlast]
    by_cases h1 : r1.reloaderErrors = []
    · simp only [h1, if_true, List.length_eq_zero]
      split <;> simp_all
    · by_cases h2 : r2.reloaderErrors = []
      · simp only [h1, h2, if_true, if_false, List.length_eq_zero]
        split <;> simp_all
      · simp only [h1, h2, if_false, List.length_eq_zero]
        split <;> simp_all
  refine ⟨hmain, ?_, ?_, ?_, ?_⟩
  · rw [hmain]
    by_cases h : p1.reloaderErrors ++ last.reloaderErrors = []
    · simp only [h, if_true, true_iff]
      exact List.append_eq_nil.mp h
    · simp only [h, if_false]
      constructor
      · intro hc
        cases hc
      · intro hc
        exact absurd (List.append_eq_nil.mpr hc) h
  · rw [hr1, reloadTFSInstances_events]
  · rw [hr2, reloadTFSInstances_events]
  · rw [hr3, reloadTFSInstances_events]

theorem reloadConfig_rounds_witness :
    sampleReloader.reloadConfig slowFleet servableTP true [] =
      (.success,
        [.push [entryM] "10.0.0.1:8500", .push [entryM] "10.0.0.2:8500", .sleep 150,
         .push [entryM] "10.0.0.1:8500", .push [entryM] "10.0.0.2:8500", .sleep 300,
         .push [entryM] "10.0.0.1:8500", .push [entryM] "10.0.0.2:8500"]) ∧
    (sampleReloader.reloadConfig secondDown servableTP false []).1 =
      .failed ["unavailable"] :=
  ⟨(reloadConfig_rounds sampleReloader slowFleet servableTP true []
      ["10.0.0.1:8500", "10.0.0.2:8500"] _ _ _ _ _ (by decide) rfl rfl rfl rfl rfl).1.trans
      (by decide),
   by decide⟩

/-- C14, failing input: the storage holds no blob for (`t`, `p`), and `reloadConfig` with
one endpoint pushes the empty blob to it twice (labels-stripped, then full) before it
returns success. -/
theorem reloadConfig_pushes_without_blob :
    blobless.servableConfigurer.storage "t" "p" = none ∧
    blobless.reloadConfig healthyFleet servableTP false ["10.0.0.1:8500"] =
      (.success, [.push [] "10.0.0.1:8500", .push [] "10.0.0.1:8500"]) ∧
    (blobless.reloadConfig healthyFleet servableTP false ["10.0.0.1:8500"]).2 ≠ [] := by
  decide

/-! ## The reloader: the first pass -/

theorem InstanceMap.findIn_setIn_instance (k k1 : String) (v : ServableInstances)
    (l : List (String × ServableInstances)) :
    InstanceMap.findIn k1 (InstanceMap.setIn k v l) =
      if k1 = k then some v else InstanceMap.findIn k1 l := by
  induction l with
  | nil =>
    by_cases h : k1 = k
    · simp [InstanceMap.setIn, InstanceMap.findIn, h]
    · have h2 : ¬ k = k1 := fun e => h e.symm
      simp [InstanceMap.setIn, InstanceMap.findIn, h, h2]
  | cons p rest ih =>
    by_cases h : p.1 = k
    · by_cases h1 : k1 = k
      · simp [InstanceMap.setIn, InstanceMap.findIn, h, h1]
      · have h2 : ¬ k = k1 := fun e => h1 e.symm
        simp [InstanceMap.setIn, InstanceMap.findIn, h, h1, h2]
    · by_cases h1 : k1 = k
      · subst h1
        simp [InstanceMap.setIn, InstanceMap.findIn, h, ih]
      · simp [InstanceMap.setIn, InstanceMap.findIn, h, h1, ih]

theorem InstanceMap.find_set_instance (m : InstanceMap) (k k1 : String) (v : ServableInstances) :
    (m.set k v).find k1 = if k1 = k then some v else m.find k1 :=
  InstanceMap.findIn_setIn_instance k k1 v m.entries

theorem discoverServable_map (r : ModelsReloader) (invalid : String → Int → String → Bool)
    (acc : InstanceMap × List ServableInstances) (v : ServableID) :
    (discoverServable r invalid acc v).1 =
      acc.1.set v.InstanceName
        { toServableID := v, instances := r.currentInstancesOf v } := by
  unfold discoverServable
  dsimp only
  split
  · rfl
  · split
    · rfl
    · split <;> rfl

theorem foldl_discoverServable_find (r : ModelsReloader)
    (invalid : String → Int → String → Bool) (k : String) :
    ∀ (models : List ServableID) (acc : InstanceMap × List ServableInstances),
      (models.foldl (discoverServable r invalid) acc).1.find k =
        match models.reverse.find? (fun w => decide (w.InstanceName = k)) with
        | some w => some { toServableID := w, instances := r.currentInstancesOf w }
        | none => acc.1.find k := by
  intro models
  induction models with
  | nil => intro acc; rfl
  | cons v rest ih =>
    intro acc
    rw [List.foldl_cons, ih, List.reverse_cons, List.find?_append]
    cases hf : rest.reverse.find? (fun w => decide (w.InstanceName = k)) with
    | some w => rfl
    | none =>
      rw [discoverServable_map, InstanceMap.find_set_instance]
      by_cases hk : v.InstanceName = k
      · simp [hk]
      · have hk2 : ¬ k = v.InstanceName := fun e => hk e.symm
        simp [hk, hk2]

/-- C15: when the snapshot is empty, `instancesOfServablesToReload` returns an empty
reload list, whatever the discovery and the status oracle answer.  The new snapshot
has, under the instance name of every listed servable, a listed servable of that
instance name with its freshly discovered endpoints, and no other key; when the listed
servables have distinct instance names, every one of them is recorded with its own
endpoints. -/
theorem first_pass_only_discovers (r : ModelsReloader)
    (invalid : String → Int → String → Bool) (models : List ServableID)
    (hempty : r.lastStateInstancesOfModel.entries = []) :
    (r.instancesOfServablesToReload invalid models).1 = [] ∧
    (∀ v ∈ models, ∃ w ∈ models, w.InstanceName = v.InstanceName ∧
      (r.instancesOfServablesToReload invalid models).2.lastStateInstancesOfModel.find
          v.InstanceName =
        some { toServableID := w, instances := r.currentInstancesOf w }) ∧
    (∀ k s,
      (r.instancesOfServablesToReload invalid models).2.lastStateInstancesOfModel.find k
        = some s →
      ∃ v ∈ models, v.InstanceName = k) ∧
    ((∀ a ∈ models, ∀ b ∈ models, a.InstanceName = b.InstanceName → a = b) →
      ∀ v ∈ models,
        (r.instancesOfServablesToReload invalid models).2.lastStateInstancesOfModel.find
            v.InstanceName =
          some { toServableID := v, instances := r.currentInstancesOf v }) := by
  have hlen : r.lastStateInstancesOfModel.entries.length = 0 := by rw [hempty]; rfl
  have hres : r.instancesOfServablesToReload invalid models =
      ([], { r with lastStateInstancesOfModel :=
        (models.foldl (discoverServable r invalid) (InstanceMap.empty, [])).1 }) := by
    unfold ModelsReloader.instancesOfServablesToReload
    simp only [hlen, if_true]
  have hfind : ∀ k,
      (r.instancesOfServablesToReload invalid models).2.lastStateInstancesOfModel.find k =
        match models.reverse.find? (fun w => decide (w.InstanceName = k)) with
        | some w => some { toServableID := w, instances := r.currentInstancesOf w }
        | none => none := by
    intro k
    rw [hres]
    exact foldl_discoverServable_find r invalid k models (InstanceMap.empty, [])
  have hlisted : ∀ v ∈ models, ∃ w ∈ models, w.InstanceName = v.InstanceName ∧
      (r.instancesOfServablesToReload invalid models).2.lastStateInstancesOfModel.find
          v.InstanceName =
        some { toServableID := w, instances := r.currentInstancesOf w } := by
    intro v hv
    rw [hfind]
    cases hf : models.reverse.find? (fun w => decide (w.InstanceName = v.InstanceName)) with
    | none =>
      rw [List.find?_eq_none] at hf
      have := hf v (List.mem_reverse.mpr hv)
      simp at this
    | some w =>
      have hw := List.mem_reverse.mp (List.mem_of_find?_eq_some hf)
      have hn := List.find?_some hf
      exact ⟨w, hw, by simpa using hn, rfl⟩
  refine ⟨by rw [hres], hlisted, ?_, ?_⟩
  · intro k s hs
    rw [hfind] at hs
    cases hf : models.reverse.find? (fun w => decide (w.InstanceName = k)) with
    | none => rw [hf] at hs; cases hs
    | some w =>
      have hw := List.mem_reverse.mp (List.mem_of_find?_eq_some hf)
      have hn := List.find?_some hf
      exact ⟨w, hw, by simpa using hn⟩
  · intro hinj v hv
    obtain ⟨w, hw, hname, hsnap⟩ := hlisted v hv
    rw [hsnap, hinj w hw v hv hname]

theorem first_pass_only_discovers_witness :
    (sampleReloader.instancesOfServablesToReload allInvalid [servableTP]).1 = [] ∧
    (sampleReloader.instancesOfServablesToReload allInvalid
        [servableTP]).2.lastStateInstancesOfModel.find "tfs-t-p" =
      some { toServableID := servableTP,
             instances := ["10.0.0.1:8500", "10.0.0.2:8500"] } :=
  ⟨(first_pass_only_discovers sampleReloader allInvalid [servableTP] (by decide)).1,
   by decide⟩

/-! ## The lock: the key -/

/-- C29: with an injective digest, for servables `a` and `b` of valid key length, on a
table in which the key of `b` is not held and `Lock(a)` succeeds: `Lock(b)` after it
fails, with `errKeyIsLocked`, if and only if `team + project + name` of `a` and of `b`
are the same string, and succeeds if and only if they differ. -/
theorem lock_excludes_iff_same_concatenation {δ : Type} [DecidableEq δ] (sum : String → δ)
    (l : TFDeploy.Lock δ) (a b : ServableID) (hinj : Function.Injective sum)
    (ha : 0 < (Lock.key a).utf8ByteSize ∧ (Lock.key a).utf8ByteSize ≤ 96)
    (hb : 0 < (Lock.key b).utf8ByteSize ∧ (Lock.key b).utf8ByteSize ≤ 96)
    (hfree : sum (Lock.key b) ∉ l.state) (hheld : (l.Lock sum a).1 = none) :
    (((l.Lock sum a).2.Lock sum b).1 = some .errKeyIsLocked ↔
      a.team ++ a.project ++ a.name = b.team ++ b.project ++ b.name) ∧
    (((l.Lock sum a).2.Lock sum b).1 = none ↔
      a.team ++ a.project ++ a.name ≠ b.team ++ b.project ++ b.name) := by
  have hlen : ∀ (s : ServableID),
      (0 < (Lock.key s).utf8ByteSize ∧ (Lock.key s).utf8ByteSize ≤ 96) →
      ∀ t : TFDeploy.Lock δ, t.Lock sum s = t.lock sum (Lock.key s) := by
    intro s hs t
    have h' : ¬ ((Lock.key s).utf8ByteSize = 0 ∨
        (Lock.key s).utf8ByteSize > maxKeyLength) := by
      unfold maxKeyLength
      omega
    unfold Lock.Lock
    rw [if_neg h']
  rw [hlen a ha l] at hheld ⊢
  rw [hlen b hb]
  unfold Lock.lock at hheld ⊢
  by_cases hm : sum (Lock.key a) ∈ l.state
  · rw [if_pos hm] at hheld
    cases hheld
  · rw [if_neg hm]
    have hkey : (sum (Lock.key b) ∈ l.state ++ [sum (Lock.key a)]) ↔
        Lock.key a = Lock.key b := by
      rw [List.mem_append, List.mem_singleton]
      constructor
      · intro h
        rcases h with h | h
        · exact absurd h hfree
        · exact (hinj h).symm
      · intro h
        exact Or.inr (by rw [h])
    have hk : Lock.key a = a.team ++ a.project ++ a.name := rfl
    have hk2 : Lock.key b = b.team ++ b.project ++ b.name := rfl
    rw [← hk, ← hk2]
    by_cases he : Lock.key a = Lock.key b
    · rw [if_pos (hkey.mpr he)]
      simp [he]
    · rw [if_neg (fun h => he (hkey.mp h))]
      simp [he]

theorem lock_excludes_iff_same_concatenation_witness :
    ({ team := "ab", project := "c", name := "d" } : ServableID) ≠
      { team := "a", project := "bc", name := "d" } ∧
    ((({ state := [] } : TFDeploy.Lock String).Lock id
        { team := "ab", project := "c", name := "d" }).2.Lock id
      { team := "a", project := "bc", name := "d" }).1 = some .errKeyIsLocked :=
  ⟨by decide,
   (lock_excludes_iff_same_concatenation id ({ state := [] } : TFDeploy.Lock String)
      { team := "ab", project := "c", name := "d" }
      { team := "a", project := "bc", name := "d" }
      (fun _ _ h => h) (by decide) (by decide) (by decide) (by decide)).1.mpr (by decide)⟩

/-! ## The reloader: labels-only reloads -/

/-- C28, counterexample: with `allowLabelsForUnavailableModels` off, `ReloadConfig`
called with `skipConfigWithoutLabels = true` first pushes the labels-stripped blob, which
differs from the full blob. -/
theorem reloadConfig_skip_pushes_stripped_blob :
    strictReloader.allowLabelsForUnavailableModels = false ∧
    (strictReloader.ReloadConfig healthyFleet "t" "p" true).2.head? =
      some (.push (strictReloader.servableConfigurer.ConfigWithoutLabels "t" "p")
        "10.0.0.1:8500") ∧
    strictReloader.servableConfigurer.ConfigWithoutLabels "t" "p" ≠
      strictReloader.servableConfigurer.Config "t" "p" := by
  decide

theorem removeModel_events (s : ModelsService) (r : ModelsReloader) (fleet : ServingFleet)
    (id : ServableID) (params : QueryParameters) :
    (s.removeModel r fleet id params).2.2 = [] ∨
    (s.removeModel r fleet id params).2.2 =
      (({ r with servableConfigurer :=
          (s.removeModel r fleet id params).2.1.servingConfig }).ReloadConfig fleet
        id.team id.project true).2 := by
  unfold ModelsService.removeModel
  cases hl : s.metadata.List params with
  | error e => exact Or.inl rfl
  | ok found =>
    cases found with
    | none => exact Or.inl rfl
    | some modelsMetas =>
      dsimp only
      cases hr : s.servingConfig.RemoveModel
          { toServableID := id, version := removedVersion modelsMetas, label := "" } with
      | mk res sc =>
        cases res with
        | error e => exact Or.inl rfl
        | ok u =>
          dsimp only
          cases hrel : ({ r with servableConfigurer := sc }).ReloadConfig fleet id.team
              id.project true with
          | mk outcome events =>
            cases outcome with
            | success =>
              dsimp only
              cases hd : deleteListed modelsMetas s.metadata with
              | mk dres md =>
                cases dres with
                | error e => dsimp only; rw [hrel]; exact Or.inr rfl
                | ok u2 => dsimp only; rw [hrel]; exact Or.inr rfl
            | discoveryFailed err => dsimp only; rw [hrel]; exact Or.inr rfl
            | failed errs => dsimp only; rw [hrel]; exact Or.inr rfl

/-- C28, amended: the reload of `removeModel` (the body of `RemoveByVersion` and
`RemoveByLabel`) is `ReloadConfig` with `skipConfigWithoutLabels = true` on the blob the
removal stored.  When `allowLabelsForUnavailableModels` is on, every push of
`ReloadConfig(team, project, true)` carries the full blob; when it is off, the call does
what `ReloadConfig(team, project, false)` does. -/
theorem reloadConfig_labels_only (r : ModelsReloader) (fleet : ServingFleet)
    (team project : String) (s : ModelsService) (id : ServableID)
    (params : QueryParameters) :
    (r.allowLabelsForUnavailableModels = true →
      ∀ config endpoint,
        ReloadEvent.push config endpoint ∈ (r.ReloadConfig fleet team project true).2 →
        config = r.servableConfigurer.Config team project) ∧
    (r.allowLabelsForUnavailableModels = false →
      r.ReloadConfig fleet team project true = r.ReloadConfig fleet team project false) ∧
    ((s.removeModel r fleet id params).2.2 = [] ∨
      (s.removeModel r fleet id params).2.2 =
        (({ r with servableConfigurer :=
            (s.removeModel r fleet id params).2.1.servingConfig }).ReloadConfig fleet
          id.team id.project true).2) := by
  refine ⟨?_, ?_, removeModel_events s r fleet id params⟩
  · intro hallow config endpoint hmem
    unfold ModelsReloader.ReloadConfig ModelsReloader.reloadConfig at hmem
    rw [hallow] at hmem
    simp only [Bool.and_self, List.length_nil, if_true] at hmem
    cases hd : r.serviceDiscovery { team := team, project := project, name := "" } with
    | error err =>
      rw [hd] at hmem
      simp at hmem
    | ok found =>
      rw [hd] at hmem
      simp only [Bool.not_true, Bool.false_eq_true, if_false, List.nil_append] at hmem
      obtain ⟨suffix, hs, hall⟩ := reloadAgain_events fleet
        (r.servableConfigurer.Config team project) found maxReloadAttempts 1
        (reloadTFSInstances fleet (r.servableConfigurer.Config team project) found
          []).reloaderErrors
        (reloadTFSInstances fleet (r.servableConfigurer.Config team project) found
          []).events
      have hev : ReloadEvent.push config endpoint ∈
          (reloadAgain fleet (r.servableConfigurer.Config team project) found
            maxReloadAttempts 1
            (reloadTFSInstances fleet (r.servableConfigurer.Config team project) found
              []).reloaderErrors
            (reloadTFSInstances fleet (r.servableConfigurer.Config team project) found
              []).events).2 := by
        split at hmem <;> exact hmem
      rw [hs, reloadTFSInstances_events] at hev
      rcases List.mem_append.mp hev with h1 | h1
      · simp only [List.nil_append, List.mem_map] at h1
        obtain ⟨e, _, he⟩ := h1
        cases he
        rfl
      · rcases hall _ h1 with ⟨ms, hms⟩ | ⟨e, _, he⟩
        · cases hms
        · cases he
          rfl
  · intro hallow
    unfold ModelsReloader.ReloadConfig
    rw [hallow]
    rfl

theorem reloadConfig_labels_only_witness :
    (∀ config endpoint,
      ReloadEvent.push config endpoint ∈
        (sampleReloader.ReloadConfig healthyFleet "t" "p" true).2 →
      config = [entryM]) ∧
    (sampleReloader.ReloadConfig healthyFleet "t" "p" true).2 =
      [.push [entryM] "10.0.0.1:8500", .push [entryM] "10.0.0.2:8500"] :=
  ⟨(reloadConfig_labels_only sampleReloader healthyFleet "t" "p" emptyService servableM
      {}).1 (by decide),
   by decide⟩

/-! ## The reloader: later passes -/

/-- C27, failing input: the snapshot has (`a`, `p`) and (`b`, `p`), the endpoint of
(`a`, `p`) is unchanged and reported invalid, and (`b`, `p`) has a new endpoint.  The
returned list has the entry of (`b`, `p`) only: the invalid endpoint `10.0.0.1:8500` is
not in it.  When (`b`, `p`) has not changed, the same invalid endpoint is returned. -/
theorem invalid_endpoint_dropped_when_other_changed :
    invalidInstancesModel firstInvalid "m" 2 (driftReloader.currentInstancesOf servableAP)
      = ["10.0.0.1:8500"] ∧
    (driftReloader.instancesOfServablesToReload firstInvalid [servableAP, servableBP]).1 =
      [{ toServableID := servableBP, instances := ["10.0.0.4:8500"] }] ∧
    (steadyReloader.instancesOfServablesToReload firstInvalid [servableAP, servableBP]).1 =
      [{ toServableID := servableAP, instances := ["10.0.0.1:8500"] }] := by
  decide

/-- C26, counterexample: the snapshot of (`a`, `p`) lists `10.0.0.1:8500` twice and the
discovery finds `10.0.0.1:8500` and `10.0.0.2:8500`, so the two differ as sets, yet
(`a`, `p`) is not marked for reload. -/
theorem repeated_endpoint_hides_change :
    repeatedEndpoint.lastStateInstancesOfModel.find servableAP.InstanceName =
      some { toServableID := servableAP,
             instances := ["10.0.0.1:8500", "10.0.0.1:8500"] } ∧
    repeatedEndpoint.currentInstancesOf servableAP = ["10.0.0.1:8500", "10.0.0.2:8500"] ∧
    "10.0.0.2:8500" ∉ ["10.0.0.1:8500", "10.0.0.1:8500"] ∧
    (repeatedEndpoint.instancesOfServablesToReload noneInvalid [servableAP]).1 = [] := by
  decide

theorem InstanceMap.mem_setIn_instance (k : String) (v : ServableInstances)
    (kv : String × ServableInstances) (l : List (String × ServableInstances))
    (h : kv ∈ InstanceMap.setIn k v l) : kv = (k, v) ∨ kv ∈ l := by
  induction l with
  | nil =>
    simp only [InstanceMap.setIn, List.mem_singleton] at h
    exact Or.inl h
  | cons p rest ih =>
    unfold InstanceMap.setIn at h
    by_cases hp : p.1 = k
    · rw [if_pos hp] at h
      rcases List.mem_cons.mp h with h1 | h1
      · exact Or.inl h1
      · exact Or.inr (List.mem_cons_of_mem _ h1)
    · rw [if_neg hp] at h
      rcases List.mem_cons.mp h with h1 | h1
      · exact Or.inr (by rw [h1]; exact List.mem_cons_self _ _)
      · rcases ih h1 with h2 | h2
        · exact Or.inl h2
        · exact Or.inr (List.mem_cons_of_mem _ h2)

theorem InstanceMap.mem_of_findIn (k : String) (x : ServableInstances)
    (l : List (String × ServableInstances)) (h : InstanceMap.findIn k l = some x) :
    (k, x) ∈ l := by
  induction l with
  | nil => simp [InstanceMap.findIn] at h
  | cons p rest ih =>
    unfold InstanceMap.findIn at h
    by_cases hp : p.1 = k
    · rw [if_pos hp] at h
      cases h
      rw [← hp]
      exact List.mem_cons_self _ _
    · rw [if_neg hp] at h
      exact List.mem_cons_of_mem _ (ih h)

theorem InstanceMap.findIn_of_mem (k : String) (x : ServableInstances)
    (l : List (String × ServableInstances)) (hnd : (l.map Prod.fst).Nodup)
    (h : (k, x) ∈ l) : InstanceMap.findIn k l = some x := by
  induction l with
  | nil => cases h
  | cons p rest ih =>
    rw [List.map_cons, List.nodup_cons] at hnd
    unfold InstanceMap.findIn
    rcases List.mem_cons.mp h with h1 | h1
    · rw [← h1]
      simp
    · have hne : ¬ p.1 = k := by
        intro hp
        apply hnd.1
        rw [hp]
        exact List.mem_map.mpr ⟨(k, x), h1, rfl⟩
      rw [if_neg hne]
      exact ih hnd.2 h1

theorem foldl_discoverServable_keys (r : ModelsReloader)
    (invalid : String → Int → String → Bool) :
    ∀ (models : List ServableID) (acc : InstanceMap × List ServableInstances),
      (∀ kv ∈ acc.1.entries, kv.1 = kv.2.InstanceName) →
      ∀ kv ∈ (models.foldl (discoverServable r invalid) acc).1.entries,
        kv.1 = kv.2.InstanceName := by
  intro models
  induction models with
  | nil => intro acc h; exact h
  | cons v rest ih =>
    intro acc h
    rw [List.foldl_cons]
    apply ih
    rw [discoverServable_map]
    intro kv hkv
    rcases InstanceMap.mem_setIn_instance _ _ _ _ hkv with h1 | h1
    · rw [h1]
    · exact h kv h1

theorem equal_eq_false_iff (a b : List String) :
    equal a b = false ↔ a.length ≠ b.length ∨ ∃ x ∈ a, x ∉ b := by
  unfold equal
  by_cases hl : a.length = b.length
  · simp [hl]
  · simp [hl]

theorem differ_as_sets_iff (a b : List String) (ha : a.Nodup) (hb : b.Nodup) :
    (a.length ≠ b.length ∨ ∃ x ∈ a, x ∉ b) ↔ ¬ ∀ x, x ∈ a ↔ x ∈ b := by
  constructor
  · intro h hset
    rcases h with h | ⟨x, hx, hxb⟩
    · exact h ((List.perm_ext_iff_of_nodup ha hb).mpr hset).length_eq
    · exact hxb ((hset x).mp hx)
  · intro h
    by_contra hc
    rw [not_or] at hc
    have hlen : a.length = b.length := by
      by_contra hne
      exact hc.1 hne
    have hsub : a ⊆ b := by
      intro x hx
      by_contra hxb
      exact hc.2 ⟨x, hx, hxb⟩
    have hperm : a.Perm b :=
      (List.subperm_of_subset ha hsub).perm_of_length_le (by omega)
    exact h (fun x => hperm.mem_iff)

theorem instancesOfServablesToReload_changed (r : ModelsReloader)
    (invalid : String → Int → String → Bool) (models : List ServableID)
    (hsnap : r.lastStateInstancesOfModel.entries ≠ []) :
    ∃ changed : List ServableInstances,
      (r.instancesOfServablesToReload invalid models).1 =
        changed ++ invalidInstancesToReload changed
          (models.foldl (discoverServable r invalid) (InstanceMap.empty, [])).2 ∧
      ∀ e, e ∈ changed ↔
        ∃ kv ∈ (models.foldl (discoverServable r invalid)
            (InstanceMap.empty, [])).1.entries,
          kv.2 = e ∧ ∃ last, r.lastStateInstancesOfModel.find kv.1 = some last ∧
            equal last.instances kv.2.instances = false := by
  have hlen : ¬ r.lastStateInstancesOfModel.entries.length = 0 := by
    intro h
    exact hsnap (List.length_eq_zero.mp h)
  unfold ModelsReloader.instancesOfServablesToReload
  rw [if_neg hlen]
  refine ⟨_, rfl, ?_⟩
  intro e
  rw [List.mem_filterMap]
  constructor
  · rintro ⟨kv, hkv, hf⟩
    refine ⟨kv, hkv, ?_⟩
    cases hs : r.lastStateInstancesOfModel.find kv.1 with
    | none =>
      rw [hs] at hf
      cases hf
    | some l0 =>
      rw [hs] at hf
      dsimp only at hf
      by_cases heq : equal l0.instances kv.2.instances = true
      · rw [heq] at hf
        cases hf
      · rw [Bool.not_eq_true] at heq
        rw [heq] at hf
        simp only [Bool.not_false, if_true, Option.some.injEq] at hf
        exact ⟨hf, l0, rfl, heq⟩
  · rintro ⟨kv, hkv, hkv2, l0, hs, heq⟩
    refine ⟨kv, hkv, ?_⟩
    rw [hs]
    dsimp only
    rw [heq, ← hkv2]
    rfl

/-- C26, amended: on a pass with a non-empty snapshot the returned list is the changed
entries followed by the entries added for invalid endpoints.  For a listed servable `v`
that shares its instance name with no other listed servable and has the snapshot entry
`last`: the only changed entry of its instance name is `v` with its complete current
endpoint list; that entry is among the changed ones if and only if the snapshot list and
the current list differ in length or an endpoint of the snapshot list is not in the
current list; and for two lists without repeated endpoints, if and only if the two
differ as sets. -/
theorem changed_endpoints_marked (r : ModelsReloader)
    (invalid : String → Int → String → Bool) (models : List ServableID)
    (hsnap : r.lastStateInstancesOfModel.entries ≠ []) :
    ∃ changed : List ServableInstances,
      (r.instancesOfServablesToReload invalid models).1 =
        changed ++ invalidInstancesToReload changed
          (models.foldl (discoverServable r invalid) (InstanceMap.empty, [])).2 ∧
      ∀ v ∈ models, (∀ w ∈ models, w.InstanceName = v.InstanceName → w = v) →
        ∀ last, r.lastStateInstancesOfModel.find v.InstanceName = some last →
          (∀ e ∈ changed, e.InstanceName = v.InstanceName →
            e = { toServableID := v, instances := r.currentInstancesOf v }) ∧
          (({ toServableID := v, instances := r.currentInstancesOf v } :
              ServableInstances) ∈ changed ↔
            (last.instances.length ≠ (r.currentInstancesOf v).length ∨
              ∃ x ∈ last.instances, x ∉ r.currentInstancesOf v)) ∧
          (last.instances.Nodup → (r.currentInstancesOf v).Nodup →
            (({ toServableID := v, instances := r.currentInstancesOf v } :
                ServableInstances) ∈ changed ↔
              ¬ ∀ x, x ∈ last.instances ↔ x ∈ r.currentInstancesOf v)) := by
  obtain ⟨changed, hres, hchar⟩ := instancesOfServablesToReload_changed r invalid models hsnap
  refine ⟨changed, hres, ?_⟩
  intro v hv huniq last hlast
  have hkeys := foldl_discoverServable_keys r invalid models (InstanceMap.empty, [])
    (by intro kv h; cases h)
  have hpass : (models.foldl (discoverServable r invalid) (InstanceMap.empty, [])).1.find
      v.InstanceName = some { toServableID := v, instances := r.currentInstancesOf v } := by
    rw [foldl_discoverServable_find]
    cases hf : models.reverse.find? (fun w => decide (w.InstanceName = v.InstanceName)) with
    | none =>
      rw [List.find?_eq_none] at hf
      have := hf v (List.mem_reverse.mpr hv)
      simp at this
    | some w =>
      have hw := List.mem_reverse.mp (List.mem_of_find?_eq_some hf)
      have hn := List.find?_some hf
      have hwv : w = v := huniq w hw (by simpa using hn)
      rw [hwv]
  have hentry : ∀ kv ∈ (models.foldl (discoverServable r invalid)
      (InstanceMap.empty, [])).1.entries, kv.2.InstanceName = v.InstanceName →
      kv.1 = v.InstanceName ∧
      kv.2 = { toServableID := v, instances := r.currentInstancesOf v } := by
    intro kv hkv hname
    have hk : kv.1 = v.InstanceName := by rw [hkeys kv hkv, hname]
    have hmem : (v.InstanceName, kv.2) ∈ (models.foldl (discoverServable r invalid)
        (InstanceMap.empty, [])).1.entries := by
      rw [← hk]
      exact hkv
    have hfound := InstanceMap.findIn_of_mem _ _ _
      (models.foldl (discoverServable r invalid) (InstanceMap.empty, [])).1.nodupKeys hmem
    have hsame : some kv.2 =
        some ({ toServableID := v, instances := r.currentInstancesOf v } :
          ServableInstances) := by
      rw [← hfound]
      exact hpass
    exact ⟨hk, Option.some.inj hsame⟩
  have hiff : ({ toServableID := v, instances := r.currentInstancesOf v } :
      ServableInstances) ∈ changed ↔
      (last.instances.length ≠ (r.currentInstancesOf v).length ∨
        ∃ x ∈ last.instances, x ∉ r.currentInstancesOf v) := by
    rw [hchar, ← equal_eq_false_iff]
    constructor
    · rintro ⟨kv, hkv, hkv2, l0, hs, heq⟩
      obtain ⟨hk, _⟩ := hentry kv hkv (by rw [hkv2])
      rw [hk, hlast] at hs
      cases hs
      rw [hkv2] at heq
      exact heq
    · intro heq
      exact ⟨(v.InstanceName, { toServableID := v, instances := r.currentInstancesOf v }),
        InstanceMap.mem_of_findIn _ _ _ hpass, rfl, last, hlast, heq⟩
  refine ⟨?_, hiff, ?_⟩
  · intro e he hname
    obtain ⟨kv, hkv, hkv2, _⟩ := (hchar e).mp he
    rw [← hkv2]
    exact (hentry kv hkv (by rw [hkv2]; exact hname)).2
  · intro hn1 hn2
    rw [hiff]
    exact differ_as_sets_iff _ _ hn1 hn2

theorem changed_endpoints_marked_witness :
    (driftReloader.instancesOfServablesToReload noneInvalid [servableAP, servableBP]).1 =
      [{ toServableID := servableBP, instances := ["10.0.0.4:8500"] }] ∧
    ∃ changed : List ServableInstances,
      (driftReloader.instancesOfServablesToReload noneInvalid [servableAP, servableBP]).1 =
        changed ++ invalidInstancesToReload changed
          ([servableAP, servableBP].foldl (discoverServable driftReloader noneInvalid)
            (InstanceMap.empty, [])).2 :=
  ⟨by decide,
   (changed_endpoints_marked driftReloader noneInvalid [servableAP, servableBP]
      (by decide)).imp (fun _ h => h.1)⟩

/-! ## The service: RemoveByLabel and RemoveByVersion -/

theorem removeModel_ok {s s1 : ModelsService} {r : ModelsReloader} {fleet : ServingFleet}
    {id : ServableID} {params : QueryParameters} {events : List ReloadEvent} :
    s.removeModel r fleet id params = (.ok (), s1, events) →
    ∃ (listed : List ModelData) (sc : ServableConfig) (md : ModelTable),
      s.metadata.List params = .ok (some listed) ∧
      s.servingConfig.RemoveModel
        { toServableID := id, version := removedVersion listed, label := "" }
        = (.ok (), sc) ∧
      deleteListed listed s.metadata = (.ok (), md) ∧
      s1 = { metadata := md, servingConfig := sc,
             storage := s.storage.RemoveModel id (removedVersion listed) } := by
  unfold ModelsService.removeModel
  cases hl : s.metadata.List params with
  | error e => intro h; cases h
  | ok found =>
    cases found with
    | none => intro h; cases h
    | some modelsMetas =>
      dsimp only
      cases hr : s.servingConfig.RemoveModel
          { toServableID := id, version := removedVersion modelsMetas, label := "" } with
      | mk res sc =>
        cases res with
        | error e => intro h; cases h
        | ok u =>
          dsimp only
          cases hrel : ({ r with servableConfigurer := sc }).ReloadConfig fleet id.team
              id.project true with
          | mk outcome evs =>
            cases outcome with
            | success =>
              dsimp only
              cases hd : deleteListed modelsMetas s.metadata with
              | mk dres md =>
                cases dres with
                | error e => intro h; cases h
                | ok u2 =>
                  intro h
                  cases h
                  exact ⟨modelsMetas, sc, md, rfl, hr, hd, rfl⟩
            | discoveryFailed err => intro h; cases h
            | failed errs => intro h; cases h

theorem removedVersion_const (w : Int) :
    ∀ (listed : List ModelData), listed ≠ [] → (∀ m ∈ listed, m.version = w) →
      removedVersion listed = w := by
  have key : ∀ (listed : List ModelData) (start : Int),
      (∀ m ∈ listed, m.version = w) → (start = w ∨ (start < 0 ∧ listed ≠ [])) →
      listed.foldl (fun version (modelMeta : ModelData) =>
        if version < 0 then modelMeta.version else version) start = w := by
    intro listed
    induction listed with
    | nil =>
      intro start _ h
      rcases h with h | ⟨_, h⟩
      · exact h
      · exact absurd rfl h
    | cons m rest ih =>
      intro start hall h
      rw [List.foldl_cons]
      apply ih _ (fun x hx => hall x (List.mem_cons_of_mem _ hx))
      left
      have hm : m.version = w := hall m (List.mem_cons_self _ _)
      rcases h with h | ⟨h, _⟩
      · split
        · exact hm
        · exact h
      · rw [if_pos h]
        exact hm
  intro listed hne hall
  exact key listed (-1) hall (Or.inr ⟨by decide, hne⟩)

theorem deleteListed_ok :
    ∀ (listed : List ModelData) (t : ModelTable), (deleteListed listed t).1 = .ok () →
      (deleteListed listed t).2 =
        { t with rows := t.rows.filter (fun row =>
            !(listed.any (fun m => row.id == m.ID))) } := by
  intro listed
  induction listed with
  | nil =>
    intro t _
    simp [deleteListed]
  | cons m rest ih =>
    intro t h
    unfold deleteListed at h ⊢
    cases hd : t.Delete m.ID with
    | mk res t1 =>
      cases res with
      | error e =>
        rw [hd] at h
        cases h
      | ok u =>
        rw [hd] at h
        dsimp only at h ⊢
        have hdel := @Delete_ok t m.ID (by rw [hd])
        rw [hd] at hdel
        dsimp only at hdel
        rw [ih t1 h, hdel]
        simp only [List.filter_filter, List.any_cons, Bool.not_or]
        congr 1
        apply List.filter_congr
        intro row _
        exact Bool.and_comm _ _

theorem mapM_scanRow_ok :
    ∀ (rows : List ModelRow) (models : List ModelData),
      rows.mapM scanRow = .ok models →
      models.map (fun m => m.ID) = rows.map (fun row => row.id) ∧
      models.map (fun m => m.version) = rows.map (fun row => row.version) := by
  intro rows
  induction rows with
  | nil =>
    intro models h
    simp only [List.mapM_nil, pure, Except.pure] at h
    cases h
    exact ⟨rfl, rfl⟩
  | cons row rest ih =>
    intro models h
    rw [List.mapM_cons] at h
    cases hs : scanRow row with
    | error e =>
      rw [hs] at h
      cases h
    | ok m =>
      rw [hs] at h
      cases hr : rest.mapM scanRow with
      | error e =>
        rw [hr] at h
        cases h
      | ok ms =>
        rw [hr] at h
        simp only [bind, Except.bind, pure, Except.pure] at h
        cases h
        obtain ⟨h1, h2⟩ := ih ms hr
        unfold scanRow at hs
        cases hn : StatusToName row.status with
        | error e =>
          rw [hn] at hs
          cases hs
        | ok st =>
          rw [hn] at hs
          cases hs
          simp [h1, h2]

theorem removeModelConfigs_ok_first (id : ModelID) :
    ∀ (l : List ModelConfig) (res : Option (List ModelConfig)),
      removeModelConfigs id l = .ok res →
      ∀ (pre : List ModelConfig) (e : ModelConfig) (post : List ModelConfig),
        res.getD l = pre ++ e :: post → (∀ x ∈ pre, x.name ≠ id.name) →
        e.name = id.name → id.version ∉ e.versions := by
  intro l
  induction l with
  | nil =>
    intro res h pre e post hd _ _
    simp only [removeModelConfigs] at h
    cases h
    simp at hd
  | cons v rest ih =>
    intro res h pre e post hd hpre he
    by_cases hv : v.name = id.name
    · have hhead : ∀ (v1 : ModelConfig) (tail : List ModelConfig), v1.name = id.name →
          v1 :: tail = pre ++ e :: post → e = v1 := by
        intro v1 tail hv1 heq
        cases pre with
        | nil =>
          rw [List.nil_append] at heq
          exact (List.cons.inj heq).1.symm
        | cons p pre1 =>
          rw [List.cons_append] at heq
          have hp : v1 = p := (List.cons.inj heq).1
          exact absurd (hp ▸ hv1) (hpre p (List.mem_cons_self _ _))
      simp only [removeModelConfigs, hv, if_true, removeModelVersions_eq,
        length_filter_ne_iff] at h
      by_cases h1 : v.versionLabels.isNil = true
      · simp [h1] at h
      · by_cases h2 : isLabelStable v.versionLabels id.version = true
        · simp [h1, h2] at h
        · by_cases h3 : id.version ∈ v.versions
          · simp only [h1, h2, h3, if_true, if_false, Bool.false_eq_true, Except.ok.injEq] at h
            rw [← h] at hd
            rw [Option.getD_some] at hd
            rw [hhead _ _ rfl hd]
            simp
          · have hev : e = v := by
              cases hp : removeModelConfigs id rest with
              | error err => simp [h1, h2, h3, hp] at h
              | ok r =>
                cases r with
                | none =>
                  simp only [h1, h2, h3, hp, if_false, Bool.false_eq_true,
                    Except.ok.injEq] at h
                  rw [← h] at hd
                  exact hhead _ _ hv hd
                | some rest1 =>
                  simp only [h1, h2, h3, hp, if_false, Bool.false_eq_true,
                    Except.ok.injEq] at h
                  rw [← h] at hd
                  exact hhead _ _ hv hd
            rw [hev]
            exact h3
    · have htail : ∀ (tail : List ModelConfig), v :: tail = pre ++ e :: post →
          ∃ pre1, pre = v :: pre1 ∧ tail = pre1 ++ e :: post := by
        intro tail heq
        cases pre with
        | nil =>
          rw [List.nil_append] at heq
          have hp : v = e := (List.cons.inj heq).1
          exact absurd (hp ▸ he) hv
        | cons p pre1 =>
          rw [List.cons_append] at heq
          obtain ⟨hp, ht⟩ := List.cons.inj heq
          exact ⟨pre1, by rw [hp], ht⟩
      cases hp : removeModelConfigs id rest with
      | error err => simp [removeModelConfigs, hv, hp] at h
      | ok r =>
        cases r with
        | none =>
          simp only [removeModelConfigs, hv, hp, if_false, Except.ok.injEq] at h
          rw [← h] at hd
          obtain ⟨pre1, hpre1, ht⟩ := htail rest hd
          exact ih none hp pre1 e post ht
            (fun x hx => hpre x (by rw [hpre1]; exact List.mem_cons_of_mem _ hx)) he
        | some rest1 =>
          simp only [removeModelConfigs, hv, hp, if_false, Except.ok.injEq] at h
          rw [← h] at hd
          obtain ⟨pre1, hpre1, ht⟩ := htail rest1 hd
          exact ih (some rest1) hp pre1 e post ht
            (fun x hx => hpre x (by rw [hpre1]; exact List.mem_cons_of_mem _ hx)) he

theorem RemoveModel_ok_first (sc sc1 : ServableConfig) (id : ModelID)
    (h : sc.RemoveModel id = (.ok (), sc1)) (pre : List ModelConfig) (e : ModelConfig)
    (post : List ModelConfig)
    (hd : sc1.Config id.team id.project = pre ++ e :: post)
    (hpre : ∀ x ∈ pre, x.name ≠ id.name) (he : e.name = id.name) :
    id.version ∉ e.versions := by
  unfold ServableConfig.RemoveModel at h
  cases hr : removeModelConfigs id (sc.Config id.team id.project) with
  | error err =>
    rw [hr] at h
    cases h
  | ok res =>
    cases res with
    | none =>
      rw [hr] at h
      cases h
      exact removeModelConfigs_ok_first id _ none hr pre e post hd hpre he
    | some msc1 =>
      rw [hr] at h
      cases h
      rw [Config_saveModel] at hd
      exact removeModelConfigs_ok_first id _ (some msc1) hr pre e post hd hpre he

theorem List_ok {t : ModelTable} {params : QueryParameters} {cond : ModelRow → Bool}
    {listed : List ModelData} (hcond : buildSearchQueryAndValues params = .ok cond)
    (h : t.List params = .ok (some listed)) :
    (t.rows.filter cond).mapM scanRow = .ok listed ∧ listed ≠ [] := by
  unfold ModelTable.List at h
  rw [hcond] at h
  dsimp only at h
  cases hm : (t.rows.filter cond).mapM scanRow with
  | error e =>
    rw [hm] at h
    cases h
  | ok models =>
    rw [hm] at h
    dsimp only at h
    by_cases he : models.isEmpty = true
    · rw [if_pos he] at h
      cases h
    · rw [if_neg he] at h
      cases h
      refine ⟨rfl, ?_⟩
      intro hnil
      rw [hnil] at he
      exact he rfl

theorem removedVersion_mem :
    ∀ (listed : List ModelData), listed ≠ [] →
      ∃ m ∈ listed, m.version = removedVersion listed := by
  have key : ∀ (listed : List ModelData) (start : Int),
      (listed.foldl (fun version (modelMeta : ModelData) =>
        if version < 0 then modelMeta.version else version) start = start) ∨
      ∃ m ∈ listed, m.version = listed.foldl (fun version (modelMeta : ModelData) =>
        if version < 0 then modelMeta.version else version) start := by
    intro listed
    induction listed with
    | nil => intro start; exact Or.inl rfl
    | cons m rest ih =>
      intro start
      rw [List.foldl_cons]
      by_cases hs : start < 0
      · rw [if_pos hs]
        rcases ih m.version with h | ⟨x, hx, hxv⟩
        · exact Or.inr ⟨m, List.mem_cons_self _ _, h.symm⟩
        · exact Or.inr ⟨x, List.mem_cons_of_mem _ hx, hxv⟩
      · rw [if_neg hs]
        rcases ih start with h | ⟨x, hx, hxv⟩
        · exact Or.inl h
        · exact Or.inr ⟨x, List.mem_cons_of_mem _ hx, hxv⟩
  intro listed hne
  cases listed with
  | nil => exact absurd rfl hne
  | cons m rest =>
    unfold removedVersion
    rw [List.foldl_cons, if_pos (by decide)]
    rcases key rest m.version with h | ⟨x, hx, hxv⟩
    · exact ⟨m, List.mem_cons_self _ _, h.symm⟩
    · exact ⟨x, List.mem_cons_of_mem _ hx, hxv⟩

theorem removeModel_effect (s : ModelsService) (r : ModelsReloader) (fleet : ServingFleet)
    (id : ServableID) (params : QueryParameters) (cond : ModelRow → Bool)
    (hcond : buildSearchQueryAndValues params = .ok cond)
    (hids : (s.metadata.rows.map (fun row => row.id)).Nodup)
    (hok : (s.removeModel r fleet id params).1 = .ok ()) :
    ∃ listed : List ModelData, listed ≠ [] ∧
      listed.map (fun m => m.version) = (s.metadata.rows.filter cond).map
        (fun row => row.version) ∧
      (s.removeModel r fleet id params).2.1.metadata.rows =
        s.metadata.rows.filter (fun row => !cond row) ∧
      (s.removeModel r fleet id params).2.1.storage =
        s.storage.RemoveModel id (removedVersion listed) ∧
      ∀ (pre : List ModelConfig) (e : ModelConfig) (post : List ModelConfig),
        (s.removeModel r fleet id params).2.1.servingConfig.Config id.team id.project
          = pre ++ e :: post →
        (∀ x ∈ pre, x.name ≠ id.name) → e.name = id.name →
        removedVersion listed ∉ e.versions := by
  have hfull : s.removeModel r fleet id params =
      (.ok (), (s.removeModel r fleet id params).2.1,
        (s.removeModel r fleet id params).2.2) := by
    rw [← hok]
  obtain ⟨listed, sc, md, hlist, hremove, hdelete, hs1⟩ := removeModel_ok hfull
  obtain ⟨hmap, hne⟩ := List_ok hcond hlist
  obtain ⟨hidsEq, hversions⟩ := mapM_scanRow_ok _ _ hmap
  refine ⟨listed, hne, hversions, ?_, ?_, ?_⟩
  · rw [hs1]
    dsimp only
    have hd := deleteListed_ok listed s.metadata (by rw [hdelete])
    rw [hdelete] at hd
    dsimp only at hd
    rw [hd]
    dsimp only
    apply List.filter_congr
    intro row hrow
    congr 1
    have hany : ∀ l : List ModelData, l.any (fun m => row.id == m.ID) =
        (l.map (fun m => m.ID)).any (fun i => row.id == i) := by
      intro l
      induction l with
      | nil => rfl
      | cons m rest ih => simp only [List.any_cons, List.map_cons, ih]
    rw [hany listed, hidsEq]
    cases hc : cond row with
    | true =>
      rw [List.any_eq_true]
      exact ⟨row.id, List.mem_map.mpr ⟨row, List.mem_filter.mpr ⟨hrow, hc⟩, rfl⟩, by simp⟩
    | false =>
      rw [List.any_eq_false]
      intro i hi hrid
      obtain ⟨row1, hrow1, hi1⟩ := List.mem_map.mp hi
      obtain ⟨hmem1, hc1⟩ := List.mem_filter.mp hrow1
      have hsame : row1 = row := by
        apply List.inj_on_of_nodup_map hids hmem1 hrow
        simp only [beq_iff_eq] at hrid
        rw [hi1, hrid]
      rw [hsame, hc] at hc1
      cases hc1
  · rw [hs1]
  · intro pre e post hd hpre he
    rw [hs1] at hd
    exact RemoveModel_ok_first s.servingConfig sc
      { toServableID := id, version := removedVersion listed, label := "" } hremove
      pre e post hd hpre he

/-- C30: with unique row ids, a successful `RemoveByLabel(id, label)` removes, for the
version `v` of a row that carries the label, the directory of `v` and `v` from the
versions of the blob entry named `id.name`; its metadata afterwards is the old rows
without those of (`id`, `label`), so every row with another label (the anchor row of `v`
among them) is still there.  A successful `RemoveByVersion(id, version)` leaves the old
rows without those of (`id`, `version`), so no row of (`id`, `version`) is left, removes
the directory and the version from the blob entry. -/
theorem removeByLabel_keeps_other_rows (s : ModelsService) (r : ModelsReloader)
    (fleet : ServingFleet) (id : ServableID) (label : String) (version : Int)
    (hids : (s.metadata.rows.map (fun row => row.id)).Nodup) :
    ((s.RemoveByLabel r fleet id label).1 = .ok () →
      ∃ v : Int,
        (∃ row ∈ s.metadata.rows, sameLabelKey id label row = true ∧ row.version = v) ∧
        (s.RemoveByLabel r fleet id label).2.1.metadata.rows =
          s.metadata.rows.filter (fun row => !sameLabelKey id label row) ∧
        (∀ row ∈ s.metadata.rows, row.label ≠ label →
          row ∈ (s.RemoveByLabel r fleet id label).2.1.metadata.rows) ∧
        (s.RemoveByLabel r fleet id label).2.1.storage.exists_ id v = false ∧
        ∀ (pre : List ModelConfig) (e : ModelConfig) (post : List ModelConfig),
          (s.RemoveByLabel r fleet id label).2.1.servingConfig.Config id.team id.project
            = pre ++ e :: post →
          (∀ x ∈ pre, x.name ≠ id.name) → e.name = id.name → v ∉ e.versions) ∧
    ((s.RemoveByVersion r fleet id version).1 = .ok () →
      (s.RemoveByVersion r fleet id version).2.1.metadata.rows =
        s.metadata.rows.filter (fun row =>
          !(decide (row.team = id.team) && decide (row.project = id.project) &&
            decide (row.name = id.name) && decide (row.version = version))) ∧
      (∀ row ∈ (s.RemoveByVersion r fleet id version).2.1.metadata.rows,
        ¬ (row.team = id.team ∧ row.project = id.project ∧ row.name = id.name ∧
          row.version = version)) ∧
      (s.RemoveByVersion r fleet id version).2.1.storage.exists_ id version = false ∧
      ∀ (pre : List ModelConfig) (e : ModelConfig) (post : List ModelConfig),
        (s.RemoveByVersion r fleet id version).2.1.servingConfig.Config id.team id.project
          = pre ++ e :: post →
        (∀ x ∈ pre, x.name ≠ id.name) → e.name = id.name → version ∉ e.versions) := by
  have hexists : ∀ (st : ModelsStorage) (v : Int),
      (st.RemoveModel id v).exists_ id v = false := by
    intro st v
    simp [ModelsStorage.RemoveModel, ModelsStorage.exists_]
  constructor
  · intro hok
    have hcond : buildSearchQueryAndValues
        { team := some id.team, project := some id.project, name := some id.name,
          label := some label } = .ok (fun row => sameLabelKey id label row) := by
      unfold buildSearchQueryAndValues
      dsimp only
      congr 1
      funext row
      simp [columnIs, sameLabelKey]
    obtain ⟨listed, hne, hversions, hrows, hstorage, hblob⟩ :=
      removeModel_effect s r fleet id _ _ hcond hids hok
    obtain ⟨m, hm, hmv⟩ := removedVersion_mem listed hne
    refine ⟨removedVersion listed, ?_, hrows, ?_, ?_, hblob⟩
    · have hin : removedVersion listed ∈ listed.map (fun m => m.version) :=
        List.mem_map.mpr ⟨m, hm, hmv⟩
      rw [hversions] at hin
      obtain ⟨row, hrow, hv⟩ := List.mem_map.mp hin
      obtain ⟨hmem, hc⟩ := List.mem_filter.mp hrow
      exact ⟨row, hmem, hc, hv⟩
    · intro row hrow hlabel
      unfold ModelsService.RemoveByLabel
      rw [hrows]
      apply List.mem_filter.mpr
      refine ⟨hrow, ?_⟩
      simp [sameLabelKey, hlabel]
    · unfold ModelsService.RemoveByLabel
      rw [hstorage]
      exact hexists _ _
  · intro hok
    have hcond : buildSearchQueryAndValues
        { team := some id.team, project := some id.project, name := some id.name,
          version := some version } = .ok (fun row =>
            decide (row.team = id.team) && decide (row.project = id.project) &&
            decide (row.name = id.name) && decide (row.version = version)) := by
      unfold buildSearchQueryAndValues
      dsimp only
      congr 1
      funext row
      simp [columnIs]
    obtain ⟨listed, hne, hversions, hrows, hstorage, hblob⟩ :=
      removeModel_effect s r fleet id _ _ hcond hids hok
    have hv : removedVersion listed = version := by
      apply removedVersion_const version listed hne
      intro m hm
      have hin : m.version ∈ listed.map (fun m => m.version) :=
        List.mem_map.mpr ⟨m, hm, rfl⟩
      rw [hversions] at hin
      obtain ⟨row, hrow, hrv⟩ := List.mem_map.mp hin
      obtain ⟨_, hc⟩ := List.mem_filter.mp hrow
      simp only [Bool.and_eq_true, decide_eq_true_eq] at hc
      rw [← hrv]
      exact hc.2
    rw [hv] at hstorage hblob
    refine ⟨hrows, ?_, ?_, hblob⟩
    · intro row hrow hc
      unfold ModelsService.RemoveByVersion at hrow
      rw [hrows] at hrow
      obtain ⟨_, hf⟩ := List.mem_filter.mp hrow
      simp [hc.1, hc.2.1, hc.2.2.1, hc.2.2.2] at hf
    · unfold ModelsService.RemoveByVersion
      rw [hstorage]
      exact hexists _ _

theorem removeByLabel_keeps_other_rows_witness :
    (afterSecondUpload.RemoveByLabel sampleReloader healthyFleet servableM "canary").1
      = .ok () ∧
    ({ id := 4, team := "t", project := "p", name := "m", version := 2, label := "",
       status := 2 } : ModelRow) ∈ afterSecondUpload.metadata.rows ∧
    (∀ row ∈ afterSecondUpload.metadata.rows, row.label ≠ "canary" →
      row ∈ (afterSecondUpload.RemoveByLabel sampleReloader healthyFleet servableM
        "canary").2.1.metadata.rows) ∧
    (afterSecondUpload.RemoveByVersion sampleReloader healthyFleet servableM 2).1
      = .ok () ∧
    (∃ row ∈ afterSecondUpload.metadata.rows, row.team = servableM.team ∧
      row.project = servableM.project ∧ row.name = servableM.name ∧ row.version = 2) ∧
    (∀ row ∈ (afterSecondUpload.RemoveByVersion sampleReloader healthyFleet servableM
        2).2.1.metadata.rows,
      ¬ (row.team = servableM.team ∧ row.project = servableM.project ∧
        row.name = servableM.name ∧ row.version = 2)) ∧
    (afterSecondUpload.RemoveByVersion sampleReloader healthyFleet servableM
        2).2.1.metadata.rows =
      [{ id := 1, team := "t", project := "p", name := "m", version := 1, label := "",
         status := 2 },
       { id := 3, team := "t", project := "p", name := "m", version := 1,
         label := "stable", status := 2 }] ∧
    (afterSecondUpload.RemoveByVersion sampleReloader healthyFleet servableM
        2).2.1.storage.exists_ servableM 2 = false :=
  ⟨by decide, by decide,
   ((removeByLabel_keeps_other_rows afterSecondUpload sampleReloader healthyFleet servableM
      "canary" 2 (by decide)).1 (by decide)).elim (fun _ h => h.2.2.1),
   by decide, by decide,
   ((removeByLabel_keeps_other_rows afterSecondUpload sampleReloader healthyFleet servableM
      "canary" 2 (by decide)).2 (by decide)).2.1,
   ((removeByLabel_keeps_other_rows afterSecondUpload sampleReloader healthyFleet servableM
      "canary" 2 (by decide)).2 (by decide)).1.trans (by decide),
   ((removeByLabel_keeps_other_rows afterSecondUpload sampleReloader healthyFleet servableM
      "canary" 2 (by decide)).2 (by decide)).2.2.1⟩

/-! ## The REST upload: the checksum -/

theorem callUploadModel_calls
    (service : ServableID → List Nat → List String → Except String ModelID)
    (id : ServableID) (content : List Nat) (label : List String) :
    (callUploadModel service id content label).2.2 =
      [{ id := id, content := content, label := label }] := by
  unfold callUploadModel
  cases service id content label <;> rfl

/-- C21: for a request whose form holds the file `body`: when a non-empty checksum is
supplied that differs from the lower-case hexadecimal digest of `body`, `uploadModel`
answers 400 with `errorInvalidChecksum` and does not call the service; when the checksum
is empty (or absent) or equals the digest, it calls the service once, with a stream
whose content is `body`. -/
theorem uploadModel_checksum (sha256 : List Nat → List Nat)
    (service : ServableID → List Nat → List String → Except String ModelID)
    (r : UploadRequest) (id : ServableID) (label : List String) (body : List Nat)
    (hfile : r.formFile = some body) :
    (r.formChecksum ≠ "" → r.formChecksum ≠ hexLower (sha256 body) →
      (uploadModel sha256 service r id label).1 =
        { modelID := none, responseCode := 400 } ∧
      (uploadModel sha256 service r id label).2.1 = some .errorInvalidChecksum ∧
      (uploadModel sha256 service r id label).2.2 = []) ∧
    (r.formChecksum = "" ∨ r.formChecksum = hexLower (sha256 body) →
      (uploadModel sha256 service r id label).2.2 =
        [{ id := id, content := body, label := label }]) := by
  unfold uploadModel
  rw [hfile]
  dsimp only
  constructor
  · intro hne hdiff
    rw [if_pos hne]
    have hv : isChecksumValid sha256 { r := body, w := [] } r.formChecksum =
        (false, { r := [], w := body }) := by
      unfold isChecksumValid calculateChecksum TeeReader.readAll
      rw [if_neg hne]
      dsimp only
      rw [if_pos hdiff]
      rfl
    rw [hv]
    exact ⟨rfl, rfl, rfl⟩
  · intro h
    by_cases hne : r.formChecksum = ""
    · rw [if_neg (not_not.mpr hne)]
      exact callUploadModel_calls service id body label
    · rw [if_pos hne]
      have hsame : r.formChecksum = hexLower (sha256 body) := by
        rcases h with h | h
        · exact absurd h hne
        · exact h
      have hv : isChecksumValid sha256 { r := body, w := [] } r.formChecksum =
          (true, { r := [], w := body }) := by
        unfold isChecksumValid calculateChecksum TeeReader.readAll
        rw [if_neg hne]
        dsimp only
        rw [if_neg (not_not.mpr hsame)]
        rfl
      rw [hv]
      exact callUploadModel_calls service id body label

theorem uploadModel_checksum_witness :
    (uploadModel lengthDigest acceptingService
      { formFile := some [1, 2, 3], formChecksum := "03" } servableM []).2.2 =
      [{ id := servableM, content := [1, 2, 3], label := [] }] ∧
    (uploadModel lengthDigest acceptingService
      { formFile := some [1, 2, 3], formChecksum := "04" } servableM []).1 =
      { modelID := none, responseCode := 400 } :=
  ⟨(uploadModel_checksum lengthDigest acceptingService
      { formFile := some [1, 2, 3], formChecksum := "03" } servableM [] [1, 2, 3] rfl).2
      (Or.inr (by decide)),
   ((uploadModel_checksum lengthDigest acceptingService
      { formFile := some [1, 2, 3], formChecksum := "04" } servableM [] [1, 2, 3] rfl).1
      (by decide) (by decide)).1⟩

/-! ## The plaintext discovery -/

/-- C22, failing input: `isValidInstance` accepts `10.0.0.1:+8500`, whose port piece
`+8500` is not a string of decimal digits.  On the addresses of `Test_isInstanceValid`
it answers as the test expects. -/
theorem isValidInstance_accepts_signed_port :
    Split (fun c => c == ':') "10.0.0.1:+8500" = ["10.0.0.1", "+8500"] ∧
    "+8500".toList.all (fun ch => ch.isDigit) = false ∧
    Atoi "+8500" = some 8500 ∧
    isValidInstance "10.0.0.1:+8500" = true ∧
    isValidInstance "192.168.1.1:8500" = true ∧
    isValidInstance "192.168.1.1:65001" = true ∧
    isValidInstance "192.168.1.1:1" = true ∧
    isValidInstance "192.168.1.1:-1" = false ∧
    isValidInstance "192.168.1.1:00023" = false := by
  decide

/-- C23, failing input: `isValidInstanceName` accepts `tfs-t-p.example.com`, which goes
on after the project, and a name whose project has 33 characters.  On the names of
`Test_isValidInstanceName` it answers as the test expects. -/
theorem isValidInstanceName_accepts_longer_names :
    isValidInstanceName "tfs-t-p.example.com" = true ∧
    isValidInstanceName "tfs-t-ppppppppppppppppppppppppppppppppp" = true ∧
    "ppppppppppppppppppppppppppppppppp".length = 33 ∧
    isValidInstanceName "tfs-moo-ppp" = true ∧
    isValidInstanceName "tfs-moomoomoomoomoomoomoo-ppp" = true ∧
    isValidInstanceName "tfx-moomoomoomoomoomoomoo-ppp" = false ∧
    isValidInstanceName "tfs-(-ppp" = false := by
  decide

/-- C24, failing input: the only line of the hosts file is a record of `tfs-t-p` behind
one space.  `skipLine` does not skip the line and `readInstances` reads its address,
but `Discover` for (`t`, `p`) fails with `errPlainTextInvalidInstanceName`; without the
space it returns the address. -/
theorem discover_fails_on_indented_record :
    skipLine " tfs-t-p 10.0.0.1:8500" = false ∧
    readInstances 0 " tfs-t-p 10.0.0.1:8500" = .ok ["10.0.0.1:8500"] ∧
    skipInstanceName " tfs-t-p 10.0.0.1:8500" servableTP.InstanceName =
      .error .errPlainTextInvalidInstanceName ∧
    indentedHosts.Discover servableTP = .error .errPlainTextInvalidInstanceName ∧
    flushHosts.Discover servableTP = .ok ["10.0.0.1:8500"] := by
  decide

/-! ## The configuration: the order of the sources -/

theorem selectValue_four {ν : Type} (y e c d : Option ν) :
    (selectValue [("YAML-FILE", y), ("ENV", e), ("CLI", c), ("Defaults", d)]).map Prod.fst
      = match [c, e, y, d].findSome? id with
        | some value => .ok value
        | none => .error (.nilValue "Defaults") := by
  cases y <;> cases e <;> cases c <;> cases d <;> rfl

theorem mergeFields_four {ν : Type} (c : Config ν) :
    ∀ (fields : List String) (acc : (String → Option ν) × List MergedMeta),
      (∀ path ∈ fields,
        ([c.cli path, c.env path, c.yamlFile path, c.defaults path].findSome? id).isSome) →
      ∃ metas, mergeFields
        [{ name := "YAML-FILE", data := c.yamlFile }, { name := "ENV", data := c.env },
         { name := "CLI", data := c.cli }, { name := "Defaults", data := c.defaults }]
        fields acc =
        .ok (fun p => if p ∈ fields then
              [c.cli p, c.env p, c.yamlFile p, c.defaults p].findSome? id
            else acc.1 p, metas) := by
  intro fields
  induction fields with
  | nil =>
    intro acc _
    exact ⟨acc.2, by simp [mergeFields]⟩
  | cons path rest ih =>
    intro acc h
    have hsel := selectValue_four (c.yamlFile path) (c.env path) (c.cli path)
      (c.defaults path)
    have hp := h path (List.mem_cons_self _ _)
    unfold mergeFields
    simp only [List.map_cons, List.map_nil]
    cases hs : selectValue [("YAML-FILE", c.yamlFile path), ("ENV", c.env path),
        ("CLI", c.cli path), ("Defaults", c.defaults path)] with
    | error err =>
      rw [hs] at hsel
      cases hf : [c.cli path, c.env path, c.yamlFile path, c.defaults path].findSome? id with
      | none =>
        rw [hf] at hp
        cases hp
      | some value =>
        rw [hf] at hsel
        cases hsel
    | ok sel =>
      rw [hs] at hsel
      cases hf : [c.cli path, c.env path, c.yamlFile path, c.defaults path].findSome? id with
      | none =>
        rw [hf] at hp
        cases hp
      | some value =>
        rw [hf] at hsel
        have hv : sel.1 = value := by
          simp only [Except.map] at hsel
          cases hsel
          rfl
        dsimp only
        obtain ⟨metas, hm⟩ := ih
          (fun p => if p = path then some sel.1 else acc.1 p,
            acc.2 ++ [{ fieldPath := path, source := sel.2 }])
          (fun q hq => h q (List.mem_cons_of_mem _ hq))
        refine ⟨metas, ?_⟩
        rw [hm]
        congr 2
        funext p
        by_cases hrest : p ∈ rest
        · simp [hrest]
        · by_cases hpp : p = path
          · subst hpp
            simp [hrest, hv, hf]
          · simp [hrest, hpp]

/-- C25, counterexample: the command line and the YAML file both set the listen host,
and `Parse` produces the value of the command line, not the one of the YAML file. -/
theorem parse_prefers_cli_to_yaml :
    cliAndYaml.cli "App.ListenHost" = some "10.0.0.1" ∧
    cliAndYaml.yamlFile "App.ListenHost" = some "10.0.0.2" ∧
    (cliAndYaml.Parse (fun _ => true)).map (fun params => params "App.ListenHost")
      = .ok (some "10.0.0.1") := by
  decide

/-- C25, amended: for every parameter of `app.Config`, the value `Parse` produces is the
one of the first source, in the order command line, environment, YAML file, defaults,
that sets it (a non-nil pointer).  `Parse` produces this configuration whenever each
parameter is set by some source and the configuration passes the validation. -/
theorem parse_selects_cli_env_yaml {ν : Type} (validate : (String → Option ν) → Bool)
    (c : Config ν)
    (hset : ∀ path ∈ configFields,
      ([c.cli path, c.env path, c.yamlFile path, c.defaults path].findSome? id).isSome)
    (hvalid : validate (fun p => if p ∈ configFields then
        [c.cli p, c.env p, c.yamlFile p, c.defaults p].findSome? id else none) = true) :
    ∃ configParams, c.Parse validate = .ok configParams ∧
      ∀ path ∈ configFields,
        configParams path =
          [c.cli path, c.env path, c.yamlFile path, c.defaults path].findSome? id ∧
        (c.cli path ≠ none → configParams path = c.cli path) ∧
        (c.cli path = none → c.env path ≠ none → configParams path = c.env path) ∧
        (c.cli path = none → c.env path = none → c.yamlFile path ≠ none →
          configParams path = c.yamlFile path) ∧
        (c.cli path = none → c.env path = none → c.yamlFile path = none →
          configParams path = c.defaults path) := by
  obtain ⟨metas, hm⟩ := mergeFields_four c configFields (fun _ => none, []) hset
  refine ⟨fun p => if p ∈ configFields then
      [c.cli p, c.env p, c.yamlFile p, c.defaults p].findSome? id else none, ?_, ?_⟩
  · unfold Config.Parse StructMerge.Merge mergeSources
    simp only [List.length_cons, List.length_nil, List.reverse_cons, List.reverse_nil,
      List.nil_append, List.cons_append]
    rw [if_neg (by decide), hm]
    dsimp only
    rw [if_pos hvalid]
  · intro path hpath
    simp only [hpath, if_true]
    refine ⟨trivial, ?_, ?_, ?_, ?_⟩
    · intro h1
      cases hc : c.cli path with
      | none => exact absurd hc h1
      | some v => rfl
    · intro h1 h2
      rw [h1]
      cases he : c.env path with
      | none => exact absurd he h2
      | some v => rfl
    · intro h1 h2 h3
      rw [h1, h2]
      cases hy : c.yamlFile path with
      | none => exact absurd hy h3
      | some v => rfl
    · intro h1 h2 h3
      rw [h1, h2, h3]
      cases c.defaults path <;> rfl

theorem parse_selects_cli_env_yaml_witness :
    ∃ configParams, cliAndYaml.Parse (fun _ => true) = .ok configParams ∧
      configParams "App.ListenHost" = some "10.0.0.1" ∧
      configParams "App.ListenPort" = some "0.0.0.0" :=
  (parse_selects_cli_env_yaml (fun _ => true) cliAndYaml (by decide) rfl).imp
    (fun _ h => ⟨h.1, (h.2 "App.ListenHost" (by decide)).1.trans (by decide),
      (h.2 "App.ListenPort" (by decide)).1.trans (by decide)⟩)

end TFDeploy
